import Mathlib

/-!
# Volcano batch scheduler: allocate action, metrics overlay, telemetry cache

A shallow embedding of

* `pkg/scheduler/actions/allocate/allocate.go` (`allocateAction.Execute`),
* `pkg/scheduler/plugins/archimedesmetrics/archimedesmetrics.go`
  (`OnSessionOpen`, `calcRequestedResource`),
* `pkg/scheduler/archimedes/metricsprovider` (`nodeMetricsCache`,
  `GetALlNodeMetrics`, `GetAllNodeAllocatable`).

Go maps are association lists whose list order stands for the (unspecified)
iteration order of `range`; pointers to session objects are keys that are
dereferenced through the current session state; `float64` arithmetic is read
as exact arithmetic over `ℚ`.
-/

namespace Volcano

/-! ## Go maps as association lists -/

/-- A Go `map[κ]ν`; list order stands for the iteration order of `range`. -/
abbrev GoMap (κ ν : Type) := List (κ × ν)

/-- The lookup `v, found := m[x]`. -/
def mapGet {κ ν : Type} [DecidableEq κ] : GoMap κ ν → κ → Option ν
  | [], _ => none
  | (k, v) :: m, x => if k = x then some v else mapGet m x

/-- The assignment `m[x] = w`. -/
def mapSet {κ ν : Type} [DecidableEq κ] : GoMap κ ν → κ → ν → GoMap κ ν
  | [], x, w => [(x, w)]
  | (k, v) :: m, x, w => if k = x then (k, w) :: m else (k, v) :: mapSet m x w

/-- The statement `delete(m, x)`. -/
def mapDelete {κ ν : Type} [DecidableEq κ] : GoMap κ ν → κ → GoMap κ ν
  | [], _ => []
  | (k, v) :: m, x => if k = x then mapDelete m x else (k, v) :: mapDelete m x

/-! ## Data model (package `api`) -/

abbrev NamespaceName := String

abbrev QueueID := String

abbrev JobID := String

abbrev TaskID := String

/-- A pointer to a node of the session: its key in `ssn.Nodes`. -/
abbrev NodeRef := String

/-- The resource vector `api.Resource`; `float64` fields are exact rationals. -/
structure Resource where
  MilliCPU : ℚ
  Memory : ℚ
  ScalarResources : List (String × ℚ)
  MaxTaskNum : Int
deriving DecidableEq

/-- The fields of `api.NodeInfo` read or written by the modelled code. -/
structure NodeInfo where
  Name : String
  Releasing : Resource
  Idle : Resource
  Used : Resource
  Allocatable : Resource
deriving DecidableEq

/-- The fields of `api.TaskInfo` read by the allocate action. -/
structure TaskInfo where
  UID : TaskID
  Job : JobID
  Name : String
  Namespace : String
  Resreq : Resource
  InitResreq : Resource
deriving DecidableEq

/-- The phase of a pod group (`scheduling.PodGroupPhase`). -/
inductive PodGroupPhase where
  | Pending
  | Running
  | Unknown
  | Inqueue
deriving DecidableEq

/-- The identity fields of `api.JobInfo` and its pod-group phase; the mutable
task index and fit records of a job live in the session state. -/
structure JobInfo where
  UID : JobID
  Name : String
  Namespace : String
  Queue : QueueID
  Phase : PodGroupPhase
deriving DecidableEq

/-- The fields of `api.QueueInfo`. -/
structure QueueInfo where
  UID : QueueID
  Name : String
  Weight : Int
deriving DecidableEq

/-- The result of `ssn.JobValid` (`api.ValidateResult`). -/
structure ValidateResult where
  Pass : Bool
  Reason : String
  Message : String
deriving DecidableEq

/-- The kinds of fit error named by the specification. -/
inductive FitKind where
  | NodeResourceFitFailed
  | PredicatePluginFailed
deriving DecidableEq

/-- Modelled from the spec: `api.FitError` as built by `api.NewFitError`
(package `api` is not among the sources): the task, the node and the kind. -/
structure FitError where
  TaskNamespace : String
  TaskName : String
  NodeName : String
  Kind : FitKind
deriving DecidableEq

/-- A Go `error` value returned by a predicate. -/
inductive Error where
  | fit (e : FitError)
  | other (msg : String)
deriving DecidableEq

/-- Modelled from the spec: `api.NewFitError(task, node, kind)`. -/
def NewFitError (task : TaskInfo) (node : NodeInfo) (kind : FitKind) : Error :=
  Error.fit ⟨task.Namespace, task.Name, node.Name, kind⟩

/-- The per-node errors collected for a task by `util.PredicateNodes`. -/
abbrev FitErrors := List (String × Error)

/-- The score table returned by `util.PrioritizeNodes`. -/
abbrev NodeScores := List (ℚ × List NodeRef)

/-! ## Priority queue (package `util`) -/

/-- Modelled from the spec: `util.PriorityQueue`, a comparator-driven heap;
the items are kept in insertion order. -/
abbrev PriorityQueue (α : Type) := List α

/-- Modelled from the spec: `PriorityQueue.Push`. -/
def PriorityQueue.Push {α : Type} (q : PriorityQueue α) (x : α) : PriorityQueue α :=
  q ++ [x]

/-- Modelled from the spec: `PriorityQueue.Pop` removes and returns the item
that is first under the comparator; among items the comparator does not
separate, insertion order decides. `none` stands for a pop on an empty queue. -/
def PriorityQueue.Pop {α : Type} (less : α → α → Bool) :
    PriorityQueue α → Option (α × PriorityQueue α)
  | [] => none
  | x :: xs =>
    match PriorityQueue.Pop less xs with
    | none => some (x, [])
    | some (y, ys) => if less y x then some (y, x :: ys) else some (x, xs)

/-- The method `PriorityQueue.Empty`. -/
def PriorityQueue.Empty {α : Type} (q : PriorityQueue α) : Bool := q.isEmpty

/-- The method `PriorityQueue.Len`. -/
def PriorityQueue.Len {α : Type} (q : PriorityQueue α) : Nat := q.length

/-! ## The session and the code it calls outside the sources -/

/-- The session seen by the allocate action. `σ` is the mutable snapshot that
`*framework.Session` points to (nodes, jobs, plugin state); `τ` is a
`*framework.Statement`. The fields are the session hooks and the functions of
packages `framework`, `api` and `util` that `Execute` calls; none of them is
among the sources, so they are parameters. -/
structure Session (σ τ : Type) where
  /-- The map `ssn.Jobs`, in iteration order. -/
  Jobs : List JobInfo
  /-- The map `ssn.Queues`. -/
  Queues : GoMap QueueID QueueInfo
  /-- The result of `util.GetNodeList(ssn.Nodes)`. -/
  Nodes : List NodeRef
  /-- Dereference of a node pointer in the current state. -/
  Node : σ → NodeRef → NodeInfo
  /-- The task set `job.TaskStatusIndex[api.Pending]`, in iteration order. -/
  PendingTasks : σ → JobInfo → List TaskInfo
  /-- The value `len(job.NodesFitDelta)`. -/
  NodesFitDeltaLen : σ → JobInfo → Nat
  /-- The assignment `job.NodesFitDelta = make(api.NodeResourceMap)`. -/
  ResetNodesFitDelta : σ → JobInfo → σ
  /-- The assignment `job.NodesFitDelta[name] = delta`. -/
  SetNodesFitDelta : σ → JobInfo → String → Resource → σ
  /-- The assignment `job.NodesFitErrors[task.UID] = fitErrors`. -/
  SetNodesFitErrors : σ → JobInfo → TaskInfo → FitErrors → σ
  NamespaceOrderFn : σ → NamespaceName → NamespaceName → Bool
  QueueOrderFn : σ → QueueInfo → QueueInfo → Bool
  JobOrderFn : σ → JobInfo → JobInfo → Bool
  TaskOrderFn : σ → TaskInfo → TaskInfo → Bool
  /-- The hook `ssn.JobValid`; `none` is a nil result. -/
  JobValid : σ → JobInfo → Option ValidateResult
  Overused : σ → QueueInfo → Bool
  JobReady : σ → JobInfo → Bool
  /-- The hook `ssn.PredicateFn`; `none` is a nil error. -/
  PredicateFn : σ → TaskInfo → NodeInfo → Option Error
  /-- The method `Resource.LessEqual`. -/
  LessEqual : Resource → Resource → Bool
  /-- The method `Resource.IsEmpty`. -/
  IsEmpty : Resource → Bool
  /-- The value of `have.Clone()` after `FitDelta(req)`. -/
  FitDelta : Resource → Resource → Resource
  /-- The function `util.PredicateNodes(task, nodes, fn)`. -/
  PredicateNodes : σ → TaskInfo → List NodeRef → (TaskInfo → NodeInfo → Option Error) →
    List NodeRef × FitErrors
  /-- The function `util.PrioritizeNodes` with the three scoring hooks. -/
  PrioritizeNodes : σ → TaskInfo → List NodeRef → NodeScores
  /-- The function `util.SelectTopNodes(nodeScores, count)`. -/
  SelectTopNodes : NodeScores → Nat → List NodeRef
  /-- The constructor `ssn.Statement()`. -/
  Statement : σ → τ
  /-- The method `stmt.Allocate(task, hostname)`: new session state, new statement and the
  returned error. -/
  Allocate : σ → τ → TaskInfo → String → σ × τ × Option Error
  /-- The method `stmt.Pipeline(task, hostname)`. -/
  Pipeline : σ → τ → TaskInfo → String → σ × τ × Option Error
  /-- The method `stmt.Commit()`. -/
  Commit : σ → τ → σ
  /-- The method `stmt.Discard()`. -/
  Discard : σ → τ → σ

/-- The calls of `Execute` that the claims speak about, in program order. -/
inductive Event where
  /-- The pop `job := jobs.Pop()`. -/
  | popJob (job : JobInfo)
  /-- A pop from `pendingTasks[job.UID]`. -/
  | popTask (task : TaskInfo)
  /-- The call `stmt.Allocate(task, node.Name)`. -/
  | allocate (task : TaskInfo) (node : String)
  /-- The call `stmt.Pipeline(task, node.Name)`. -/
  | pipeline (task : TaskInfo) (node : String)
  /-- The assignment `job.NodesFitErrors[task.UID] = fitErrors`. -/
  | fitErrors (job : JobInfo) (task : TaskInfo)
  /-- The call `ssn.JobReady(job)` and its result. -/
  | jobReady (job : JobInfo) (ready : Bool)
  /-- The call `stmt.Commit()`. -/
  | commit (job : JobInfo)
  /-- The call `stmt.Discard()`. -/
  | discard (job : JobInfo)
  /-- A pop on an empty task heap (a run-time panic in Go). -/
  | panic
deriving DecidableEq

/-! ## The allocate action (`allocate.go`) -/

/-- The map `jobsMap` of `Execute`: namespace, then queue, then the job heap. -/
abbrev JobsMap := GoMap NamespaceName (GoMap QueueID (PriorityQueue JobInfo))

/-- The closure `predicateFn` of `Execute` (lines 100-113), evaluated in session state `s`.
The second component lists the calls made to `ssn.PredicateFn`. -/
def predicateFn {σ τ : Type} (ssn : Session σ τ) (s : σ) (task : TaskInfo) (node : NodeInfo) :
    Option Error × List (TaskInfo × NodeInfo) :=
  if (!ssn.LessEqual task.InitResreq node.Idle) && (!ssn.LessEqual task.InitResreq node.Releasing) then
    (some (NewFitError task node FitKind.NodeResourceFitFailed), [])
  else
    (ssn.PredicateFn s task node, [(task, node)])

/-- One iteration of the loop over `ssn.Jobs` (lines 60-92): the namespace heap and `jobsMap`
after the job has been looked at. -/
def bucketJob {σ τ : Type} (ssn : Session σ τ) (s : σ)
    (acc : PriorityQueue NamespaceName × JobsMap) (job : JobInfo) :
    PriorityQueue NamespaceName × JobsMap :=
  if job.Phase = PodGroupPhase.Pending then acc
  else if (match ssn.JobValid s job with
      | some vr => !vr.Pass
      | none => false) then acc
  else if (mapGet ssn.Queues job.Queue).isNone then acc
  else
    let ns : NamespaceName := job.Namespace
    let found := mapGet acc.2 ns
    let namespaces := match found with
      | some _ => acc.1
      | none => PriorityQueue.Push acc.1 ns
    let queueMap := match found with
      | some qm => qm
      | none => []
    let jobs := match mapGet queueMap job.Queue with
      | some js => js
      | none => []
    (namespaces, mapSet acc.2 ns (mapSet queueMap job.Queue (PriorityQueue.Push jobs job)))

/-- The bucketisation pass (lines 54-92). -/
def bucketise {σ τ : Type} (ssn : Session σ τ) (s : σ) : PriorityQueue NamespaceName × JobsMap :=
  ssn.Jobs.foldl (bucketJob ssn s) ([], [])

/-- The queue scan (lines 134-146) over the entries of `queueInNamespace` that are still to
be visited, with the current value of `queue`. Returns the entries that stay in the map and
the final `queue`. A key without an entry in `ssn.Queues` does not occur in a run of
`Execute` (every key passed the check of line 69, see `Execute_queues_registered`); such an
entry is passed over. -/
def selectQueue {σ τ : Type} (ssn : Session σ τ) (s : σ) :
    GoMap QueueID (PriorityQueue JobInfo) → Option QueueInfo →
    GoMap QueueID (PriorityQueue JobInfo) × Option QueueInfo
  | [], queue => ([], queue)
  | (queueId, jobs) :: rest, queue =>
    match mapGet ssn.Queues queueId with
    | none =>
      let r := selectQueue ssn s rest queue
      ((queueId, jobs) :: r.1, r.2)
    | some currentQueue =>
      if ssn.Overused s currentQueue then
        selectQueue ssn s rest queue
      else
        let queue1 := match queue with
          | none => some currentQueue
          | some q => if ssn.QueueOrderFn s currentQueue q then some currentQueue else some q
        let r := selectQueue ssn s rest queue1
        ((queueId, jobs) :: r.1, r.2)

/-- The variables of the placement loops: session state, the statement, and the heap
`pendingTasks[job.UID]`. -/
structure Place (σ τ : Type) where
  ssn : σ
  stmt : τ
  tasks : PriorityQueue TaskInfo

/-- The body of the node loop up to the placement (lines 208-232): allocate `task` on idle
resources of `node`, or record the shortfall and pipeline it on releasing resources. -/
def tryNode {σ τ : Type} (ssn : Session σ τ) (job : JobInfo) (task : TaskInfo) (node : NodeInfo)
    (st : Place σ τ) : Place σ τ × List Event :=
  if ssn.LessEqual task.InitResreq node.Idle then
    let r := ssn.Allocate st.ssn st.stmt task node.Name
    ({ st with ssn := r.1, stmt := r.2.1 }, [Event.allocate task node.Name])
  else
    let s1 := ssn.SetNodesFitDelta st.ssn job node.Name (ssn.FitDelta node.Idle task.InitResreq)
    if ssn.LessEqual task.InitResreq node.Releasing then
      let r := ssn.Pipeline s1 st.stmt task node.Name
      ({ st with ssn := r.1, stmt := r.2.1 }, [Event.pipeline task node.Name])
    else
      ({ st with ssn := s1 }, [])

/-- The loop `for i, node := range nodes` (lines 207-241), from index `i` on; `n` is
`len(nodes)`, `task` the current task. -/
def nodeLoop {σ τ : Type} (ssn : Session σ τ) (job : JobInfo) (n : Nat) :
    Nat → List NodeRef → TaskInfo → Place σ τ → Place σ τ × List Event
  | _, [], _, st => (st, [])
  | i, ref :: refs, task, st =>
    let placed := tryNode ssn job task (ssn.Node st.ssn ref) st
    let st1 := placed.1
    if PriorityQueue.Empty st1.tasks then (st1, placed.2)
    else if i < n - 1 then
      match PriorityQueue.Pop (ssn.TaskOrderFn st1.ssn) st1.tasks with
      | some (next, rest) =>
        let r := nodeLoop ssn job n (i + 1) refs next { st1 with tasks := rest }
        (r.1, placed.2 ++ Event.popTask next :: r.2)
      | none => (st1, placed.2 ++ [Event.panic])
    else
      let r := nodeLoop ssn job n (i + 1) refs task st1
      (r.1, placed.2 ++ r.2)

/-- Lines 193-195: `job.NodesFitDelta` is replaced by an empty map when it has entries. -/
def resetNodesFitDelta {σ τ : Type} (ssn : Session σ τ) (s : σ) (job : JobInfo) : σ :=
  if ssn.NodesFitDeltaLen s job > 0 then ssn.ResetNodesFitDelta s job else s

/-- The loop `for !tasks.Empty()` (lines 183-242). Every iteration pops a task, so
`tasks.Len()` iterations are enough (`taskLoop_ended`); the first argument bounds the
iterations. -/
def taskLoop {σ τ : Type} (ssn : Session σ τ) (job : JobInfo) :
    Nat → Place σ τ → Place σ τ × List Event
  | 0, st => (st, [])
  | fuel + 1, st =>
    match PriorityQueue.Pop (ssn.TaskOrderFn st.ssn) st.tasks with
    | none => (st, [])
    | some (task, rest) =>
      let s1 := resetNodesFitDelta ssn st.ssn job
      let found := ssn.PredicateNodes s1 task ssn.Nodes (fun t n => (predicateFn ssn s1 t n).1)
      if found.1.length = 0 then
        ({ ssn := ssn.SetNodesFitErrors s1 job task found.2, stmt := st.stmt, tasks := rest },
          [Event.popTask task, Event.fitErrors job task])
      else
        let nodeScores := ssn.PrioritizeNodes s1 task found.1
        let nodes := ssn.SelectTopNodes nodeScores (PriorityQueue.Len rest + 1)
        let r := nodeLoop ssn job nodes.length 0 nodes task
          { ssn := s1, stmt := st.stmt, tasks := rest }
        let r2 := taskLoop ssn job fuel r.1
        (r2.1, Event.popTask task :: r.2 ++ r2.2)

/-- The variables of the main loop of `Execute`. -/
structure Loop (σ : Type) where
  ssn : σ
  namespaces : PriorityQueue NamespaceName
  jobsMap : JobsMap
  pendingTasks : GoMap JobID (PriorityQueue TaskInfo)

/-- Lines 162-248 for the popped `job`: build the task heap on first sight, place tasks
through a fresh statement, then commit or discard. -/
def allocateJob {σ τ : Type} (ssn : Session σ τ) (st : Loop σ) (job : JobInfo) :
    Loop σ × List Event :=
  let tasks := match mapGet st.pendingTasks job.UID with
    | some ts => ts
    | none => (ssn.PendingTasks st.ssn job).foldl
        (fun ts task => if ssn.IsEmpty task.Resreq then ts else PriorityQueue.Push ts task) []
  let stmt := ssn.Statement st.ssn
  let r := taskLoop ssn job (PriorityQueue.Len tasks) { ssn := st.ssn, stmt := stmt, tasks := tasks }
  let ready := ssn.JobReady r.1.ssn job
  let s2 := if ready then ssn.Commit r.1.ssn r.1.stmt else ssn.Discard r.1.ssn r.1.stmt
  ({ st with ssn := s2, pendingTasks := mapSet st.pendingTasks job.UID r.1.tasks },
    Event.popJob job :: r.2 ++
      [Event.jobReady job ready, if ready then Event.commit job else Event.discard job])

/-- The main loop (lines 118-252); the first argument bounds the number of iterations. -/
def mainLoop {σ τ : Type} (ssn : Session σ τ) : Nat → Loop σ → Loop σ × List Event
  | 0, st => (st, [])
  | fuel + 1, st =>
    match PriorityQueue.Pop (ssn.NamespaceOrderFn st.ssn) st.namespaces with
    | none => (st, [])
    | some (ns, others) =>
      match mapGet st.jobsMap ns with
      | none => mainLoop ssn fuel { st with namespaces := others }
      | some queueInNamespace =>
        let scan := selectQueue ssn st.ssn queueInNamespace none
        let st1 : Loop σ := { st with namespaces := others, jobsMap := mapSet st.jobsMap ns scan.1 }
        match scan.2 with
        | none => mainLoop ssn fuel st1
        | some queue =>
          match mapGet scan.1 queue.UID with
          | none => mainLoop ssn fuel st1
          | some jobs =>
            match PriorityQueue.Pop (ssn.JobOrderFn st.ssn) jobs with
            | none => mainLoop ssn fuel st1
            | some (job, jobs1) =>
              let st2 : Loop σ :=
                { st1 with jobsMap := mapSet st.jobsMap ns (mapSet scan.1 queue.UID jobs1) }
              let r := allocateJob ssn st2 job
              let r2 := mainLoop ssn fuel { r.1 with namespaces := PriorityQueue.Push others ns }
              (r2.1, r.2 ++ r2.2)

/-- The method `allocateAction.Execute` on session state `s`, run for at most `fuel`
iterations of its main loop. -/
def Execute {σ τ : Type} (ssn : Session σ τ) (s : σ) (fuel : Nat) : Loop σ × List Event :=
  let b := bucketise ssn s
  mainLoop ssn fuel { ssn := s, namespaces := b.1, jobsMap := b.2, pendingTasks := [] }

/-! ## Predicates used to state the properties -/

/-- The eligibility test of the bucketisation pass, as the specification words it: the
pod-group phase is not `Pending`, `JobValid` is nil or passes, and the queue is registered. -/
def eligible {σ τ : Type} (ssn : Session σ τ) (s : σ) (job : JobInfo) : Bool :=
  decide (job.Phase ≠ PodGroupPhase.Pending) &&
  (match ssn.JobValid s job with
    | none => true
    | some vr => vr.Pass) &&
  (mapGet ssn.Queues job.Queue).isSome

/-- The job heap `jobsMap[ns][q]`; empty when a key is missing. -/
def jobsAt (jm : JobsMap) (ns : NamespaceName) (q : QueueID) : PriorityQueue JobInfo :=
  match mapGet jm ns with
  | none => []
  | some qm => (mapGet qm q).getD []

/-- The state of the bucketisation pass after the jobs `seen` have been looked at. -/
def BucketInv {σ τ : Type} (ssn : Session σ τ) (s : σ) (seen : List JobInfo)
    (acc : PriorityQueue NamespaceName × JobsMap) : Prop :=
  (∀ ns q, jobsAt acc.2 ns q =
    seen.filter (fun j => eligible ssn s j && decide (j.Namespace = ns) && decide (j.Queue = q))) ∧
  acc.1.Nodup ∧
  (∀ ns, ns ∈ acc.1 ↔ (mapGet acc.2 ns).isSome = true) ∧
  (∀ ns, (mapGet acc.2 ns).isSome = true ↔ ∃ j ∈ seen, eligible ssn s j = true ∧ j.Namespace = ns)

/-! ## The queue scan -/

/-- The queue an entry of `queueInNamespace` stands for when it is not overused. -/
def survivor {σ τ : Type} (ssn : Session σ τ) (s : σ)
    (e : QueueID × PriorityQueue JobInfo) : Option QueueInfo :=
  match mapGet ssn.Queues e.1 with
  | none => none
  | some q => if ssn.Overused s q then none else some q

/-- The queues of a namespace map that are not overused, in scan order. -/
def survivors {σ τ : Type} (ssn : Session σ τ) (s : σ)
    (m : GoMap QueueID (PriorityQueue JobInfo)) : List QueueInfo :=
  m.filterMap (survivor ssn s)

/-- The update of `queue` at a queue that is not overused (line 143). -/
def pickQueue {σ τ : Type} (ssn : Session σ τ) (s : σ) (queue : Option QueueInfo)
    (currentQueue : QueueInfo) : Option QueueInfo :=
  match queue with
  | none => some currentQueue
  | some q => if ssn.QueueOrderFn s currentQueue q then some currentQueue else some q

/-! ## A concrete session -/

/-- Modelled from the spec: `Resource.LessEqual`, component-wise on CPU, memory and every
scalar dimension of the left operand (package `api` is not among the sources). -/
def Resource.LessEqual (l r : Resource) : Bool :=
  decide (l.MilliCPU ≤ r.MilliCPU) && decide (l.Memory ≤ r.Memory) &&
  l.ScalarResources.all (fun p => decide (p.2 ≤ (mapGet r.ScalarResources p.1).getD 0))

/-- A resource vector with CPU and memory only. -/
def cpuMem (cpu mem : ℚ) : Resource := ⟨cpu, mem, [], 0⟩

/-- Two queues of one namespace; `q1` has the larger weight. -/
def demoQueues : GoMap QueueID QueueInfo :=
  [("q1", ⟨"q1", "q1", 2⟩), ("q2", ⟨"q2", "q2", 1⟩)]

/-- A job of namespace `n` in queue `q1`. -/
def demoJob1 : JobInfo := ⟨"j1", "j1", "n", "q1", PodGroupPhase.Inqueue⟩

/-- A job of namespace `n` in queue `q2`. -/
def demoJob2 : JobInfo := ⟨"j2", "j2", "n", "q2", PodGroupPhase.Inqueue⟩

/-- The pending task of `demoJob2`. -/
def demoTask : TaskInfo := ⟨"t2", "j2", "t2", "n", cpuMem 1000 1, cpuMem 1000 1⟩

/-- A node with 4000m CPU idle. -/
def demoNode : NodeInfo := ⟨"node1", cpuMem 0 0, cpuMem 4000 8, cpuMem 0 0, cpuMem 4000 8⟩

/-- A session without plugin state: two eligible jobs in two queues of one namespace, one
node, a fixed queue order by weight, no overused queue, and a statement that records nothing. -/
def demoSession : Session Unit Unit where
  Jobs := [demoJob1, demoJob2]
  Queues := demoQueues
  Nodes := ["node1"]
  Node := fun _ _ => demoNode
  PendingTasks := fun _ job => if job.UID = "j2" then [demoTask] else []
  NodesFitDeltaLen := fun _ _ => 0
  ResetNodesFitDelta := fun s _ => s
  SetNodesFitDelta := fun s _ _ _ => s
  SetNodesFitErrors := fun s _ _ _ => s
  NamespaceOrderFn := fun _ _ _ => false
  QueueOrderFn := fun _ a b => decide (b.Weight < a.Weight)
  JobOrderFn := fun _ _ _ => false
  TaskOrderFn := fun _ _ _ => false
  JobValid := fun _ _ => none
  Overused := fun _ _ => false
  JobReady := fun _ _ => true
  PredicateFn := fun _ _ _ => none
  LessEqual := Resource.LessEqual
  IsEmpty := fun r => decide (r.MilliCPU = 0) && decide (r.Memory = 0)
  FitDelta := fun have1 _ => have1
  PredicateNodes := fun _ _ nodes _ => (nodes, [])
  PrioritizeNodes := fun _ _ nodes => [(0, nodes)]
  SelectTopNodes := fun scores count => (scores.flatMap (fun p => p.2)).take count
  Statement := fun _ => ()
  Allocate := fun s st _ _ => (s, st, none)
  Pipeline := fun s st _ _ => (s, st, none)
  Commit := fun s _ => s
  Discard := fun s _ => s

/-! ## Trace predicates -/

/-- Events of the placement loops of one job: task pops, placements and fit records. -/
def Event.isPlacement : Event → Bool
  | Event.popTask _ => true
  | Event.allocate _ _ => true
  | Event.pipeline _ _ => true
  | Event.fitErrors _ _ => true
  | _ => false

/-- A trace made of one block per popped job: the pop of the job, then only events of its
placement loops, then the call of `ssn.JobReady`, then `Commit` when that call returned
true and `Discard` when it returned false. -/
inductive GangTrace : List Event → Prop where
  | nil : GangTrace []
  | job (j : JobInfo) (placements : List Event) (ready : Bool) (rest : List Event) :
      (∀ e ∈ placements, e.isPlacement = true) → GangTrace rest →
      GangTrace (Event.popJob j :: (placements ++
        (Event.jobReady j ready :: (if ready then Event.commit j else Event.discard j) :: rest)))

/-- The task handed to `stmt.Allocate` or `stmt.Pipeline` by an event, if any. -/
def Event.placed : Event → Option TaskInfo
  | Event.allocate t _ => some t
  | Event.pipeline t _ => some t
  | _ => none

/-- Every task popped or placed by the event has a non-empty `Resreq`. -/
def Event.notBestEffort {σ τ : Type} (ssn : Session σ τ) : Event → Prop
  | Event.popTask t => ssn.IsEmpty t.Resreq = false
  | Event.allocate t _ => ssn.IsEmpty t.Resreq = false
  | Event.pipeline t _ => ssn.IsEmpty t.Resreq = false
  | _ => True

/-- The current task variable after the events `es`, starting from `cur`: the task of the
last pop since the last job pop. -/
def currentTask : Option TaskInfo → List Event → Option TaskInfo
  | cur, [] => cur
  | _, Event.popTask t :: es => currentTask (some t) es
  | _, Event.popJob _ :: es => currentTask none es
  | cur, _ :: es => currentTask cur es

/-- Every placement in the trace is of the task popped last before it. -/
def placedAfterPop : Option TaskInfo → List Event → Bool
  | _, [] => true
  | _, Event.popTask t :: es => placedAfterPop (some t) es
  | _, Event.popJob _ :: es => placedAfterPop none es
  | cur, Event.allocate t _ :: es => decide (cur = some t) && placedAfterPop cur es
  | cur, Event.pipeline t _ :: es => decide (cur = some t) && placedAfterPop cur es
  | cur, _ :: es => placedAfterPop cur es

/-! ## Evaluation on the concrete session -/

/-- The map of namespace `n` after the bucketisation pass of the concrete session. -/
def demoQueueMap : GoMap QueueID (PriorityQueue JobInfo) :=
  [("q1", [demoJob1]), ("q2", [demoJob2])]

/-! ## Best-effort tasks are never placed -/

/-- No task of the heap is best-effort. -/
def TasksOK {σ τ : Type} (ssn : Session σ τ) (ts : PriorityQueue TaskInfo) : Prop :=
  ∀ t ∈ ts, ssn.IsEmpty t.Resreq = false

/-- No heap of `pendingTasks` holds a best-effort task. -/
def PendingOK {σ τ : Type} (ssn : Session σ τ) (pm : GoMap JobID (PriorityQueue TaskInfo)) :
    Prop :=
  ∀ p ∈ pm, TasksOK ssn p.2

/-! ## Telemetry cache and client (package `metricsprovider`) -/

/-- The fields of `schedulercache.Resource` set by the telemetry client. -/
structure CacheResource where
  MilliCPU : Int
  Memory : Int
deriving DecidableEq

/-- The record `types.NodeRIMetirc`. -/
structure NodeRIMetirc where
  Name : String
  Timestamp : Int
  Usage : List (String × List (String × ℚ))
deriving DecidableEq

/-- The struct `nodeMetricsCache` (`cache.go`); the lock is not modelled. -/
structure nodeMetricsCache where
  nodeMetricsInfo : GoMap String CacheResource
  nodeRIMetricsInfo : GoMap String NodeRIMetirc
deriving DecidableEq

/-- The method `nodeMetricsCache.Get`; `none` is the error result. -/
def nodeMetricsCache.Get (c : nodeMetricsCache) (name : String) : Option CacheResource :=
  mapGet c.nodeMetricsInfo name

/-- The method `nodeMetricsCache.Set`. -/
def nodeMetricsCache.Set (c : nodeMetricsCache) (name : String) (resource : CacheResource) :
    nodeMetricsCache :=
  { c with nodeMetricsInfo := mapSet c.nodeMetricsInfo name resource }

/-- The method `nodeMetricsCache.Delete`. -/
def nodeMetricsCache.Delete (c : nodeMetricsCache) (name : String) : nodeMetricsCache :=
  { c with nodeMetricsInfo := mapDelete c.nodeMetricsInfo name }

/-- The constant `ArchimedesPredictNodeAllocatablePrefix`. -/
def ArchimedesPredictNodeAllocatablePrefix : String := "predictNodeAllocatable-"

/-- The field of `http.Client` that the telemetry client sets: the request timeout, a
`time.Duration` in nanoseconds. -/
structure http.Client where
  Timeout : Int
deriving DecidableEq

/-- The struct `ArchimedesMetricsClient`; durations are nanoseconds. A field left out of a
literal has the zero value of its Go type. -/
structure ArchimedesMetricsClient where
  MetricsExpiration : Int
  nodeMetricsCache : nodeMetricsCache
  client : http.Client := { Timeout := 0 }
  URL : String := ""
  NodeMetricsAPI : String := ""
  NodeAllocateAPI : String := ""
  MetricsNodeRIEndpoint : String := ""
deriving DecidableEq

/-- The values a `v1.ResourceList` yields through `Cpu().MilliValue()` and
`Memory().Value()`. -/
structure ResourceList where
  CpuMilliValue : Int
  MemoryValue : Int
deriving DecidableEq

/-- A record of `metricsapi.NodeMetricsList.Items`; `Timestamp` is in nanoseconds. -/
structure NodeUsage where
  Name : String
  Timestamp : Int
  Usage : ResourceList
deriving DecidableEq

/-- The record `NodeMetrics` of `types.go`. -/
structure NodeMetrics where
  Name : String
  Timestamp : Int
  RatedUtil : String
  Allocatable : ResourceList
deriving DecidableEq

/-- The outcome of `httpGet` followed by `json.Unmarshal`. -/
inductive Response (α : Type) where
  | unavailable
  | malformed
  | decoded (items : List α)

/-- The largest `time.Duration`. -/
def maxDuration : Int := 2 ^ 63 - 1

/-- The smallest `time.Duration`. -/
def minDuration : Int := -(2 ^ 63)

/-- The method `time.Time.Sub` of the Go library: the difference in nanoseconds, saturated
to the range of `time.Duration`. -/
def timeSub (t u : Int) : Int :=
  if t - u > maxDuration then maxDuration
  else if t - u < minDuration then minDuration
  else t - u

/-- The body of the loop of `GetALlNodeMetrics` (lines 129-140) for one record. -/
def storeUsage (expiration now : Int) (c : nodeMetricsCache) (m : NodeUsage) :
    nodeMetricsCache :=
  if timeSub now m.Timestamp > expiration then c.Delete m.Name
  else c.Set m.Name { MilliCPU := m.Usage.CpuMilliValue, Memory := m.Usage.MemoryValue }

/-- The method `GetALlNodeMetrics` at time `now` on the outcome of the request: the client
afterwards and the returned timestamp; `none` is an error result. -/
def GetALlNodeMetrics (h : ArchimedesMetricsClient) (resp : Response NodeUsage) (now : Int) :
    ArchimedesMetricsClient × Option Int :=
  match resp with
  | Response.unavailable => (h, none)
  | Response.malformed => (h, none)
  | Response.decoded [] => (h, none)
  | Response.decoded (first :: items) =>
    ({ h with nodeMetricsCache :=
        (first :: items).foldl (storeUsage h.MetricsExpiration now) h.nodeMetricsCache },
      some first.Timestamp)

/-- The method `GetNodeMetrics`; `none` is the error result. -/
def GetNodeMetrics (h : ArchimedesMetricsClient) (name : String) : Option CacheResource :=
  h.nodeMetricsCache.Get name

/-- The body of the loop of `GetAllNodeAllocatable` (lines 173-182) for one record. -/
def storeAllocatable (expiration now : Int) (c : nodeMetricsCache) (m : NodeMetrics) :
    nodeMetricsCache :=
  if timeSub now m.Timestamp > expiration then
    c.Delete ( ArchimedesPredictNodeAllocatablePrefix ++ m.Name)
  else
    c.Set ( ArchimedesPredictNodeAllocatablePrefix ++ m.Name)
      { MilliCPU := m.Allocatable.CpuMilliValue, Memory := m.Allocatable.MemoryValue }

/-- The method `GetAllNodeAllocatable` at time `now` on the outcome of the request. -/
def GetAllNodeAllocatable (h : ArchimedesMetricsClient) (resp : Response NodeMetrics)
    (now : Int) : ArchimedesMetricsClient × Option Int :=
  match resp with
  | Response.unavailable => (h, none)
  | Response.malformed => (h, none)
  | Response.decoded [] => (h, none)
  | Response.decoded (first :: items) =>
    ({ h with nodeMetricsCache :=
        (first :: items).foldl (storeAllocatable h.MetricsExpiration now) h.nodeMetricsCache },
      some first.Timestamp)

/-- The method `GetNodeAllocatable`; `none` is the error result. -/
def GetNodeAllocatable (h : ArchimedesMetricsClient) (name : String) : Option CacheResource :=
  h.nodeMetricsCache.Get ( ArchimedesPredictNodeAllocatablePrefix ++ name)

/-! ## Metrics overlay plugin (`archimedesmetrics.go`) -/

/-- The fields of the global `archimedes.Metrics` read by the plugin. -/
structure ArchimedesMetrics where
  Ready : Bool
  EvaluateType : String
  MemUsageRatio : ℚ
  CpuUsageRatio : ℚ
  ReservedMemory : String
  ReservedCPU : Int
  metricsClient : ArchimedesMetricsClient

/-- The helper `max` of `archimedesmetrics.go`. -/
def archimedesmetrics.max (a b : ℚ) : ℚ := if a > b then a else b

/-- The function `calcRequestedResource`. `mustParse` gives the value in bytes of a quantity
string (`resource.MustParse(s).Value()`), `none` where `MustParse` panics; the result `none`
is that panic. `reservedCPU.MilliValue()` is `ReservedCPU * 1000`. -/
def calcRequestedResource (mustParse : String → Option Int) (metrics : ArchimedesMetrics)
    (nodeInfo : NodeInfo) (nodeMetrics : CacheResource) : Option NodeInfo :=
  let cpuUsage := nodeMetrics.MilliCPU
  let memUsage := nodeMetrics.Memory
  let reservedCPU : Int := metrics.ReservedCPU * 1000
  match mustParse metrics.ReservedMemory with
  | none => none
  | some reservedMemory =>
    let requestedResource := nodeInfo.Used
    let r1 : Resource :=
      if metrics.EvaluateType = "max" then
        { requestedResource with
          MilliCPU := archimedesmetrics.max
            ((cpuUsage : ℚ) * metrics.CpuUsageRatio + (reservedCPU : ℚ)) nodeInfo.Used.MilliCPU,
          Memory := archimedesmetrics.max
            ((memUsage : ℚ) * metrics.MemUsageRatio + (reservedMemory : ℚ)) nodeInfo.Used.Memory }
      else requestedResource
    let r2 : Resource :=
      if metrics.EvaluateType = "weighted" then
        { r1 with
          MilliCPU := (cpuUsage : ℚ) * metrics.CpuUsageRatio + (reservedCPU : ℚ),
          Memory := (memUsage : ℚ) * metrics.MemUsageRatio + (reservedMemory : ℚ) }
      else r1
    some { nodeInfo with
      Used := r2,
      Idle := { nodeInfo.Idle with
        Memory := nodeInfo.Allocatable.Memory - r2.Memory,
        MilliCPU := nodeInfo.Allocatable.MilliCPU - r2.MilliCPU } }

/-- The loop of `OnSessionOpen` (lines 29-38) over the entries of `ssn.Nodes`. -/
def overlayNodes (mustParse : String → Option Int) (metrics : ArchimedesMetrics) :
    GoMap String NodeInfo → Option (GoMap String NodeInfo)
  | [] => some []
  | (k, n) :: rest =>
    match GetNodeMetrics metrics.metricsClient k with
    | none => (overlayNodes mustParse metrics rest).map (fun r => (k, n) :: r)
    | some nodeUsage =>
      match calcRequestedResource mustParse metrics n nodeUsage with
      | none => none
      | some n1 => (overlayNodes mustParse metrics rest).map (fun r => (k, n1) :: r)

/-- The method `archimedesmetricsPlugin.OnSessionOpen` on the map `ssn.Nodes`; `none` is a
panic of `resource.MustParse`. -/
def OnSessionOpen (mustParse : String → Option Int) (metrics : ArchimedesMetrics)
    (nodes : GoMap String NodeInfo) : Option (GoMap String NodeInfo) :=
  if metrics.Ready then overlayNodes mustParse metrics nodes else some nodes

/-- A quantity parser that knows the strings `0` and `2Gi`. -/
def demoParse (s : String) : Option Int :=
  if s = "0" then some 0 else if s = "2Gi" then some 2147483648 else none

/-- The node of the overlay scenario: allocatable (4000m, 8Gi), used (1000m, 2Gi). -/
def scenarioNode : NodeInfo :=
  ⟨"n1", cpuMem 0 0, cpuMem 3000 6442450944, cpuMem 1000 2147483648, cpuMem 4000 8589934592⟩

/-- A node without a reading. -/
def quietNode : NodeInfo :=
  ⟨"n2", cpuMem 0 0, cpuMem 4000 8589934592, cpuMem 0 0, cpuMem 4000 8589934592⟩

/-- The reading of the overlay scenario: usage (2500m, 5Gi). -/
def scenarioUsage : CacheResource := ⟨2500, 5368709120⟩

/-- The metrics handle of the overlay scenario: mode `max`, ratios 1, nothing reserved, a
reading for `n1` only. -/
def scenarioMetrics : ArchimedesMetrics :=
  { Ready := true, EvaluateType := "max", MemUsageRatio := 1, CpuUsageRatio := 1,
    ReservedMemory := "0", ReservedCPU := 0,
    metricsClient :=
      { MetricsExpiration := 300000000000,
        nodeMetricsCache := { nodeMetricsInfo := [("n1", scenarioUsage)], nodeRIMetricsInfo := [] } } }

/-- The cache entry a record of a usage response leaves under its node name. -/
def usageEntry (expiration now : Int) (m : NodeUsage) : Option CacheResource :=
  if timeSub now m.Timestamp > expiration then none
  else some { MilliCPU := m.Usage.CpuMilliValue, Memory := m.Usage.MemoryValue }

/-- The cache entry a record of an allocatable response leaves under its prefixed name. -/
def allocatableEntry (expiration now : Int) (m : NodeMetrics) : Option CacheResource :=
  if timeSub now m.Timestamp > expiration then none
  else some { MilliCPU := m.Allocatable.CpuMilliValue, Memory := m.Allocatable.MemoryValue }

/-- A client whose cache holds an old reading for `n2`; expiration 300 s. -/
def pollClient : ArchimedesMetricsClient :=
  { MetricsExpiration := 300000000000,
    nodeMetricsCache := { nodeMetricsInfo := [("n2", ⟨100, 200⟩)], nodeRIMetricsInfo := [] } }

/-- A usage response at time 1000 s: a fresh record for `n1`, a record for `n2` that is
400 s old. -/
def pollUsages : List NodeUsage :=
  [⟨"n1", 990000000000, ⟨2500, 5368709120⟩⟩, ⟨"n2", 600000000000, ⟨300, 400⟩⟩]

/-- An allocatable response at time 1000 s: a fresh record for `n1`. -/
def pollAllocatables : List NodeMetrics :=
  [⟨"n1", 990000000000, "", ⟨4000, 8589934592⟩⟩]

/-- Every queue key of `jobsMap` has an entry in `ssn.Queues`. -/
def QueuesRegistered {σ τ : Type} (ssn : Session σ τ) (jm : JobsMap) : Prop :=
  ∀ p ∈ jm, ∀ e ∈ p.2, (mapGet ssn.Queues e.1).isSome = true

/-! ## Startup options (`options.go`) -/

/-- The struct `ArchimedesMetricsOption`; durations are nanoseconds, floats exact rationals. -/
structure ArchimedesMetricsOption where
  UseNodeMetrics : Bool
  UseNodeAllocatable : Bool
  MetricsSyncPeriod : Int
  MetricsServerURL : String
  MetricsTimeout : Int
  EvaluateType : String
  NodeMetricsAPI : String
  NodeAllocateAPI : String
  MetricsExpiration : Int
  MemUsageRatio : ℚ
  CpuUsageRatio : ℚ
  ReservedMemory : String
  ReservedCPU : Int
  MemAllocatableRatio : ℚ
  CpuAllocatableRatio : ℚ
  UseRuntimeInfoSchedule : Bool
  MetricsNodeRIEndpoint : String
  CpuMaxUsageRatio : ℚ
  MemMaxUsageRatio : ℚ
deriving DecidableEq

/-- The struct `ServerOption`. -/
structure ServerOption where
  Master : String
  Kubeconfig : String
  SchedulerName : String
  SchedulerConf : String
  SchedulePeriod : Int
  EnableLeaderElection : Bool
  LockObjectNamespace : String
  DefaultQueue : String
  PrintVersion : Bool
  ListenAddress : String
  EnablePriorityClass : Bool
  KubeAPIBurst : Int
  KubeAPIQPS : ℚ
  HealthzBindAddress : String
  MinNodesToFind : Int
  MinPercentageOfNodesToFind : Int
  PercentageOfNodesToFind : Int
  ArchimedesMetricsOption : ArchimedesMetricsOption
deriving DecidableEq

/-- The method `ServerOption.CheckOptionOrDie` (pointer receiver): the options after the
call and the returned error, `none` for nil. -/
def ServerOption.CheckOptionOrDie (s : ServerOption) : ServerOption × Option String :=
  if s.EnableLeaderElection && s.LockObjectNamespace == "" then
    (s, some "lock-object-namespace must not be nil when LeaderElection is enabled")
  else
    (s, none)

/-- The default values that `ArchimedesMetricsOption.AddFlags` gives the options. -/
def defaultArchimedesMetricsOption : ArchimedesMetricsOption :=
  { UseNodeMetrics := false, UseNodeAllocatable := false, MetricsSyncPeriod := 120000000000,
    MetricsServerURL := "", MetricsTimeout := 60000000000, EvaluateType := "max",
    NodeMetricsAPI := "node/metrics", NodeAllocateAPI := "node/allocatable",
    MetricsExpiration := 300000000000, MemUsageRatio := 3 / 2, CpuUsageRatio := 1,
    ReservedMemory := "2Gi", ReservedCPU := 0, MemAllocatableRatio := 1,
    CpuAllocatableRatio := 1, UseRuntimeInfoSchedule := false,
    MetricsNodeRIEndpoint := "/node/rimetrics", CpuMaxUsageRatio := 0, MemMaxUsageRatio := 0 }

/-! ## Polling scenarios -/

/-- A client with an empty cache; expiration 300 s. -/
def emptyClient : ArchimedesMetricsClient :=
  { MetricsExpiration := 300000000000,
    nodeMetricsCache := { nodeMetricsInfo := [], nodeRIMetricsInfo := [] } }

/-- A fresh usage record for `n2` at time 1000 s. -/
def firstTick : List NodeUsage := [⟨"n2", 990000000000, ⟨300, 400⟩⟩]

/-- A usage response at time 2000 s that names `n1` only. -/
def secondTick : List NodeUsage := [⟨"n1", 1990000000000, ⟨2500, 5368709120⟩⟩]

/-- A usage response at time 2000 s that still carries the old record of `n2`. -/
def staleTick : List NodeUsage :=
  [⟨"n1", 1990000000000, ⟨2500, 5368709120⟩⟩, ⟨"n2", 990000000000, ⟨300, 400⟩⟩]

/-! ## Pod-group controller (`pg_controller_handler.go`) -/

/-- A `v1.ResourceList`: resource name to quantity. A quantity is its exact value in the
smallest unit in use (milli-cores, bytes); `Quantity.Add` is exact addition. -/
abbrev v1.ResourceList := GoMap String Int

/-- The fields of `metav1.OwnerReference`; `Controller` is a pointer to a bool. -/
structure OwnerReference where
  APIVersion : String
  Kind : String
  Name : String
  UID : String
  Controller : Option Bool
  BlockOwnerDeletion : Option Bool
deriving DecidableEq

/-- The resource requirements of a `v1.Container`; `none` is a nil list. -/
structure Container where
  Name : String
  Requests : Option v1.ResourceList
  Limits : Option v1.ResourceList
deriving DecidableEq

/-- The fields of `v1.Pod` read or written by the controller; `none` is a nil map. -/
structure Pod where
  Namespace : String
  Name : String
  UID : String
  OwnerReferences : List OwnerReference
  Annotations : Option (GoMap String String)
  Labels : Option (GoMap String String)
  PriorityClassName : String
  Containers : List Container
deriving DecidableEq

/-- The object `scheduling.PodGroup` built by the controller. -/
structure PodGroup where
  Namespace : String
  Name : String
  OwnerReferences : List OwnerReference
  Annotations : GoMap String String
  Labels : GoMap String String
  MinMember : Int
  PriorityClassName : String
  MinResources : v1.ResourceList
  Queue : String
  Phase : PodGroupPhase
deriving DecidableEq

/-- The annotation and label keys of package `scheduling` used by the controller; the
package is not among the sources, so the keys are parameters. -/
structure SchedulingKeys where
  KubeGroupNameAnnotationKey : String
  QueueNameAnnotationKey : String
  PodPreemptable : String
  RevocableZone : String
  JDBMinAvailable : String
  JDBMaxUnavailable : String
deriving DecidableEq

/-- An error of the API machinery; `NotFound` is the result of `apierrors.IsNotFound`. -/
structure ApiError where
  NotFound : Bool
  Message : String
deriving DecidableEq

/-- The result of `pg.pgLister.PodGroups(ns).Get(name)`. -/
inductive Lookup where
  | found (pg : PodGroup)
  | failed (err : ApiError)
deriving DecidableEq

/-- The clients of `pgcontroller`: the pod-group lister, and the results the API server
gives to a pod-group `Create` and to a pod `Update` (`none` is a nil error). -/
structure pgcontroller where
  pgLister : String → String → Lookup
  Create : PodGroup → Option ApiError
  Update : Pod → Option ApiError

/-- A request issued to the API server. -/
inductive ApiCall where
  | createPodGroup (obj : PodGroup)
  | updatePod (pod : Pod)
deriving DecidableEq

/-- The outcome of a controller method: the pod object afterwards, the requests issued in
order, and the returned error (`none` is nil). -/
structure Outcome where
  pod : Pod
  calls : List ApiCall
  err : Option ApiError
deriving DecidableEq

/-- The index expression `m[key]` on a possibly nil string map, with its `ok` flag. -/
def lookupString (m : Option (GoMap String String)) (key : String) : Option String :=
  match m with
  | none => none
  | some a => mapGet a key

/-- The method `pgcontroller.updatePodAnnotations` (lines 52-72). -/
def updatePodAnnotations (keys : SchedulingKeys) (pg : pgcontroller) (pod : Pod)
    (pgName : String) : Outcome :=
  let annotations : GoMap String String := match pod.Annotations with
    | none => []
    | some a => a
  let pod0 : Pod := { pod with Annotations := some annotations }
  if (mapGet annotations keys.KubeGroupNameAnnotationKey).getD "" = "" then
    let pod1 : Pod :=
      { pod0 with Annotations := some (mapSet annotations keys.KubeGroupNameAnnotationKey pgName) }
    { pod := pod1, calls := [ApiCall.updatePod pod1], err := pg.Update pod1 }
  else
    { pod := pod0, calls := [], err := none }

/-- Modelled from the spec: `metav1.NewControllerRef(pod, gvk)` for the kind `Pod`, a
synthetic controller reference to the pod itself. -/
def NewControllerRef (pod : Pod) : OwnerReference :=
  { APIVersion := "v1", Kind := "Pod", Name := pod.Name, UID := pod.UID,
    Controller := some true, BlockOwnerDeletion := some true }

/-- The function `newPGOwnerReferences` (lines 131-147). -/
def newPGOwnerReferences (pod : Pod) : List OwnerReference :=
  if pod.OwnerReferences.any (fun ownerReference => ownerReference.Controller == some true) then
    pod.OwnerReferences
  else
    [NewControllerRef pod]

/-- One iteration of the loops of `addResourceList` (lines 152-157 and 167-172). -/
def addQuantity (list : v1.ResourceList) (entry : String × Int) : v1.ResourceList :=
  match mapGet list entry.1 with
  | none => mapSet list entry.1 entry.2
  | some value => mapSet list entry.1 (value + entry.2)

/-- The function `addResourceList` (lines 150-174): the list after the call. -/
def addResourceList (list : v1.ResourceList) (req limit : Option v1.ResourceList) :
    v1.ResourceList :=
  match req with
  | some r => r.foldl addQuantity list
  | none =>
    match limit with
    | some l => l.foldl addQuantity list
    | none => list

/-- The function `calcPGMinResources` (lines 177-185). -/
def calcPGMinResources (pod : Pod) : v1.ResourceList :=
  pod.Containers.foldl (fun pgMinRes c => addResourceList pgMinRes c.Requests c.Limits) []

/-- Modelled from the spec: `helpers.GeneratePodgroupName` (package `helpers` is not among
the sources): a fixed function `naming` of the UID of the pod's controlling owner, or of the
pod's UID when no owner is a controller. -/
def GeneratePodgroupName (naming : String → String) (pod : Pod) : String :=
  match pod.OwnerReferences.find? (fun ownerReference => ownerReference.Controller == some true) with
  | some ownerReference => naming ownerReference.UID
  | none => naming pod.UID

/-- Lines 101-119: the copy of `src[key]` into the pod-group map `dst` when the key is
present. -/
def copyKey (src : Option (GoMap String String)) (key : String) (dst : GoMap String String) :
    GoMap String String :=
  match lookupString src key with
  | some value => mapSet dst key value
  | none => dst

/-- The object built by `createNormalPodPGIfNotExist` (lines 84-119) for the name `pgName`. -/
def newPodGroup (keys : SchedulingKeys) (pod : Pod) (pgName : String) : PodGroup :=
  let obj : PodGroup :=
    { Namespace := pod.Namespace, Name := pgName, OwnerReferences := newPGOwnerReferences pod,
      Annotations := [], Labels := [], MinMember := 1,
      PriorityClassName := pod.PriorityClassName, MinResources := calcPGMinResources pod,
      Queue := "", Phase := PodGroupPhase.Pending }
  let obj1 : PodGroup := match lookupString pod.Annotations keys.QueueNameAnnotationKey with
    | some queueName => { obj with Queue := queueName }
    | none => obj
  let a1 := copyKey pod.Annotations keys.PodPreemptable obj1.Annotations
  let a2 := copyKey pod.Annotations keys.RevocableZone a1
  let l1 := copyKey pod.Labels keys.PodPreemptable obj1.Labels
  let a3 := match lookupString pod.Annotations keys.JDBMinAvailable with
    | some value => mapSet a2 keys.JDBMinAvailable value
    | none => copyKey pod.Annotations keys.JDBMaxUnavailable a2
  { obj1 with Annotations := a3, Labels := l1 }

/-- The method `pgcontroller.createNormalPodPGIfNotExist` (lines 74-129). -/
def createNormalPodPGIfNotExist (keys : SchedulingKeys) (naming : String → String)
    (pg : pgcontroller) (pod : Pod) : Outcome :=
  let pgName := GeneratePodgroupName naming pod
  match pg.pgLister pod.Namespace pgName with
  | Lookup.found _ => updatePodAnnotations keys pg pod pgName
  | Lookup.failed err =>
    if !err.NotFound then
      { pod := pod, calls := [], err := some err }
    else
      let obj := newPodGroup keys pod pgName
      match pg.Create obj with
      | some createErr =>
        { pod := pod, calls := [ApiCall.createPodGroup obj], err := some createErr }
      | none =>
        let r := updatePodAnnotations keys pg pod pgName
        { r with calls := ApiCall.createPodGroup obj :: r.calls }

/-- The value a container contributes to the minimum resources for a resource name: its
`Requests` value when the container has a `Requests` list, else its `Limits` value. -/
def containerRequest (c : Container) (name : String) : Option Int :=
  match c.Requests with
  | some req => mapGet req name
  | none =>
    match c.Limits with
    | some limit => mapGet limit name
    | none => none

/-- The index expression `list[name]` on a possibly nil resource list. -/
def lookupQuantity (m : Option v1.ResourceList) (name : String) : Option Int :=
  match m with
  | none => none
  | some l => mapGet l name

/-- The value the specification gives a container for a resource name: its `Requests`
value, and its `Limits` value whenever the resource is absent from its `Requests`. -/
def specContainerRequest (c : Container) (name : String) : Option Int :=
  match lookupQuantity c.Requests name with
  | some q => some q
  | none => lookupQuantity c.Limits name

/-- The sum of two optional quantities; `none` is an absent entry. -/
def addOpt (acc x : Option Int) : Option Int :=
  match acc, x with
  | none, x => x
  | some a, none => some a
  | some a, some b => some (a + b)

/-- The keys of a resource list are distinct, as in every Go map. -/
def DistinctKeys (m : Option v1.ResourceList) : Prop :=
  ∀ l, m = some l → (l.map Prod.fst).Nodup

/-- Modelled from the spec: the annotation keys of package `scheduling`, as section 6 of the
specification names them. -/
def specKeys : SchedulingKeys :=
  { KubeGroupNameAnnotationKey := "scheduling.volcano.sh/group-name",
    QueueNameAnnotationKey := "scheduling.volcano.sh/queue-name",
    PodPreemptable := "preemptable", RevocableZone := "revocable-zone",
    JDBMinAvailable := "jdb-min-available", JDBMaxUnavailable := "jdb-max-unavailable" }

/-- A naming function for pod groups. -/
def demoNaming (uid : String) : String := "podgroup-" ++ uid

/-- The pod of the synthesis scenario: no annotations, two containers requesting
(500m, 1Gi) and (500m, 512Mi). -/
def plainPod : Pod :=
  { Namespace := "ns1", Name := "p1", UID := "u1", OwnerReferences := [], Annotations := none,
    Labels := none, PriorityClassName := "high",
    Containers :=
      [⟨"c1", some [("cpu", 500), ("memory", 1073741824)], none⟩,
       ⟨"c2", some [("cpu", 500), ("memory", 536870912)], none⟩] }

/-- A pod that names its queue. -/
def queuedPod : Pod :=
  { plainPod with Annotations := some [("scheduling.volcano.sh/queue-name", "batch")] }

/-- A pod whose only container requests CPU and limits CPU and memory. -/
def limitedPod : Pod :=
  { plainPod with Containers :=
      [⟨"c1", some [("cpu", 500)], some [("cpu", 1000), ("memory", 1073741824)]⟩] }

/-- A controller whose lister finds no pod group and whose requests succeed. -/
def freshController : pgcontroller :=
  { pgLister := fun _ _ => Lookup.failed ⟨true, "not found"⟩,
    Create := fun _ => none, Update := fun _ => none }

/-- A controller whose lister finds the pod group built for `plainPod`. -/
def syncedController : pgcontroller :=
  { pgLister := fun _ name => Lookup.found (newPodGroup specKeys plainPod name),
    Create := fun _ => none, Update := fun _ => none }

/-! ## Counting pops and jobs -/

/-- The event is a pop from a task heap. -/
def Event.isPop : Event → Bool
  | Event.popTask _ => true
  | _ => false

/-- The number of task pops in a trace. -/
def countPops (events : List Event) : Nat := events.countP Event.isPop

/-- The number of jobs held by the heaps of one namespace. -/
def queueMapJobs (qm : GoMap QueueID (PriorityQueue JobInfo)) : Nat :=
  (qm.map (fun e => e.2.length)).sum

/-- The number of jobs held by all heaps of `jobsMap`. -/
def totalJobs (jm : JobsMap) : Nat :=
  (jm.map (fun p => queueMapJobs p.2)).sum

/-! ## The telemetry client constructor -/

/-- The constant `time.Second`: the number of nanoseconds in a second. -/
def time.Second : Int := 1000000000

/-- The value of type `int64` that Go's arithmetic yields when the exact result is `x`: the
representative of `x` modulo `2 ^ 64` in the signed range. -/
def wrapInt64 (x : Int) : Int :=
  (x + 2 ^ 63) % 2 ^ 64 - 2 ^ 63

/-- The constructor `NewNodeMetricsCache` (`cache.go`): two empty maps. -/
def NewNodeMetricsCache : nodeMetricsCache :=
  { nodeMetricsInfo := [], nodeRIMetricsInfo := [] }

/-- The constructor `NewArchimedesMetricsClient`; the product of the two `time.Duration`
values is an `int64` product. -/
def NewArchimedesMetricsClient (options : ArchimedesMetricsOption) : ArchimedesMetricsClient :=
  { client := { Timeout := wrapInt64 (options.MetricsTimeout * time.Second) },
    URL := options.MetricsServerURL,
    NodeMetricsAPI := options.NodeMetricsAPI,
    NodeAllocateAPI := options.NodeAllocateAPI,
    MetricsExpiration := options.MetricsExpiration,
    nodeMetricsCache := NewNodeMetricsCache,
    MetricsNodeRIEndpoint := options.MetricsNodeRIEndpoint }

/-! ## A session with resource accounting -/

/-- Modelled from the spec: component-wise subtraction of resource vectors on CPU and memory
(package `api` is not among the sources). -/
def Resource.Sub (l r : Resource) : Resource :=
  { l with MilliCPU := l.MilliCPU - r.MilliCPU, Memory := l.Memory - r.Memory }

/-- Modelled from the spec: component-wise addition of resource vectors on CPU and memory. -/
def Resource.Add (l r : Resource) : Resource :=
  { l with MilliCPU := l.MilliCPU + r.MilliCPU, Memory := l.Memory + r.Memory }

/-- The snapshot a session points to: the nodes, the fit records of the jobs, and the tasks
that left the pending state with the node that took them. -/
structure Cluster where
  Nodes : GoMap String NodeInfo
  NodesFitDelta : GoMap JobID (GoMap String Resource)
  NodesFitErrors : GoMap JobID (GoMap TaskID FitErrors)
  Allocated : List (TaskInfo × String)
  Pipelined : List (TaskInfo × String)
deriving DecidableEq

/-- The node a pointer stands for; a pointer to no node of the snapshot reads as a node
without resources. -/
def Cluster.Node (s : Cluster) (ref : NodeRef) : NodeInfo :=
  (mapGet s.Nodes ref).getD ⟨ref, cpuMem 0 0, cpuMem 0 0, cpuMem 0 0, cpuMem 0 0⟩

/-- Modelled from the spec: an operation buffered by a statement, `Allocate` or `Pipeline`
of a task on a node (package `framework` is not among the sources). -/
structure Operation where
  Pipeline : Bool
  Task : TaskInfo
  Node : String
deriving DecidableEq

/-- Modelled from the spec: a statement, the buffer of its operations in call order. -/
abbrev Statement := List Operation

/-- Modelled from the spec: `Statement.Allocate(task, nodeName)` subtracts `task.InitResreq`
from the idle resources of the node, adds it to the used ones, moves the task to the
allocated state and records the operation; it fails when the idle resources cannot cover
the request. -/
def Cluster.Allocate (s : Cluster) (stmt : Statement) (task : TaskInfo)
    (hostname : String) : Cluster × Statement × Option Error :=
  match mapGet s.Nodes hostname with
  | none => (s, stmt, some (Error.other "node not found"))
  | some node =>
    if Resource.LessEqual task.InitResreq node.Idle then
      ({ s with
          Nodes := mapSet s.Nodes hostname
            { node with Idle := node.Idle.Sub task.InitResreq,
                        Used := node.Used.Add task.InitResreq },
          Allocated := s.Allocated ++ [(task, hostname)] },
        stmt ++ [⟨false, task, hostname⟩], none)
    else (s, stmt, some (Error.other "insufficient idle resources"))

/-- Modelled from the spec: `Statement.Pipeline(task, nodeName)` subtracts `task.InitResreq`
from the releasing resources of the node and moves the task to the pipelined state. -/
def Cluster.Pipeline (s : Cluster) (stmt : Statement) (task : TaskInfo)
    (hostname : String) : Cluster × Statement × Option Error :=
  match mapGet s.Nodes hostname with
  | none => (s, stmt, some (Error.other "node not found"))
  | some node =>
    ({ s with
        Nodes := mapSet s.Nodes hostname
          { node with Releasing := node.Releasing.Sub task.InitResreq },
        Pipelined := s.Pipelined ++ [(task, hostname)] },
      stmt ++ [⟨true, task, hostname⟩], none)

/-- Modelled from the spec: the reversal of one operation by `Statement.Discard`: the
resources go back to the node and the task leaves the allocated or pipelined state. -/
def Cluster.Undo (s : Cluster) (op : Operation) : Cluster :=
  match mapGet s.Nodes op.Node with
  | none => s
  | some node =>
    if op.Pipeline then
      { s with
          Nodes := mapSet s.Nodes op.Node
            { node with Releasing := node.Releasing.Add op.Task.InitResreq },
          Pipelined := s.Pipelined.filter (fun p => !decide (p = (op.Task, op.Node))) }
    else
      { s with
          Nodes := mapSet s.Nodes op.Node
            { node with Idle := node.Idle.Add op.Task.InitResreq,
                        Used := node.Used.Sub op.Task.InitResreq },
          Allocated := s.Allocated.filter (fun p => !decide (p = (op.Task, op.Node))) }

/-- Modelled from the spec: `Statement.Discard` reverts the operations of the statement,
the last one first. -/
def Cluster.Discard (s : Cluster) (stmt : Statement) : Cluster :=
  stmt.reverse.foldl Cluster.Undo s

/-- The assignment `job.NodesFitDelta[name] = delta` on the snapshot. -/
def Cluster.SetNodesFitDelta (s : Cluster) (job : JobInfo) (name : String) (delta : Resource) :
    Cluster :=
  let old := (mapGet s.NodesFitDelta job.UID).getD []
  { s with NodesFitDelta := mapSet s.NodesFitDelta job.UID (mapSet old name delta) }

/-- The assignment `job.NodesFitErrors[task.UID] = fitErrors` on the snapshot. -/
def Cluster.SetNodesFitErrors (s : Cluster) (job : JobInfo) (task : TaskInfo)
    (errs : FitErrors) : Cluster :=
  let old := (mapGet s.NodesFitErrors job.UID).getD []
  { s with NodesFitErrors := mapSet s.NodesFitErrors job.UID (mapSet old task.UID errs) }

/-- The queue of the packing scenario. -/
def packQueues : GoMap QueueID QueueInfo := [("q", ⟨"q", "q", 1⟩)]

/-- The job of the packing scenario. -/
def packJob : JobInfo := ⟨"j", "j", "n", "q", PodGroupPhase.Inqueue⟩

/-- The first pending task of `packJob`: 1000m CPU. -/
def smallTask : TaskInfo := ⟨"t1", "j", "t1", "n", cpuMem 1000 1, cpuMem 1000 1⟩

/-- The second pending task of `packJob`: 3000m CPU. -/
def largeTask : TaskInfo := ⟨"t2", "j", "t2", "n", cpuMem 3000 1, cpuMem 3000 1⟩

/-- The start of the packing scenario: node `big` with 4000m CPU idle, node `little` with
1000m CPU idle, nothing releasing, no fit record, no task placed. -/
def packStart : Cluster :=
  { Nodes := [("big", ⟨"big", cpuMem 0 0, cpuMem 4000 8, cpuMem 0 0, cpuMem 4000 8⟩),
              ("little", ⟨"little", cpuMem 0 0, cpuMem 1000 8, cpuMem 0 0, cpuMem 1000 8⟩)],
    NodesFitDelta := [], NodesFitErrors := [], Allocated := [], Pipelined := [] }

/-- A session over `Cluster` with one job of two pending tasks and two nodes: the tasks
come in the order small, large; the feasible nodes of a task are the nodes its predicate
accepts, they all score alike and are taken in the order of `ssn.Nodes`; the job is ready
once one of its tasks is allocated; `Commit` leaves the snapshot as the operations made it. -/
def packSession : Session Cluster Statement where
  Jobs := [packJob]
  Queues := packQueues
  Nodes := ["big", "little"]
  Node := Cluster.Node
  PendingTasks := fun _ job => if job.UID = "j" then [smallTask, largeTask] else []
  NodesFitDeltaLen := fun s job => ((mapGet s.NodesFitDelta job.UID).getD []).length
  ResetNodesFitDelta := fun s job => { s with NodesFitDelta := mapSet s.NodesFitDelta job.UID [] }
  SetNodesFitDelta := Cluster.SetNodesFitDelta
  SetNodesFitErrors := Cluster.SetNodesFitErrors
  NamespaceOrderFn := fun _ _ _ => false
  QueueOrderFn := fun _ _ _ => false
  JobOrderFn := fun _ _ _ => false
  TaskOrderFn := fun _ _ _ => false
  JobValid := fun _ _ => none
  Overused := fun _ _ => false
  JobReady := fun s job => (s.Allocated.filter (fun p => decide (p.1.Job = job.UID))).length ≥ 1
  PredicateFn := fun _ _ _ => none
  LessEqual := Resource.LessEqual
  IsEmpty := fun r => decide (r.MilliCPU = 0) && decide (r.Memory = 0)
  FitDelta := fun have1 req => have1.Sub req
  PredicateNodes := fun s task nodes fn =>
    (nodes.filter (fun ref => (fn task (s.Node ref)).isNone),
      nodes.filterMap (fun ref => (fn task (s.Node ref)).map (fun e => (ref, e))))
  PrioritizeNodes := fun _ _ nodes => [(0, nodes)]
  SelectTopNodes := fun scores count => (scores.flatMap (fun p => p.2)).take count
  Statement := fun _ => []
  Allocate := Cluster.Allocate
  Pipeline := Cluster.Pipeline
  Commit := fun s _ => s
  Discard := Cluster.Discard

/-! ## Node names -/

/-- The alphabet of a Kubernetes node name, which the API server admits only as a DNS
subdomain of RFC 1123: lower-case letters, digits, `-` and `.`. -/
def isNodeNameChar (c : Char) : Bool :=
  c.isLower || c.isDigit || c == '-' || c == '.'

/-- The string is written in the alphabet of node names. -/
def IsNodeName (name : String) : Bool :=
  name.data.all isNodeNameChar

/-! ## The pass over the selected nodes -/

/-- The tasks popped in a trace, in the order of the pops. -/
def poppedTasks (events : List Event) : List TaskInfo :=
  events.filterMap (fun e =>
    match e with
    | Event.popTask t => some t
    | _ => none)

/-- The feasible nodes of `task` (line 197), `st` being the state of the task loop at the
pop of `task`. -/
def feasibleNodes {σ τ : Type} (ssn : Session σ τ) (job : JobInfo) (st : Place σ τ)
    (task : TaskInfo) : List NodeRef :=
  (ssn.PredicateNodes (resetNodesFitDelta ssn st.ssn job) task ssn.Nodes
    (fun t n => (predicateFn ssn (resetNodesFitDelta ssn st.ssn job) t n).1)).1

/-- The nodes selected for `task` (lines 203-206): the top `tasks.Len() + 1` nodes of the
scored feasible nodes, `rest` being the heap after the pop of `task`. -/
def selectedNodes {σ τ : Type} (ssn : Session σ τ) (job : JobInfo) (st : Place σ τ)
    (task : TaskInfo) (rest : PriorityQueue TaskInfo) : List NodeRef :=
  ssn.SelectTopNodes
    (ssn.PrioritizeNodes (resetNodesFitDelta ssn st.ssn job) task (feasibleNodes ssn job st task))
    (PriorityQueue.Len rest + 1)

/-- The node loop in the words of the specification, without an index: the task at hand is
placed on the first node; when the heap is then empty the pass ends; otherwise, when a node
follows, the next task is popped and the pass goes on with it on that node. The third
component lists the pairs of task and node handed to the placement. -/
def specNodeLoop {σ τ : Type} (ssn : Session σ τ) (job : JobInfo) :
    List NodeRef → TaskInfo → Place σ τ → Place σ τ × List Event × List (TaskInfo × NodeRef)
  | [], _, st => (st, [], [])
  | ref :: refs, task, st =>
    let placed := tryNode ssn job task (ssn.Node st.ssn ref) st
    if PriorityQueue.Empty placed.1.tasks then (placed.1, placed.2, [(task, ref)])
    else if refs.isEmpty then (placed.1, placed.2, [(task, ref)])
    else
      match PriorityQueue.Pop (ssn.TaskOrderFn placed.1.ssn) placed.1.tasks with
      | some (next, rest) =>
        let r := specNodeLoop ssn job refs next { placed.1 with tasks := rest }
        (r.1, placed.2 ++ Event.popTask next :: r.2.1, (task, ref) :: r.2.2)
      | none => (placed.1, placed.2, [(task, ref)])

/-- The pass of the task loop for `task` in the words of the specification: the loop
`specNodeLoop` over the nodes selected for `task`, started with `NodesFitDelta` reset and
with `rest` as the heap. -/
def specPass {σ τ : Type} (ssn : Session σ τ) (job : JobInfo) (st : Place σ τ)
    (task : TaskInfo) (rest : PriorityQueue TaskInfo) :
    Place σ τ × List Event × List (TaskInfo × NodeRef) :=
  specNodeLoop ssn job (selectedNodes ssn job st task rest) task
    { ssn := resetNodesFitDelta ssn st.ssn job, stmt := st.stmt, tasks := rest }

/-- A further task of `demoJob2`, of the same size as `demoTask`. -/
def demoTaskB : TaskInfo := ⟨"t3", "j2", "t3", "n", cpuMem 1000 1, cpuMem 1000 1⟩

/-! # Theorems -/

/-! ## Maps and priority queues: basic facts -/

theorem mapGet_mapSet {κ ν : Type} [DecidableEq κ] (m : GoMap κ ν) (k x : κ) (w : ν) :
    mapGet (mapSet m k w) x = if k = x then some w else mapGet m x := by
  induction m with
  | nil => simp [mapSet, mapGet]
  | cons p m ih =>
    obtain ⟨a, b⟩ := p
    by_cases h : a = k
    · subst h
      by_cases hx : a = x <;> simp [mapSet, mapGet, hx]
    · by_cases hx : a = x
      · subst hx
        have hk : ¬ k = a := fun e => h e.symm
        simp [mapSet, mapGet, h, hk]
      · simp [mapSet, mapGet, h, hx, ih]

theorem Pop_eq_none {α : Type} (less : α → α → Bool) (q : PriorityQueue α) :
    PriorityQueue.Pop less q = none ↔ q = [] := by
  cases q with
  | nil => simp [PriorityQueue.Pop]
  | cons x xs =>
    simp only [PriorityQueue.Pop]
    cases PriorityQueue.Pop less xs with
    | none => simp
    | some p =>
      obtain ⟨y, ys⟩ := p
      by_cases h : less y x = true <;> simp [h]

theorem Pop_perm {α : Type} (less : α → α → Bool) :
    ∀ (q : PriorityQueue α) (x : α) (r : PriorityQueue α),
      PriorityQueue.Pop less q = some (x, r) → List.Perm q (x :: r) := by
  intro q
  induction q with
  | nil => intro x r h; simp [PriorityQueue.Pop] at h
  | cons a as ih =>
    intro x r h
    simp only [PriorityQueue.Pop] at h
    cases hp : PriorityQueue.Pop less as with
    | none =>
      rw [hp] at h
      have has : as = [] := (Pop_eq_none less as).1 hp
      simp at h
      obtain ⟨h1, h2⟩ := h
      subst h1 h2 has
      exact List.Perm.refl _
    | some p =>
      obtain ⟨y, ys⟩ := p
      rw [hp] at h
      have hperm := ih y ys hp
      by_cases hl : less y a = true
      · simp [hl] at h
        obtain ⟨h1, h2⟩ := h
        subst h1 h2
        exact (List.Perm.cons a hperm).trans (List.Perm.swap _ _ _)
      · simp [hl] at h
        obtain ⟨h1, h2⟩ := h
        subst h1 h2
        exact List.Perm.refl _

theorem Pop_mem {α : Type} (less : α → α → Bool) (q : PriorityQueue α) (x : α)
    (r : PriorityQueue α) (h : PriorityQueue.Pop less q = some (x, r)) :
    x ∈ q ∧ ∀ y ∈ r, y ∈ q := by
  have hp := Pop_perm less q x r h
  exact ⟨hp.symm.subset (List.mem_cons_self _ _),
    fun y hy => hp.symm.subset (List.mem_cons_of_mem _ hy)⟩

theorem Pop_length {α : Type} (less : α → α → Bool) (q : PriorityQueue α) (x : α)
    (r : PriorityQueue α) (h : PriorityQueue.Pop less q = some (x, r)) :
    q.length = r.length + 1 := by
  have hp := (Pop_perm less q x r h).length_eq
  simpa using hp

/-! ## The bucketisation pass -/

theorem bucketJob_eq {σ τ : Type} (ssn : Session σ τ) (s : σ)
    (acc : PriorityQueue NamespaceName × JobsMap) (job : JobInfo) :
    bucketJob ssn s acc job =
      if eligible ssn s job = true then
        (if (mapGet acc.2 job.Namespace).isSome then acc.1 else acc.1 ++ [job.Namespace],
          mapSet acc.2 job.Namespace
            (mapSet ((mapGet acc.2 job.Namespace).getD []) job.Queue
              (jobsAt acc.2 job.Namespace job.Queue ++ [job])))
      else acc := by
  unfold bucketJob eligible jobsAt PriorityQueue.Push
  by_cases h1 : job.Phase = PodGroupPhase.Pending
  · simp [h1]
  · cases h2 : ssn.JobValid s job with
    | none =>
      cases h3 : mapGet ssn.Queues job.Queue with
      | none => simp [h1]
      | some qi =>
        cases h4 : mapGet acc.2 job.Namespace with
        | none => simp [h1, h4, mapGet]
        | some qm => cases h6 : mapGet qm job.Queue <;> simp [h1, h4, h6]
    | some vr =>
      cases h5 : vr.Pass with
      | false => simp [h1, h5]
      | true =>
        cases h3 : mapGet ssn.Queues job.Queue with
        | none => simp [h1, h5]
        | some qi =>
          cases h4 : mapGet acc.2 job.Namespace with
          | none => simp [h1, h5, h4, mapGet]
          | some qm => cases h6 : mapGet qm job.Queue <;> simp [h1, h5, h4, h6]

theorem jobsAt_mapSet (jm : JobsMap) (ns : NamespaceName) (q : QueueID)
    (js : PriorityQueue JobInfo) (ns1 : NamespaceName) (q1 : QueueID) :
    jobsAt (mapSet jm ns (mapSet ((mapGet jm ns).getD []) q js)) ns1 q1 =
      if ns = ns1 ∧ q = q1 then js else jobsAt jm ns1 q1 := by
  unfold jobsAt
  rw [mapGet_mapSet]
  by_cases h : ns = ns1
  · subst h
    simp only [if_true, true_and]
    rw [mapGet_mapSet]
    by_cases hq : q = q1
    · simp [hq]
    · cases hm : mapGet jm ns <;> simp [hq, mapGet]
  · simp [h]

theorem BucketInv_step {σ τ : Type} (ssn : Session σ τ) (s : σ) (seen : List JobInfo)
    (acc : PriorityQueue NamespaceName × JobsMap) (job : JobInfo)
    (h : BucketInv ssn s seen acc) : BucketInv ssn s (seen ++ [job]) (bucketJob ssn s acc job) := by
  obtain ⟨hjobs, hnd, hmem, hkey⟩ := h
  rw [bucketJob_eq]
  by_cases he : eligible ssn s job = true
  · rw [if_pos he]
    refine ⟨?_, ?_, ?_, ?_⟩
    · intro ns q
      rw [jobsAt_mapSet, List.filter_append, ← hjobs ns q]
      by_cases hc : job.Namespace = ns ∧ job.Queue = q
      · obtain ⟨h1, h2⟩ := hc
        subst h1 h2
        simp [he]
      · have hf : (eligible ssn s job && decide (job.Namespace = ns) && decide (job.Queue = q))
            = false := by
          by_cases h1 : job.Namespace = ns
          · have h2 : ¬ job.Queue = q := fun e => hc ⟨h1, e⟩
            simp [h2]
          · simp [h1]
        simp [hc, hf]
    · by_cases hs : (mapGet acc.2 job.Namespace).isSome = true
      · simpa [hs] using hnd
      · have hn : job.Namespace ∉ acc.1 := fun hin => hs ((hmem _).1 hin)
        simp only [hs]
        exact List.Nodup.append hnd (List.nodup_singleton _) (by simpa using hn)
    · intro ns
      simp only [mapGet_mapSet]
      by_cases hs : (mapGet acc.2 job.Namespace).isSome = true
      · by_cases hn : job.Namespace = ns
        · subst hn
          simp [hs, (hmem job.Namespace).2 hs]
        · simp [hs, hn, hmem ns]
      · by_cases hn : job.Namespace = ns
        · subst hn
          simp [hs]
        · have hn2 : ¬ ns = job.Namespace := fun e => hn e.symm
          simp [hs, hn, hn2, hmem ns]
    · intro ns
      simp only [mapGet_mapSet]
      by_cases hn : job.Namespace = ns
      · subst hn
        simp only [if_true, Option.isSome_some, true_iff]
        exact ⟨job, by simp, he, rfl⟩
      · simp only [hn, if_false, hkey ns, List.mem_append, List.mem_singleton]
        constructor
        · rintro ⟨j, hj, hej, hjn⟩
          exact ⟨j, Or.inl hj, hej, hjn⟩
        · rintro ⟨j, hj | hj, hej, hjn⟩
          · exact ⟨j, hj, hej, hjn⟩
          · subst hj
            exact absurd hjn hn
  · rw [if_neg he]
    have hf : eligible ssn s job = false := by simpa using he
    refine ⟨?_, hnd, hmem, ?_⟩
    · intro ns q
      rw [List.filter_append, ← hjobs ns q]
      simp [hf]
    · intro ns
      rw [hkey ns]
      constructor
      · rintro ⟨j, hj, hej, hjn⟩
        exact ⟨j, by simp [hj], hej, hjn⟩
      · rintro ⟨j, hj, hej, hjn⟩
        rcases List.mem_append.1 hj with hj | hj
        · exact ⟨j, hj, hej, hjn⟩
        · rw [List.mem_singleton.1 hj] at hej
          rw [hf] at hej
          exact absurd hej (by simp)

theorem BucketInv_foldl {σ τ : Type} (ssn : Session σ τ) (s : σ) :
    ∀ (todo seen : List JobInfo) (acc : PriorityQueue NamespaceName × JobsMap),
      BucketInv ssn s seen acc →
      BucketInv ssn s (seen ++ todo) (todo.foldl (bucketJob ssn s) acc) := by
  intro todo
  induction todo with
  | nil => intro seen acc h; simpa using h
  | cons j js ih =>
    intro seen acc h
    have h2 := ih (seen ++ [j]) (bucketJob ssn s acc j) (BucketInv_step ssn s seen acc j h)
    simpa using h2

theorem BucketInv_bucketise {σ τ : Type} (ssn : Session σ τ) (s : σ) :
    BucketInv ssn s ssn.Jobs (bucketise ssn s) := by
  have h0 : BucketInv ssn s [] (([], []) : PriorityQueue NamespaceName × JobsMap) := by
    refine ⟨?_, ?_, ?_, ?_⟩
    · intro ns q; simp [jobsAt, mapGet]
    · exact List.nodup_nil
    · intro ns; simp [mapGet]
    · intro ns; simp [mapGet]
  simpa [bucketise] using BucketInv_foldl ssn s ssn.Jobs [] _ h0

/-- C3. After the bucketisation pass of `Execute`, the heap `jobsMap[ns][q]` holds exactly the
jobs of `ssn.Jobs` that are not in phase `Pending`, pass `JobValid` (nil or `Pass`), have a
registered queue, and have namespace `ns` and queue `q`: each of them once per occurrence in
`ssn.Jobs` and in that order, and no other job. The namespace heap holds each namespace of
such a job, and nothing else, exactly once. -/
theorem bucketise_spec {σ τ : Type} (ssn : Session σ τ) (s : σ) :
    (∀ ns q, jobsAt (bucketise ssn s).2 ns q =
      ssn.Jobs.filter
        (fun j => eligible ssn s j && decide (j.Namespace = ns) && decide (j.Queue = q))) ∧
    (∀ job, job ∈ jobsAt (bucketise ssn s).2 job.Namespace job.Queue ↔
      (job ∈ ssn.Jobs ∧ job.Phase ≠ PodGroupPhase.Pending ∧
        (ssn.JobValid s job = none ∨ ∃ vr, ssn.JobValid s job = some vr ∧ vr.Pass = true) ∧
        ∃ qi, mapGet ssn.Queues job.Queue = some qi)) ∧
    (∀ job, (jobsAt (bucketise ssn s).2 job.Namespace job.Queue).count job =
      if eligible ssn s job = true then ssn.Jobs.count job else 0) ∧
    (bucketise ssn s).1.Nodup ∧
    (∀ ns, ns ∈ (bucketise ssn s).1 ↔
      ∃ job ∈ ssn.Jobs, eligible ssn s job = true ∧ job.Namespace = ns) := by
  obtain ⟨hjobs, hnd, hmem, hkey⟩ := BucketInv_bucketise ssn s
  refine ⟨hjobs, ?_, ?_, hnd, ?_⟩
  · intro job
    rw [hjobs, List.mem_filter]
    have he : eligible ssn s job = true ↔
        (job.Phase ≠ PodGroupPhase.Pending ∧
        (ssn.JobValid s job = none ∨ ∃ vr, ssn.JobValid s job = some vr ∧ vr.Pass = true) ∧
        ∃ qi, mapGet ssn.Queues job.Queue = some qi) := by
      unfold eligible
      cases h2 : ssn.JobValid s job <;> cases h3 : mapGet ssn.Queues job.Queue <;> simp
    simp [he]
  · intro job
    rw [hjobs]
    by_cases he : eligible ssn s job = true
    · rw [if_pos he, List.count_filter]
      simp [he]
    · have hf : eligible ssn s job = false := by simpa using he
      rw [if_neg he, List.count_eq_zero]
      intro hin
      have := (List.mem_filter.1 hin).2
      simp [hf] at this
  · intro ns
    rw [hmem ns, hkey ns]

/-! ## The predicate closure -/

/-- C4. `predicateFn` returns the `NodeResourceFitFailed` fit error without calling
`ssn.PredicateFn` if and only if the task's `InitResreq` is `LessEqual` neither to the node's
`Idle` nor to its `Releasing`; in every other case it calls `ssn.PredicateFn(task, node)`
once and returns exactly its result. -/
theorem predicateFn_spec {σ τ : Type} (ssn : Session σ τ) (s : σ) (task : TaskInfo)
    (node : NodeInfo) :
    (predicateFn ssn s task node =
        (some (NewFitError task node FitKind.NodeResourceFitFailed), []) ↔
      (ssn.LessEqual task.InitResreq node.Idle = false ∧
        ssn.LessEqual task.InitResreq node.Releasing = false)) ∧
    (¬ (ssn.LessEqual task.InitResreq node.Idle = false ∧
        ssn.LessEqual task.InitResreq node.Releasing = false) →
      predicateFn ssn s task node = (ssn.PredicateFn s task node, [(task, node)])) := by
  unfold predicateFn
  cases h1 : ssn.LessEqual task.InitResreq node.Idle <;>
    cases h2 : ssn.LessEqual task.InitResreq node.Releasing <;> simp

theorem selectQueue_fst {σ τ : Type} (ssn : Session σ τ) (s : σ) :
    ∀ (m : GoMap QueueID (PriorityQueue JobInfo)) (queue : Option QueueInfo),
      (selectQueue ssn s m queue).1 =
        m.filter (fun e => match mapGet ssn.Queues e.1 with
          | none => true
          | some q => !ssn.Overused s q) := by
  intro m
  induction m with
  | nil => intro queue; simp [selectQueue]
  | cons e m ih =>
    intro queue
    obtain ⟨k, jobs⟩ := e
    simp only [selectQueue]
    cases hq : mapGet ssn.Queues k with
    | none => simp [List.filter, hq, ih]
    | some q =>
      by_cases ho : ssn.Overused s q = true
      · simp [List.filter, hq, ho, ih]
      · have hf : ssn.Overused s q = false := by simpa using ho
        simp [List.filter, hq, hf, ih]

theorem selectQueue_snd {σ τ : Type} (ssn : Session σ τ) (s : σ) :
    ∀ (m : GoMap QueueID (PriorityQueue JobInfo)) (queue : Option QueueInfo),
      (selectQueue ssn s m queue).2 = (survivors ssn s m).foldl (pickQueue ssn s) queue := by
  intro m
  induction m with
  | nil => intro queue; simp [selectQueue, survivors]
  | cons e m ih =>
    intro queue
    obtain ⟨k, jobs⟩ := e
    simp only [selectQueue, survivors]
    cases hq : mapGet ssn.Queues k with
    | none =>
      have : survivor ssn s (k, jobs) = none := by simp [survivor, hq]
      simp [List.filterMap_cons, this, ih, survivors]
    | some q =>
      by_cases ho : ssn.Overused s q = true
      · have : survivor ssn s (k, jobs) = none := by simp [survivor, hq, ho]
        simp [List.filterMap_cons, this, ho, ih, survivors]
      · have hf : ssn.Overused s q = false := by simpa using ho
        have : survivor ssn s (k, jobs) = some q := by simp [survivor, hq, hf]
        simp only [List.filterMap_cons, this, hf, List.foldl_cons]
        rw [ih]
        cases queue <;> simp [pickQueue, survivors]

theorem pick_foldl_some {σ τ : Type} (ssn : Session σ τ) (s : σ) :
    ∀ (l : List QueueInfo) (b : QueueInfo),
      ∃ q, l.foldl (pickQueue ssn s) (some b) = some q ∧ (q = b ∨ q ∈ l) := by
  intro l
  induction l with
  | nil => intro b; exact ⟨b, rfl, Or.inl rfl⟩
  | cons c l ih =>
    intro b
    simp only [List.foldl_cons, pickQueue]
    by_cases h : ssn.QueueOrderFn s c b = true
    · obtain ⟨q, hq, hm⟩ := ih c
      refine ⟨q, by simpa [h] using hq, ?_⟩
      rcases hm with hm | hm
      · exact Or.inr (by simp [hm])
      · exact Or.inr (List.mem_cons_of_mem _ hm)
    · obtain ⟨q, hq, hm⟩ := ih b
      refine ⟨q, by simpa [h] using hq, ?_⟩
      rcases hm with hm | hm
      · exact Or.inl hm
      · exact Or.inr (List.mem_cons_of_mem _ hm)

theorem pick_foldl_best {σ τ : Type} (ssn : Session σ τ) (s : σ) (all : List QueueInfo)
    (htotal : ∀ a ∈ all, ∀ b ∈ all, a ≠ b →
      ssn.QueueOrderFn s a b = true ∨ ssn.QueueOrderFn s b a = true)
    (htrans : ∀ a ∈ all, ∀ b ∈ all, ∀ c ∈ all,
      ssn.QueueOrderFn s a b = true → ssn.QueueOrderFn s b c = true →
      ssn.QueueOrderFn s a c = true) :
    ∀ (l seen : List QueueInfo) (b q : QueueInfo), b ∈ all →
      (∀ x ∈ l, x ∈ all) → (∀ x ∈ seen, x ∈ all) →
      (∀ x ∈ seen, x ≠ b → ssn.QueueOrderFn s b x = true) →
      l.foldl (pickQueue ssn s) (some b) = some q →
      ∀ x, (x ∈ seen ∨ x = b ∨ x ∈ l) → x ≠ q → ssn.QueueOrderFn s q x = true := by
  intro l
  induction l with
  | nil =>
    intro seen b q _ _ _ hbest hq x hx hne
    simp at hq
    subst hq
    rcases hx with hx | hx | hx
    · exact hbest x hx hne
    · exact absurd hx hne
    · simp at hx
  | cons c l ih =>
    intro seen b q hb hl hseen hbest hq x hx hne
    have hc : c ∈ all := hl c (List.mem_cons_self _ _)
    have hl2 : ∀ x ∈ l, x ∈ all := fun x hx => hl x (List.mem_cons_of_mem _ hx)
    simp only [List.foldl_cons, pickQueue] at hq
    by_cases h : ssn.QueueOrderFn s c b = true
    · simp only [h, if_true] at hq
      have hseen2 : ∀ y ∈ b :: seen, y ∈ all := by
        intro y hy
        rcases List.mem_cons.1 hy with hy | hy
        · exact hy ▸ hb
        · exact hseen y hy
      have hbest2 : ∀ y ∈ b :: seen, y ≠ c → ssn.QueueOrderFn s c y = true := by
        intro y hy hyc
        rcases List.mem_cons.1 hy with hy | hy
        · exact hy ▸ h
        · by_cases hyb : y = b
          · exact hyb ▸ h
          · exact htrans c hc b hb y (hseen y hy) h (hbest y hy hyb)
      refine ih (b :: seen) c q hc hl2 hseen2 hbest2 hq x ?_ hne
      rcases hx with hx | hx | hx
      · exact Or.inl (List.mem_cons_of_mem _ hx)
      · exact Or.inl (by simp [hx])
      · rcases List.mem_cons.1 hx with hx | hx
        · exact Or.inr (Or.inl hx)
        · exact Or.inr (Or.inr hx)
    · simp only [h, if_false] at hq
      have hseen2 : ∀ y ∈ c :: seen, y ∈ all := by
        intro y hy
        rcases List.mem_cons.1 hy with hy | hy
        · exact hy ▸ hc
        · exact hseen y hy
      have hbest2 : ∀ y ∈ c :: seen, y ≠ b → ssn.QueueOrderFn s b y = true := by
        intro y hy hyb
        rcases List.mem_cons.1 hy with hy | hy
        · subst hy
          rcases htotal y hc b hb hyb with h1 | h1
          · exact absurd h1 h
          · exact h1
        · exact hbest y hy hyb
      refine ih (c :: seen) b q hb hl2 hseen2 hbest2 hq x ?_ hne
      rcases hx with hx | hx | hx
      · exact Or.inl (List.mem_cons_of_mem _ hx)
      · exact Or.inr (Or.inl hx)
      · rcases List.mem_cons.1 hx with hx | hx
        · exact Or.inl (by simp [hx])
        · exact Or.inr (Or.inr hx)

theorem mem_survivors {σ τ : Type} (ssn : Session σ τ) (s : σ)
    (m : GoMap QueueID (PriorityQueue JobInfo)) (q : QueueInfo) :
    q ∈ survivors ssn s m ↔
      ∃ e ∈ m, mapGet ssn.Queues e.1 = some q ∧ ssn.Overused s q = false := by
  unfold survivors
  rw [List.mem_filterMap]
  constructor
  · rintro ⟨e, he, hs⟩
    refine ⟨e, he, ?_⟩
    unfold survivor at hs
    cases hq : mapGet ssn.Queues e.1 with
    | none => simp [hq] at hs
    | some q1 =>
      by_cases ho : ssn.Overused s q1 = true
      · simp [hq, ho] at hs
      · have hf : ssn.Overused s q1 = false := by simpa using ho
        simp [hq, hf] at hs
        subst hs
        exact ⟨rfl, hf⟩
  · rintro ⟨e, he, hq, ho⟩
    exact ⟨e, he, by simp [survivor, hq, ho]⟩

/-- C5. The queue scan of `Execute` over the map `m` of a popped namespace: an entry stays
in the map exactly when its queue is not overused, so every overused queue is deleted; the
selected queue is never overused and is a queue of the map; no queue is selected exactly when
no queue survives; and when `QueueOrderFn` is total and transitive on the surviving queues,
the selected queue is ordered before every other surviving queue. -/
theorem selectQueue_spec {σ τ : Type} (ssn : Session σ τ) (s : σ)
    (m : GoMap QueueID (PriorityQueue JobInfo)) :
    (∀ e ∈ m, ∀ q, mapGet ssn.Queues e.1 = some q →
      (e ∈ (selectQueue ssn s m none).1 ↔ ssn.Overused s q = false)) ∧
    (∀ e ∈ (selectQueue ssn s m none).1, e ∈ m) ∧
    (∀ q, (selectQueue ssn s m none).2 = some q →
      ssn.Overused s q = false ∧ ∃ e ∈ m, mapGet ssn.Queues e.1 = some q) ∧
    ((selectQueue ssn s m none).2 = none ↔
      ∀ e ∈ m, ∀ q, mapGet ssn.Queues e.1 = some q → ssn.Overused s q = true) ∧
    ((∀ a ∈ survivors ssn s m, ∀ b ∈ survivors ssn s m, a ≠ b →
        ssn.QueueOrderFn s a b = true ∨ ssn.QueueOrderFn s b a = true) →
      (∀ a ∈ survivors ssn s m, ∀ b ∈ survivors ssn s m, ∀ c ∈ survivors ssn s m,
        ssn.QueueOrderFn s a b = true → ssn.QueueOrderFn s b c = true →
        ssn.QueueOrderFn s a c = true) →
      ∀ q, (selectQueue ssn s m none).2 = some q →
        ∀ other ∈ survivors ssn s m, other ≠ q → ssn.QueueOrderFn s q other = true) := by
  have hsel : ∀ q, (selectQueue ssn s m none).2 = some q → q ∈ survivors ssn s m := by
    intro q hq
    rw [selectQueue_snd] at hq
    cases hl : survivors ssn s m with
    | nil => rw [hl] at hq; simp at hq
    | cons b l =>
      rw [hl] at hq
      simp only [List.foldl_cons, pickQueue] at hq
      obtain ⟨q1, hq1, hm⟩ := pick_foldl_some ssn s l b
      rw [hq1] at hq
      have : q1 = q := by simpa using hq
      subst this
      rcases hm with hm | hm
      · simp [hm]
      · exact List.mem_cons_of_mem _ hm
  refine ⟨?_, ?_, ?_, ?_, ?_⟩
  · intro e he q hq
    rw [selectQueue_fst, List.mem_filter]
    simp [he, hq]
  · intro e he
    rw [selectQueue_fst] at he
    exact (List.mem_filter.1 he).1
  · intro q hq
    obtain ⟨e, he, h1, h2⟩ := (mem_survivors ssn s m q).1 (hsel q hq)
    exact ⟨h2, e, he, h1⟩
  · rw [selectQueue_snd]
    constructor
    · intro hnone e he q hq
      by_cases ho : ssn.Overused s q = true
      · exact ho
      · have hf : ssn.Overused s q = false := by simpa using ho
        have hin : q ∈ survivors ssn s m := (mem_survivors ssn s m q).2 ⟨e, he, hq, hf⟩
        cases hl : survivors ssn s m with
        | nil => rw [hl] at hin; simp at hin
        | cons b l =>
          rw [hl] at hnone
          simp only [List.foldl_cons, pickQueue] at hnone
          obtain ⟨q1, hq1, _⟩ := pick_foldl_some ssn s l b
          rw [hq1] at hnone
          simp at hnone
    · intro hall
      have hnil : survivors ssn s m = [] := by
        rw [List.eq_nil_iff_forall_not_mem]
        intro q hq
        obtain ⟨e, he, h1, h2⟩ := (mem_survivors ssn s m q).1 hq
        have := hall e he q h1
        rw [h2] at this
        simp at this
      rw [hnil]
      rfl
  · intro htotal htrans q hq other hother hne
    rw [selectQueue_snd] at hq
    cases hl : survivors ssn s m with
    | nil => rw [hl] at hq; simp at hq
    | cons b l =>
      rw [hl] at hq hother
      simp only [List.foldl_cons, pickQueue] at hq
      have hb : b ∈ survivors ssn s m := by rw [hl]; simp
      have hl2 : ∀ x ∈ l, x ∈ survivors ssn s m := by
        intro x hx; rw [hl]; exact List.mem_cons_of_mem _ hx
      refine pick_foldl_best ssn s (survivors ssn s m) htotal htrans l [] b q hb hl2
        (by simp) (by simp) hq other ?_ hne
      rcases List.mem_cons.1 hother with h | h
      · exact Or.inr (Or.inl h)
      · exact Or.inr (Or.inr h)

/-! ## The placement loops: shape of the trace -/

theorem tryNode_tasks {σ τ : Type} (ssn : Session σ τ) (job : JobInfo) (task : TaskInfo)
    (node : NodeInfo) (st : Place σ τ) : (tryNode ssn job task node st).1.tasks = st.tasks := by
  unfold tryNode
  by_cases h1 : ssn.LessEqual task.InitResreq node.Idle = true
  · simp [h1]
  · by_cases h2 : ssn.LessEqual task.InitResreq node.Releasing = true <;> simp [h1, h2]

theorem tryNode_events {σ τ : Type} (ssn : Session σ τ) (job : JobInfo) (task : TaskInfo)
    (node : NodeInfo) (st : Place σ τ) :
    (tryNode ssn job task node st).2 = [] ∨
    (tryNode ssn job task node st).2 = [Event.allocate task node.Name] ∨
    (tryNode ssn job task node st).2 = [Event.pipeline task node.Name] := by
  unfold tryNode
  by_cases h1 : ssn.LessEqual task.InitResreq node.Idle = true
  · simp [h1]
  · by_cases h2 : ssn.LessEqual task.InitResreq node.Releasing = true <;> simp [h1, h2]

theorem tryNode_placement {σ τ : Type} (ssn : Session σ τ) (job : JobInfo) (task : TaskInfo)
    (node : NodeInfo) (st : Place σ τ) :
    ∀ e ∈ (tryNode ssn job task node st).2, e.isPlacement = true ∧ e.placed = some task := by
  intro e he
  rcases tryNode_events ssn job task node st with h | h | h
  · rw [h] at he
    exact absurd he (List.not_mem_nil _)
  · rw [h, List.mem_singleton] at he
    subst he
    exact ⟨rfl, rfl⟩
  · rw [h, List.mem_singleton] at he
    subst he
    exact ⟨rfl, rfl⟩

theorem nodeLoop_placement {σ τ : Type} (ssn : Session σ τ) (job : JobInfo) (n : Nat) :
    ∀ (refs : List NodeRef) (i : Nat) (task : TaskInfo) (st : Place σ τ),
      ∀ e ∈ (nodeLoop ssn job n i refs task st).2, e.isPlacement = true := by
  intro refs
  induction refs with
  | nil => intro i task st e he; simp [nodeLoop] at he
  | cons ref refs ih =>
    intro i task st e he
    simp only [nodeLoop] at he
    have hp := tryNode_placement ssn job task (ssn.Node st.ssn ref) st
    split at he
    · exact (hp e he).1
    · rename_i hne
      split at he
      · split at he
        · rename_i next rest hpop
          simp only [List.mem_append, List.mem_cons] at he
          rcases he with he | he | he
          · exact (hp e he).1
          · subst he; rfl
          · exact ih _ _ _ e he
        · rename_i hpop
          have := (Pop_eq_none _ _).1 hpop
          simp [PriorityQueue.Empty, this] at hne
      · simp only [List.mem_append] at he
        rcases he with he | he
        · exact (hp e he).1
        · exact ih _ _ _ e he

theorem taskLoop_placement {σ τ : Type} (ssn : Session σ τ) (job : JobInfo) :
    ∀ (fuel : Nat) (st : Place σ τ),
      ∀ e ∈ (taskLoop ssn job fuel st).2, e.isPlacement = true := by
  intro fuel
  induction fuel with
  | zero => intro st e he; simp [taskLoop] at he
  | succ fuel ih =>
    intro st e he
    simp only [taskLoop] at he
    split at he
    · simp at he
    · rename_i task rest hpop
      split at he
      · simp only [List.mem_cons, List.mem_singleton, List.not_mem_nil, or_false] at he
        rcases he with he | he <;> subst he <;> rfl
      · simp only [List.mem_cons, List.mem_append] at he
        rcases he with (he | he) | he
        · subst he; rfl
        · exact nodeLoop_placement ssn job _ _ _ _ _ e he
        · exact ih _ e he

theorem allocateJob_events {σ τ : Type} (ssn : Session σ τ) (st : Loop σ) (job : JobInfo) :
    ∃ (pl : List Event) (ready : Bool), (∀ e ∈ pl, e.isPlacement = true) ∧
      (allocateJob ssn st job).2 = Event.popJob job :: (pl ++
        [Event.jobReady job ready, if ready then Event.commit job else Event.discard job]) := by
  unfold allocateJob
  exact ⟨_, _, taskLoop_placement ssn job _ _, rfl⟩

theorem GangTrace_block (ev rest : List Event) (job : JobInfo)
    (h : ∃ (pl : List Event) (ready : Bool), (∀ e ∈ pl, e.isPlacement = true) ∧
      ev = Event.popJob job :: (pl ++
        [Event.jobReady job ready, if ready then Event.commit job else Event.discard job]))
    (hrest : GangTrace rest) : GangTrace (ev ++ rest) := by
  obtain ⟨pl, ready, hpl, hev⟩ := h
  subst hev
  have := GangTrace.job job pl ready rest hpl hrest
  simpa using this

theorem mainLoop_gang {σ τ : Type} (ssn : Session σ τ) :
    ∀ (fuel : Nat) (st : Loop σ), GangTrace (mainLoop ssn fuel st).2 := by
  intro fuel
  induction fuel with
  | zero => intro st; exact GangTrace.nil
  | succ fuel ih =>
    intro st
    simp only [mainLoop]
    split
    · exact GangTrace.nil
    · split
      · exact ih _
      · split
        · exact ih _
        · split
          · exact ih _
          · split
            · exact ih _
            · exact GangTrace_block _ _ _ (allocateJob_events ssn _ _) (ih _)

/-- Witness of C4 on the concrete session: the task fits the idle resources of the node, so
the closure returns the result of `ssn.PredicateFn` after one call. -/
theorem predicateFn_spec_witness :
    ¬ (demoSession.LessEqual demoTask.InitResreq demoNode.Idle = false ∧
        demoSession.LessEqual demoTask.InitResreq demoNode.Releasing = false) ∧
    predicateFn demoSession () demoTask demoNode =
      (demoSession.PredicateFn () demoTask demoNode, [(demoTask, demoNode)]) :=
  ⟨by decide, (predicateFn_spec demoSession () demoTask demoNode).2 (by decide)⟩

/-- Witness of C5 on the concrete session: the weight order is total and transitive on the
two surviving queues, `q1` is selected and is ordered before `q2`. -/
theorem selectQueue_spec_witness :
    (selectQueue demoSession () demoQueueMap none).2 = some ⟨"q1", "q1", 2⟩ ∧
    ∀ other ∈ survivors demoSession () demoQueueMap, other ≠ ⟨"q1", "q1", 2⟩ →
      demoSession.QueueOrderFn () ⟨"q1", "q1", 2⟩ other = true :=
  ⟨by decide, (selectQueue_spec demoSession () demoQueueMap).2.2.2.2 (by decide) (by decide)
    ⟨"q1", "q1", 2⟩ (by decide)⟩

/-- C6, evaluated. On the concrete session (namespace `n` with queues `q1` and `q2`, one
eligible job in each, no queue ever overused, `q1` always ordered first) every run of at
least two iterations ends with an empty namespace heap after popping `demoJob1` only: the
second iteration selects `q1` again, finds its heap empty and drops `n`, while the heap of
`q2` still holds `demoJob2`, which is never popped. -/
theorem Execute_drops_namespace (k : Nat) :
    (Execute demoSession () (k + 2)).1.namespaces = [] ∧
    jobsAt (Execute demoSession () (k + 2)).1.jobsMap "n" "q2" = [demoJob2] ∧
    (Execute demoSession () (k + 2)).2 =
      [Event.popJob demoJob1, Event.jobReady demoJob1 true, Event.commit demoJob1] ∧
    eligible demoSession () demoJob2 = true ∧
    (∀ s q, demoSession.Overused s q = false) := by
  have h : Execute demoSession () (k + 2) = Execute demoSession () 2 := by
    cases k <;> rfl
  rw [h]
  exact ⟨by decide, by decide, by decide, by decide, fun _ _ => rfl⟩

theorem mem_mapSet {κ ν : Type} [DecidableEq κ] (m : GoMap κ ν) (k : κ) (w : ν) :
    ∀ p ∈ mapSet m k w, p ∈ m ∨ p = (k, w) := by
  induction m with
  | nil => intro p hp; simp [mapSet] at hp; exact Or.inr hp
  | cons a m ih =>
    intro p hp
    obtain ⟨a1, a2⟩ := a
    by_cases h : a1 = k
    · subst h
      simp only [mapSet, if_true, List.mem_cons] at hp
      rcases hp with hp | hp
      · exact Or.inr hp
      · exact Or.inl (List.mem_cons_of_mem _ hp)
    · simp only [mapSet, h, if_false, List.mem_cons] at hp
      rcases hp with hp | hp
      · exact Or.inl (by simp [hp])
      · rcases ih p hp with h1 | h1
        · exact Or.inl (List.mem_cons_of_mem _ h1)
        · exact Or.inr h1

theorem mem_of_mapGet {κ ν : Type} [DecidableEq κ] (m : GoMap κ ν) (k : κ) (w : ν)
    (h : mapGet m k = some w) : (k, w) ∈ m := by
  induction m with
  | nil => simp [mapGet] at h
  | cons a m ih =>
    obtain ⟨a1, a2⟩ := a
    by_cases hk : a1 = k
    · subst hk
      simp [mapGet] at h
      subst h
      exact List.mem_cons_self _ _
    · simp only [mapGet, hk, if_false] at h
      exact List.mem_cons_of_mem _ (ih h)

theorem tryNode_ok {σ τ : Type} (ssn : Session σ τ) (job : JobInfo) (task : TaskInfo)
    (node : NodeInfo) (st : Place σ τ) (ht : ssn.IsEmpty task.Resreq = false) :
    ∀ e ∈ (tryNode ssn job task node st).2, e.notBestEffort ssn := by
  intro e he
  rcases tryNode_events ssn job task node st with h | h | h
  · rw [h] at he
    exact absurd he (List.not_mem_nil _)
  · rw [h, List.mem_singleton] at he
    subst he
    exact ht
  · rw [h, List.mem_singleton] at he
    subst he
    exact ht

theorem nodeLoop_ok {σ τ : Type} (ssn : Session σ τ) (job : JobInfo) (n : Nat) :
    ∀ (refs : List NodeRef) (i : Nat) (task : TaskInfo) (st : Place σ τ),
      TasksOK ssn st.tasks → ssn.IsEmpty task.Resreq = false →
      TasksOK ssn (nodeLoop ssn job n i refs task st).1.tasks ∧
      ∀ e ∈ (nodeLoop ssn job n i refs task st).2, e.notBestEffort ssn := by
  intro refs
  induction refs with
  | nil =>
    intro i task st hts _
    simp only [nodeLoop]
    exact ⟨hts, fun e he => absurd he (List.not_mem_nil _)⟩
  | cons ref refs ih =>
    intro i task st hts ht
    have hp := tryNode_ok ssn job task (ssn.Node st.ssn ref) st ht
    have htk := tryNode_tasks ssn job task (ssn.Node st.ssn ref) st
    simp only [nodeLoop]
    split
    · exact ⟨by rw [htk]; exact hts, hp⟩
    · split
      · split
        · rename_i next rest hpop
          rw [htk] at hpop
          obtain ⟨hin, hsub⟩ := Pop_mem _ _ _ _ hpop
          have hnext : ssn.IsEmpty next.Resreq = false := hts next hin
          have hrest : TasksOK ssn rest := fun t h => hts t (hsub t h)
          obtain ⟨h1, h2⟩ := ih (i + 1) next
            { (tryNode ssn job task (ssn.Node st.ssn ref) st).1 with tasks := rest } hrest hnext
          refine ⟨h1, ?_⟩
          intro e he
          simp only [List.mem_append, List.mem_cons] at he
          rcases he with he | he | he
          · exact hp e he
          · subst he; exact hnext
          · exact h2 e he
        · refine ⟨by rw [htk]; exact hts, ?_⟩
          intro e he
          simp only [List.mem_append, List.mem_singleton] at he
          rcases he with he | he
          · exact hp e he
          · subst he; trivial
      · obtain ⟨h1, h2⟩ := ih (i + 1) task (tryNode ssn job task (ssn.Node st.ssn ref) st).1
          (by rw [htk]; exact hts) ht
        refine ⟨h1, ?_⟩
        intro e he
        simp only [List.mem_append] at he
        rcases he with he | he
        · exact hp e he
        · exact h2 e he

theorem taskLoop_ok {σ τ : Type} (ssn : Session σ τ) (job : JobInfo) :
    ∀ (fuel : Nat) (st : Place σ τ), TasksOK ssn st.tasks →
      TasksOK ssn (taskLoop ssn job fuel st).1.tasks ∧
      ∀ e ∈ (taskLoop ssn job fuel st).2, e.notBestEffort ssn := by
  intro fuel
  induction fuel with
  | zero =>
    intro st hts
    exact ⟨hts, fun e he => absurd he (List.not_mem_nil _)⟩
  | succ fuel ih =>
    intro st hts
    simp only [taskLoop]
    split
    · exact ⟨hts, fun e he => absurd he (List.not_mem_nil _)⟩
    · rename_i task rest hpop
      obtain ⟨hin, hsub⟩ := Pop_mem _ _ _ _ hpop
      have htask : ssn.IsEmpty task.Resreq = false := hts task hin
      have hrest : TasksOK ssn rest := fun t h => hts t (hsub t h)
      split
      · refine ⟨hrest, ?_⟩
        intro e he
        simp only [List.mem_cons, List.mem_singleton, List.not_mem_nil, or_false] at he
        rcases he with he | he
        · subst he; exact htask
        · subst he; trivial
      · obtain ⟨h1, h2⟩ := nodeLoop_ok ssn job _ _ 0 task
          { ssn := resetNodesFitDelta ssn st.ssn job, stmt := st.stmt, tasks := rest } hrest htask
        obtain ⟨h3, h4⟩ := ih _ h1
        refine ⟨h3, ?_⟩
        intro e he
        simp only [List.mem_cons, List.mem_append] at he
        rcases he with (he | he) | he
        · subst he; exact htask
        · exact h2 e he
        · exact h4 e he

theorem pendingTasks_build_ok {σ τ : Type} (ssn : Session σ τ) :
    ∀ (l : List TaskInfo) (acc : PriorityQueue TaskInfo), TasksOK ssn acc →
      TasksOK ssn (l.foldl
        (fun ts task => if ssn.IsEmpty task.Resreq then ts else PriorityQueue.Push ts task) acc) := by
  intro l
  induction l with
  | nil => intro acc h; exact h
  | cons t l ih =>
    intro acc h
    simp only [List.foldl_cons]
    apply ih
    by_cases he : ssn.IsEmpty t.Resreq = true
    · simpa [he] using h
    · have hf : ssn.IsEmpty t.Resreq = false := by simpa using he
      simp only [hf]
      intro x hx
      have hx2 : x ∈ acc ++ [t] := hx
      rcases List.mem_append.1 hx2 with hx3 | hx3
      · exact h x hx3
      · rw [List.mem_singleton.1 hx3]; exact hf

theorem allocateJob_ok {σ τ : Type} (ssn : Session σ τ) (st : Loop σ) (job : JobInfo)
    (h : PendingOK ssn st.pendingTasks) :
    PendingOK ssn (allocateJob ssn st job).1.pendingTasks ∧
    ∀ e ∈ (allocateJob ssn st job).2, e.notBestEffort ssn := by
  have htasks : TasksOK ssn (match mapGet st.pendingTasks job.UID with
      | some ts => ts
      | none => (ssn.PendingTasks st.ssn job).foldl
          (fun ts task => if ssn.IsEmpty task.Resreq then ts else PriorityQueue.Push ts task) []) := by
    cases hg : mapGet st.pendingTasks job.UID with
    | none => exact pendingTasks_build_ok ssn _ [] (fun t ht => absurd ht (List.not_mem_nil _))
    | some ts => exact h _ (mem_of_mapGet _ _ _ hg)
  obtain ⟨h1, h2⟩ := taskLoop_ok ssn job (PriorityQueue.Len _)
    { ssn := st.ssn, stmt := ssn.Statement st.ssn, tasks := _ } htasks
  unfold allocateJob
  refine ⟨?_, ?_⟩
  · intro p hp
    rcases mem_mapSet _ _ _ p hp with hp | hp
    · exact h p hp
    · subst hp; exact h1
  · intro e he
    simp only [List.mem_cons, List.mem_append, List.not_mem_nil, or_false] at he
    rcases he with (he | he) | he | he
    · subst he; trivial
    · exact h2 e he
    · subst he; trivial
    · subst he
      split <;> trivial

theorem mainLoop_ok {σ τ : Type} (ssn : Session σ τ) :
    ∀ (fuel : Nat) (st : Loop σ), PendingOK ssn st.pendingTasks →
      PendingOK ssn (mainLoop ssn fuel st).1.pendingTasks ∧
      ∀ e ∈ (mainLoop ssn fuel st).2, e.notBestEffort ssn := by
  intro fuel
  induction fuel with
  | zero => intro st h; exact ⟨h, fun e he => absurd he (List.not_mem_nil _)⟩
  | succ fuel ih =>
    intro st h
    simp only [mainLoop]
    split
    · exact ⟨h, fun e he => absurd he (List.not_mem_nil _)⟩
    · split
      · exact ih _ h
      · split
        · exact ih _ h
        · split
          · exact ih _ h
          · split
            · exact ih _ h
            · rename_i job jobs1 hpop
              have step : ∀ (st2 : Loop σ) (nsq : PriorityQueue NamespaceName),
                  PendingOK ssn st2.pendingTasks →
                  PendingOK ssn (mainLoop ssn fuel
                    { (allocateJob ssn st2 job).1 with namespaces := nsq }).1.pendingTasks ∧
                  ∀ e ∈ (allocateJob ssn st2 job).2 ++ (mainLoop ssn fuel
                    { (allocateJob ssn st2 job).1 with namespaces := nsq }).2,
                    e.notBestEffort ssn := by
                intro st2 nsq h0
                obtain ⟨h1, h2⟩ := allocateJob_ok ssn st2 job h0
                obtain ⟨h3, h4⟩ := ih { (allocateJob ssn st2 job).1 with namespaces := nsq } h1
                refine ⟨h3, ?_⟩
                intro e he
                rcases List.mem_append.1 he with he | he
                · exact h2 e he
                · exact h4 e he
              exact step _ _ h

/-! ## Only popped tasks are placed -/

theorem placedAfterPop_append :
    ∀ (a b : List Event) (cur : Option TaskInfo),
      placedAfterPop cur (a ++ b) =
        (placedAfterPop cur a && placedAfterPop (currentTask cur a) b) := by
  intro a
  induction a with
  | nil => intro b cur; simp [placedAfterPop, currentTask]
  | cons e a ih =>
    intro b cur
    cases e <;> simp [placedAfterPop, currentTask, ih, Bool.and_assoc]

theorem tryNode_pop {σ τ : Type} (ssn : Session σ τ) (job : JobInfo) (task : TaskInfo)
    (node : NodeInfo) (st : Place σ τ) :
    placedAfterPop (some task) (tryNode ssn job task node st).2 = true ∧
    currentTask (some task) (tryNode ssn job task node st).2 = some task := by
  rcases tryNode_events ssn job task node st with h | h | h <;>
    rw [h] <;> simp [placedAfterPop, currentTask]

theorem nodeLoop_pop {σ τ : Type} (ssn : Session σ τ) (job : JobInfo) (n : Nat) :
    ∀ (refs : List NodeRef) (i : Nat) (task : TaskInfo) (st : Place σ τ),
      placedAfterPop (some task) (nodeLoop ssn job n i refs task st).2 = true := by
  intro refs
  induction refs with
  | nil => intro i task st; simp [nodeLoop, placedAfterPop]
  | cons ref refs ih =>
    intro i task st
    obtain ⟨h1, h2⟩ := tryNode_pop ssn job task (ssn.Node st.ssn ref) st
    simp only [nodeLoop]
    split
    · exact h1
    · split
      · split
        · simp [placedAfterPop_append, h1, h2, placedAfterPop, ih]
        · simp [placedAfterPop_append, h1, h2, placedAfterPop]
      · simp [placedAfterPop_append, h1, h2, ih]

theorem taskLoop_pop {σ τ : Type} (ssn : Session σ τ) (job : JobInfo) :
    ∀ (fuel : Nat) (st : Place σ τ) (cur : Option TaskInfo),
      placedAfterPop cur (taskLoop ssn job fuel st).2 = true := by
  intro fuel
  induction fuel with
  | zero => intro st cur; simp [taskLoop, placedAfterPop]
  | succ fuel ih =>
    intro st cur
    simp only [taskLoop]
    split
    · simp [placedAfterPop]
    · split
      · simp [placedAfterPop]
      · have h := nodeLoop_pop ssn job
        simp [placedAfterPop, placedAfterPop_append, h, ih]

theorem decision_pop (cur : Option TaskInfo) (job : JobInfo) (ready : Bool) :
    placedAfterPop cur
      [Event.jobReady job ready, if ready then Event.commit job else Event.discard job] = true := by
  cases ready <;> simp [placedAfterPop]

theorem allocateJob_pop {σ τ : Type} (ssn : Session σ τ) (st : Loop σ) (job : JobInfo)
    (cur : Option TaskInfo) : placedAfterPop cur (allocateJob ssn st job).2 = true := by
  have hev : ∃ (fuel : Nat) (st0 : Place σ τ) (ready : Bool),
      (allocateJob ssn st job).2 = Event.popJob job :: ((taskLoop ssn job fuel st0).2 ++
        [Event.jobReady job ready, if ready then Event.commit job else Event.discard job]) := by
    unfold allocateJob
    exact ⟨_, _, _, rfl⟩
  obtain ⟨fuel, st0, ready, h⟩ := hev
  rw [h]
  simp only [placedAfterPop]
  rw [placedAfterPop_append, taskLoop_pop, decision_pop]
  rfl

theorem mainLoop_pop {σ τ : Type} (ssn : Session σ τ) :
    ∀ (fuel : Nat) (st : Loop σ) (cur : Option TaskInfo),
      placedAfterPop cur (mainLoop ssn fuel st).2 = true := by
  intro fuel
  induction fuel with
  | zero => intro st cur; simp [mainLoop, placedAfterPop]
  | succ fuel ih =>
    intro st cur
    simp only [mainLoop]
    split
    · simp [placedAfterPop]
    · split
      · exact ih _ _
      · split
        · exact ih _ _
        · split
          · exact ih _ _
          · split
            · exact ih _ _
            · rw [placedAfterPop_append, allocateJob_pop, ih]
              rfl

theorem popped_of_placedAfterPop :
    ∀ (pre : List Event) (cur : Option TaskInfo) (e : Event) (post : List Event)
      (t : TaskInfo), placedAfterPop cur (pre ++ e :: post) = true → e.placed = some t →
      Event.popTask t ∈ pre ∨ cur = some t := by
  intro pre
  induction pre with
  | nil =>
    intro cur e post t h hp
    cases e <;> simp [Event.placed] at hp
    · subst hp
      simp [placedAfterPop] at h
      exact Or.inr h.1
    · subst hp
      simp [placedAfterPop] at h
      exact Or.inr h.1
  | cons a pre ih =>
    intro cur e post t h hp
    cases a with
    | popTask t1 =>
      simp only [List.cons_append, placedAfterPop] at h
      rcases ih _ e post t h hp with h1 | h1
      · exact Or.inl (List.mem_cons_of_mem _ h1)
      · have : t1 = t := by simpa using h1
        subst this
        exact Or.inl (List.mem_cons_self _ _)
    | popJob j =>
      simp only [List.cons_append, placedAfterPop] at h
      rcases ih _ e post t h hp with h1 | h1
      · exact Or.inl (List.mem_cons_of_mem _ h1)
      · simp at h1
    | allocate t1 n1 =>
      simp only [List.cons_append, placedAfterPop, Bool.and_eq_true] at h
      rcases ih _ e post t h.2 hp with h1 | h1
      · exact Or.inl (List.mem_cons_of_mem _ h1)
      · exact Or.inr h1
    | pipeline t1 n1 =>
      simp only [List.cons_append, placedAfterPop, Bool.and_eq_true] at h
      rcases ih _ e post t h.2 hp with h1 | h1
      · exact Or.inl (List.mem_cons_of_mem _ h1)
      · exact Or.inr h1
    | fitErrors j t1 =>
      simp only [List.cons_append, placedAfterPop] at h
      rcases ih _ e post t h hp with h1 | h1
      · exact Or.inl (List.mem_cons_of_mem _ h1)
      · exact Or.inr h1
    | jobReady j b =>
      simp only [List.cons_append, placedAfterPop] at h
      rcases ih _ e post t h hp with h1 | h1
      · exact Or.inl (List.mem_cons_of_mem _ h1)
      · exact Or.inr h1
    | commit j =>
      simp only [List.cons_append, placedAfterPop] at h
      rcases ih _ e post t h hp with h1 | h1
      · exact Or.inl (List.mem_cons_of_mem _ h1)
      · exact Or.inr h1
    | discard j =>
      simp only [List.cons_append, placedAfterPop] at h
      rcases ih _ e post t h hp with h1 | h1
      · exact Or.inl (List.mem_cons_of_mem _ h1)
      · exact Or.inr h1
    | panic =>
      simp only [List.cons_append, placedAfterPop] at h
      rcases ih _ e post t h hp with h1 | h1
      · exact Or.inl (List.mem_cons_of_mem _ h1)
      · exact Or.inr h1

/-- C2. In every run of `Execute`: every task popped from a heap of `pendingTasks` and every
task handed to `stmt.Allocate` or `stmt.Pipeline` has `Resreq.IsEmpty()` false; no heap of
`pendingTasks` holds a best-effort task at the end; and every placement is of a task popped
from `pendingTasks` earlier in the run (the task popped last before the placement). -/
theorem Execute_best_effort {σ τ : Type} (ssn : Session σ τ) (s : σ) (fuel : Nat) :
    (∀ e ∈ (Execute ssn s fuel).2, ∀ t, (e.placed = some t ∨ e = Event.popTask t) →
      ssn.IsEmpty t.Resreq = false) ∧
    (∀ p ∈ (Execute ssn s fuel).1.pendingTasks, ∀ t ∈ p.2, ssn.IsEmpty t.Resreq = false) ∧
    (∀ pre e post t, (Execute ssn s fuel).2 = pre ++ e :: post → e.placed = some t →
      Event.popTask t ∈ pre) ∧
    placedAfterPop none (Execute ssn s fuel).2 = true := by
  have h0 : PendingOK ssn ([] : GoMap JobID (PriorityQueue TaskInfo)) :=
    fun p hp => absurd hp (List.not_mem_nil _)
  obtain ⟨h1, h2⟩ := mainLoop_ok ssn fuel
    { ssn := s, namespaces := (bucketise ssn s).1, jobsMap := (bucketise ssn s).2,
      pendingTasks := [] } h0
  have h3 := mainLoop_pop ssn fuel
    { ssn := s, namespaces := (bucketise ssn s).1, jobsMap := (bucketise ssn s).2,
      pendingTasks := [] } none
  refine ⟨?_, h1, ?_, h3⟩
  · intro e he t ht
    have hn := h2 e he
    rcases ht with ht | ht
    · cases e <;> simp [Event.placed] at ht
      · subst ht; exact hn
      · subst ht; exact hn
    · subst ht; exact hn
  · intro pre e post t heq hp
    have h4 : placedAfterPop none (pre ++ e :: post) = true := by
      rw [← heq]; exact h3
    rcases popped_of_placedAfterPop pre none e post t h4 hp with h5 | h5
    · exact h5
    · simp at h5

/-! ## The overlay: `Used` and `Idle` after `calcRequestedResource` -/

theorem archimedesmetrics_max_eq (a b : ℚ) : archimedesmetrics.max a b = max a b := by
  unfold archimedesmetrics.max
  by_cases h : a > b
  · simp [h, max_eq_left (le_of_lt h)]
  · simp [h, max_eq_right (not_lt.1 h)]

theorem calcRequestedResource_some (mustParse : String → Option Int)
    (metrics : ArchimedesMetrics) (nodeInfo : NodeInfo) (nodeMetrics : CacheResource)
    (reservedMemory : Int) (hparse : mustParse metrics.ReservedMemory = some reservedMemory) :
    ∃ after, calcRequestedResource mustParse metrics nodeInfo nodeMetrics = some after := by
  cases hres : calcRequestedResource mustParse metrics nodeInfo nodeMetrics with
  | none => simp [calcRequestedResource, hparse] at hres
  | some after => exact ⟨after, rfl⟩

/-- C7. When the reserved-memory string parses to `reservedMemory`, `calcRequestedResource`
returns a node whose `Used` is, in mode `max`, the larger of `usage × ratio + reserved` and
the former `Used` on CPU and on memory (so it is never below the former `Used`), and in mode
`weighted` exactly `usage × ratio + reserved` on CPU and on memory. -/
theorem calcRequestedResource_used (mustParse : String → Option Int)
    (metrics : ArchimedesMetrics) (nodeInfo : NodeInfo) (nodeMetrics : CacheResource)
    (reservedMemory : Int) (hparse : mustParse metrics.ReservedMemory = some reservedMemory) :
    ∃ after, calcRequestedResource mustParse metrics nodeInfo nodeMetrics = some after ∧
      (metrics.EvaluateType = "max" →
        after.Used.MilliCPU = max
          ((nodeMetrics.MilliCPU : ℚ) * metrics.CpuUsageRatio + ((metrics.ReservedCPU * 1000 : Int) : ℚ))
          nodeInfo.Used.MilliCPU ∧
        after.Used.Memory = max
          ((nodeMetrics.Memory : ℚ) * metrics.MemUsageRatio + (reservedMemory : ℚ))
          nodeInfo.Used.Memory ∧
        nodeInfo.Used.MilliCPU ≤ after.Used.MilliCPU ∧
        nodeInfo.Used.Memory ≤ after.Used.Memory) ∧
      (metrics.EvaluateType = "weighted" →
        after.Used.MilliCPU =
          (nodeMetrics.MilliCPU : ℚ) * metrics.CpuUsageRatio + ((metrics.ReservedCPU * 1000 : Int) : ℚ) ∧
        after.Used.Memory =
          (nodeMetrics.Memory : ℚ) * metrics.MemUsageRatio + (reservedMemory : ℚ)) := by
  cases hres : calcRequestedResource mustParse metrics nodeInfo nodeMetrics with
  | none => simp [calcRequestedResource, hparse] at hres
  | some after =>
    simp only [calcRequestedResource, hparse, Option.some.injEq] at hres
    subst hres
    refine ⟨_, rfl, ?_, ?_⟩
    · intro hmax
      have hw : ¬ metrics.EvaluateType = "weighted" := by rw [hmax]; decide
      simp only [hmax, hw, if_true, if_false, archimedesmetrics_max_eq]
      exact ⟨rfl, rfl, le_max_right _ _, le_max_right _ _⟩
    · intro hw
      simp [hw]

/-- C8. When the reserved-memory string parses, `calcRequestedResource` returns a node with
`Idle = Allocatable - Used` on CPU and on memory (so `Idle + Used = Allocatable` there),
with `Allocatable`, `Releasing` and the name unchanged, for every reading and every value of
`EvaluateType`; for a value other than `max` and `weighted`, `Used` is unchanged. -/
theorem calcRequestedResource_idle (mustParse : String → Option Int)
    (metrics : ArchimedesMetrics) (nodeInfo : NodeInfo) (nodeMetrics : CacheResource)
    (reservedMemory : Int) (hparse : mustParse metrics.ReservedMemory = some reservedMemory) :
    ∃ after, calcRequestedResource mustParse metrics nodeInfo nodeMetrics = some after ∧
      after.Idle.MilliCPU = after.Allocatable.MilliCPU - after.Used.MilliCPU ∧
      after.Idle.Memory = after.Allocatable.Memory - after.Used.Memory ∧
      after.Idle.MilliCPU + after.Used.MilliCPU = after.Allocatable.MilliCPU ∧
      after.Idle.Memory + after.Used.Memory = after.Allocatable.Memory ∧
      after.Allocatable = nodeInfo.Allocatable ∧
      after.Releasing = nodeInfo.Releasing ∧
      after.Name = nodeInfo.Name ∧
      (metrics.EvaluateType ≠ "max" → metrics.EvaluateType ≠ "weighted" →
        after.Used = nodeInfo.Used) := by
  cases hres : calcRequestedResource mustParse metrics nodeInfo nodeMetrics with
  | none => simp [calcRequestedResource, hparse] at hres
  | some after =>
    simp only [calcRequestedResource, hparse, Option.some.injEq] at hres
    subst hres
    refine ⟨_, rfl, rfl, rfl, ?_, ?_, rfl, rfl, rfl, ?_⟩
    · simp
    · simp
    · intro h1 h2
      simp [h1, h2]

/-- Witness of C7, the scenario of the claim: allocatable (4000m, 8Gi), used (1000m, 2Gi),
usage (2500m, 5Gi), ratios 1, nothing reserved, mode `max` give used (2500m, 5Gi). -/
theorem calcRequestedResource_used_witness :
    demoParse scenarioMetrics.ReservedMemory = some 0 ∧
    ∃ after, calcRequestedResource demoParse scenarioMetrics scenarioNode scenarioUsage
        = some after ∧
      after.Used.MilliCPU = 2500 ∧ after.Used.Memory = 5368709120 := by
  refine ⟨by decide, ?_⟩
  obtain ⟨after, h1, h2, _⟩ := calcRequestedResource_used demoParse scenarioMetrics
    scenarioNode scenarioUsage 0 (by decide)
  obtain ⟨hc, hm, _, _⟩ := h2 rfl
  refine ⟨after, h1, ?_, ?_⟩
  · rw [hc]; norm_num [scenarioMetrics, scenarioNode, scenarioUsage, cpuMem]
  · rw [hm]; norm_num [scenarioMetrics, scenarioNode, scenarioUsage, cpuMem]

/-- Witness of C8 on the scenario node: idle plus used is the allocatable (4000m, 8Gi). -/
theorem calcRequestedResource_idle_witness :
    demoParse scenarioMetrics.ReservedMemory = some 0 ∧
    ∃ after, calcRequestedResource demoParse scenarioMetrics scenarioNode scenarioUsage
        = some after ∧
      after.Idle.MilliCPU + after.Used.MilliCPU = 4000 ∧
      after.Idle.Memory + after.Used.Memory = 8589934592 := by
  refine ⟨by decide, ?_⟩
  obtain ⟨after, h1, _, _, h3, h4, h5, _⟩ := calcRequestedResource_idle demoParse
    scenarioMetrics scenarioNode scenarioUsage 0 (by decide)
  refine ⟨after, h1, ?_, ?_⟩
  · rw [h3, h5]; rfl
  · rw [h4, h5]; rfl

/-! ## The overlay at session open -/

theorem overlayNodes_quiet (mustParse : String → Option Int) (metrics : ArchimedesMetrics) :
    ∀ (nodes : GoMap String NodeInfo),
      (∀ e ∈ nodes, GetNodeMetrics metrics.metricsClient e.1 = none) →
      overlayNodes mustParse metrics nodes = some nodes := by
  intro nodes
  induction nodes with
  | nil => intro _; rfl
  | cons e nodes ih =>
    intro h
    obtain ⟨k, n⟩ := e
    have hk : GetNodeMetrics metrics.metricsClient k = none := h (k, n) (List.mem_cons_self _ _)
    have hrest := ih (fun e he => h e (List.mem_cons_of_mem _ he))
    simp [overlayNodes, hk, hrest]

theorem overlayNodes_spec (mustParse : String → Option Int) (metrics : ArchimedesMetrics)
    (reservedMemory : Int) (hparse : mustParse metrics.ReservedMemory = some reservedMemory) :
    ∀ (nodes : GoMap String NodeInfo),
      ∃ after, overlayNodes mustParse metrics nodes = some after ∧
        List.Forall₂ (fun e a => a.1 = e.1 ∧
          (GetNodeMetrics metrics.metricsClient e.1 = none → a.2 = e.2) ∧
          (∀ u, GetNodeMetrics metrics.metricsClient e.1 = some u →
            calcRequestedResource mustParse metrics e.2 u = some a.2)) nodes after := by
  intro nodes
  induction nodes with
  | nil => exact ⟨[], rfl, List.Forall₂.nil⟩
  | cons e nodes ih =>
    obtain ⟨k, n⟩ := e
    obtain ⟨rest, hrest, hall⟩ := ih
    cases hk : GetNodeMetrics metrics.metricsClient k with
    | none =>
      refine ⟨(k, n) :: rest, by simp [overlayNodes, hk, hrest], List.Forall₂.cons ?_ hall⟩
      exact ⟨rfl, fun _ => rfl, fun u hu => by simp [hk] at hu⟩
    | some usage =>
      obtain ⟨n1, hn1⟩ := calcRequestedResource_some mustParse metrics n usage
        reservedMemory hparse
      refine ⟨(k, n1) :: rest, by simp [overlayNodes, hk, hn1, hrest], List.Forall₂.cons ?_ hall⟩
      refine ⟨rfl, fun h => by simp [hk] at h, fun u hu => ?_⟩
      have : usage = u := by simpa [hk] using hu
      subst this
      exact hn1

/-- C9. `OnSessionOpen` on the nodes of the session: when `Metrics.Ready` is false the nodes
are returned unchanged; when it is true and no node has a reading, they are returned
unchanged; when it is true and the reserved-memory string parses, the result has the same
keys in the same order, every node whose `GetNodeMetrics` fails is unchanged, and every node
with a reading is the result of `calcRequestedResource` on that reading, whatever the other
nodes have. -/
theorem OnSessionOpen_frame (mustParse : String → Option Int) (metrics : ArchimedesMetrics)
    (nodes : GoMap String NodeInfo) :
    (metrics.Ready = false → OnSessionOpen mustParse metrics nodes = some nodes) ∧
    (metrics.Ready = true →
      (∀ e ∈ nodes, GetNodeMetrics metrics.metricsClient e.1 = none) →
      OnSessionOpen mustParse metrics nodes = some nodes) ∧
    (metrics.Ready = true → ∀ reservedMemory,
      mustParse metrics.ReservedMemory = some reservedMemory →
      ∃ after, OnSessionOpen mustParse metrics nodes = some after ∧
        List.Forall₂ (fun e a => a.1 = e.1 ∧
          (GetNodeMetrics metrics.metricsClient e.1 = none → a.2 = e.2) ∧
          (∀ u, GetNodeMetrics metrics.metricsClient e.1 = some u →
            calcRequestedResource mustParse metrics e.2 u = some a.2)) nodes after) := by
  refine ⟨?_, ?_, ?_⟩
  · intro h
    simp [OnSessionOpen, h]
  · intro h hq
    simp [OnSessionOpen, h, overlayNodes_quiet mustParse metrics nodes hq]
  · intro h rm hparse
    simp only [OnSessionOpen, h, if_true]
    exact overlayNodes_spec mustParse metrics rm hparse nodes

/-- Witness of C9: with a reading for `n1` only, `n2` is unchanged and `n1` is overlaid. -/
theorem OnSessionOpen_frame_witness :
    scenarioMetrics.Ready = true ∧ demoParse scenarioMetrics.ReservedMemory = some 0 ∧
    ∃ after, OnSessionOpen demoParse scenarioMetrics [("n2", quietNode), ("n1", scenarioNode)]
        = some after ∧
      List.Forall₂ (fun e a => a.1 = e.1 ∧
          (GetNodeMetrics scenarioMetrics.metricsClient e.1 = none → a.2 = e.2) ∧
          (∀ u, GetNodeMetrics scenarioMetrics.metricsClient e.1 = some u →
            calcRequestedResource demoParse scenarioMetrics e.2 u = some a.2))
        [("n2", quietNode), ("n1", scenarioNode)] after :=
  ⟨rfl, by decide,
    (OnSessionOpen_frame demoParse scenarioMetrics
      [("n2", quietNode), ("n1", scenarioNode)]).2.2 rfl 0 (by decide)⟩

/-! ## The cache after a poll -/

theorem mapGet_mapDelete {κ ν : Type} [DecidableEq κ] (m : GoMap κ ν) (k x : κ) :
    mapGet (mapDelete m k) x = if k = x then none else mapGet m x := by
  induction m with
  | nil => simp [mapDelete, mapGet]
  | cons p m ih =>
    obtain ⟨a, b⟩ := p
    by_cases h : a = k
    · subst h
      by_cases hx : a = x
      · subst hx
        simpa [mapDelete, mapGet] using ih
      · simp [mapDelete, mapGet, hx, ih]
    · by_cases hx : a = x
      · subst hx
        have hk : ¬ k = a := fun e => h e.symm
        simp [mapDelete, mapGet, h, hk]
      · simp [mapDelete, mapGet, h, hx, ih]

theorem storeUsage_get (expiration now : Int) (c : nodeMetricsCache) (m : NodeUsage)
    (name : String) :
    (storeUsage expiration now c m).Get name =
      if m.Name = name then usageEntry expiration now m else c.Get name := by
  unfold storeUsage usageEntry
  by_cases h : timeSub now m.Timestamp > expiration
  · simp [h, nodeMetricsCache.Delete, nodeMetricsCache.Get, mapGet_mapDelete]
  · simp [h, nodeMetricsCache.Set, nodeMetricsCache.Get, mapGet_mapSet]

theorem storeAllocatable_get (expiration now : Int) (c : nodeMetricsCache) (m : NodeMetrics)
    (key : String) :
    (storeAllocatable expiration now c m).Get key =
      if ArchimedesPredictNodeAllocatablePrefix ++ m.Name = key then
        allocatableEntry expiration now m
      else c.Get key := by
  unfold storeAllocatable allocatableEntry
  by_cases h : timeSub now m.Timestamp > expiration
  · simp [h, nodeMetricsCache.Delete, nodeMetricsCache.Get, mapGet_mapDelete]
  · simp [h, nodeMetricsCache.Set, nodeMetricsCache.Get, mapGet_mapSet]

theorem storeUsage_foldl_get (expiration now : Int) (name : String) :
    ∀ (items : List NodeUsage) (c : nodeMetricsCache),
      (items.foldl (storeUsage expiration now) c).Get name =
        match items.reverse.find? (fun m => decide (m.Name = name)) with
        | none => c.Get name
        | some m => usageEntry expiration now m := by
  intro items
  induction items with
  | nil => intro c; rfl
  | cons m items ih =>
    intro c
    simp only [List.foldl_cons, List.reverse_cons, List.find?_append]
    rw [ih]
    cases hf : items.reverse.find? (fun m => decide (m.Name = name)) with
    | some m1 => simp
    | none =>
      by_cases hm : m.Name = name
      · simp [storeUsage_get, hm]
      · simp [storeUsage_get, hm]

theorem storeAllocatable_foldl_get (expiration now : Int) (key : String) :
    ∀ (items : List NodeMetrics) (c : nodeMetricsCache),
      (items.foldl (storeAllocatable expiration now) c).Get key =
        match items.reverse.find?
          (fun m => decide ( ArchimedesPredictNodeAllocatablePrefix ++ m.Name = key)) with
        | none => c.Get key
        | some m => allocatableEntry expiration now m := by
  intro items
  induction items with
  | nil => intro c; rfl
  | cons m items ih =>
    intro c
    simp only [List.foldl_cons, List.reverse_cons, List.find?_append]
    rw [ih]
    cases hf : items.reverse.find?
      (fun m => decide ( ArchimedesPredictNodeAllocatablePrefix ++ m.Name = key)) with
    | some m1 => simp
    | none =>
      by_cases hm : ArchimedesPredictNodeAllocatablePrefix ++ m.Name = key
      · simp [storeAllocatable_get, hm]
      · simp [storeAllocatable_get, hm]

theorem storeUsage_foldl_ri (expiration now : Int) :
    ∀ (items : List NodeUsage) (c : nodeMetricsCache),
      (items.foldl (storeUsage expiration now) c).nodeRIMetricsInfo = c.nodeRIMetricsInfo := by
  intro items
  induction items with
  | nil => intro c; rfl
  | cons m items ih =>
    intro c
    simp only [List.foldl_cons]
    rw [ih]
    unfold storeUsage
    split <;> rfl

theorem storeAllocatable_foldl_ri (expiration now : Int) :
    ∀ (items : List NodeMetrics) (c : nodeMetricsCache),
      (items.foldl (storeAllocatable expiration now) c).nodeRIMetricsInfo
        = c.nodeRIMetricsInfo := by
  intro items
  induction items with
  | nil => intro c; rfl
  | cons m items ih =>
    intro c
    simp only [List.foldl_cons]
    rw [ih]
    unfold storeAllocatable
    split <;> rfl

/-- C10. On a decoded non-empty response, `GetALlNodeMetrics` succeeds with the timestamp of
the first record, and afterwards the cache entry under any name is decided by the last
record of that name in list order: absent when `now.Sub(timestamp) > MetricsExpiration`,
otherwise (usage CPU milli-value, usage memory bytes); a name without a record keeps its
entry. `GetAllNodeAllocatable` does the same with the allocatable values under the key
`predictNodeAllocatable-` followed by the node name. Neither touches the runtime-info map or
the expiration. -/
theorem GetAllNode_spec (h : ArchimedesMetricsClient) (now : Int)
    (usages : List NodeUsage) (allocatables : List NodeMetrics)
    (hu : usages ≠ []) (ha : allocatables ≠ []) :
    ((GetALlNodeMetrics h (Response.decoded usages) now).2 = usages.head?.map (·.Timestamp) ∧
      (GetALlNodeMetrics h (Response.decoded usages) now).2 ≠ none ∧
      (∀ name, GetNodeMetrics (GetALlNodeMetrics h (Response.decoded usages) now).1 name =
        match usages.reverse.find? (fun m => decide (m.Name = name)) with
        | none => GetNodeMetrics h name
        | some m =>
          if timeSub now m.Timestamp > h.MetricsExpiration then none
          else some { MilliCPU := m.Usage.CpuMilliValue, Memory := m.Usage.MemoryValue }) ∧
      (GetALlNodeMetrics h (Response.decoded usages) now).1.nodeMetricsCache.nodeRIMetricsInfo
        = h.nodeMetricsCache.nodeRIMetricsInfo ∧
      (GetALlNodeMetrics h (Response.decoded usages) now).1.MetricsExpiration
        = h.MetricsExpiration) ∧
    ((GetAllNodeAllocatable h (Response.decoded allocatables) now).2
        = allocatables.head?.map (·.Timestamp) ∧
      (GetAllNodeAllocatable h (Response.decoded allocatables) now).2 ≠ none ∧
      (∀ key, (GetAllNodeAllocatable h (Response.decoded allocatables) now).1.nodeMetricsCache.Get
          key =
        match allocatables.reverse.find?
          (fun m => decide ( ArchimedesPredictNodeAllocatablePrefix ++ m.Name = key)) with
        | none => h.nodeMetricsCache.Get key
        | some m =>
          if timeSub now m.Timestamp > h.MetricsExpiration then none
          else some { MilliCPU := m.Allocatable.CpuMilliValue,
                      Memory := m.Allocatable.MemoryValue }) ∧
      (GetAllNodeAllocatable h (Response.decoded allocatables)
          now).1.nodeMetricsCache.nodeRIMetricsInfo = h.nodeMetricsCache.nodeRIMetricsInfo ∧
      (GetAllNodeAllocatable h (Response.decoded allocatables) now).1.MetricsExpiration
        = h.MetricsExpiration) := by
  constructor
  · cases usages with
    | nil => exact absurd rfl hu
    | cons first items =>
      refine ⟨rfl, by simp [GetALlNodeMetrics], ?_, ?_, rfl⟩
      · intro name
        simp only [GetALlNodeMetrics, GetNodeMetrics]
        rw [storeUsage_foldl_get]
        rfl
      · simp only [GetALlNodeMetrics]
        rw [storeUsage_foldl_ri]
  · cases allocatables with
    | nil => exact absurd rfl ha
    | cons first items =>
      refine ⟨rfl, by simp [GetAllNodeAllocatable], ?_, ?_, rfl⟩
      · intro key
        simp only [GetAllNodeAllocatable]
        rw [storeAllocatable_foldl_get]
        rfl
      · simp only [GetAllNodeAllocatable]
        rw [storeAllocatable_foldl_ri]

/-- Witness of C10: the fresh record of `n1` is stored, the stale record of `n2` evicts the
old entry, and the allocatable of `n1` is stored under the prefixed key. -/
theorem GetAllNode_spec_witness :
    pollUsages ≠ [] ∧ pollAllocatables ≠ [] ∧
    GetNodeMetrics (GetALlNodeMetrics pollClient (Response.decoded pollUsages)
      1000000000000).1 "n1" = some ⟨2500, 5368709120⟩ ∧
    GetNodeMetrics (GetALlNodeMetrics pollClient (Response.decoded pollUsages)
      1000000000000).1 "n2" = none ∧
    (GetAllNodeAllocatable pollClient (Response.decoded pollAllocatables)
      1000000000000).1.nodeMetricsCache.Get "predictNodeAllocatable-n1"
        = some ⟨4000, 8589934592⟩ := by
  have h := GetAllNode_spec pollClient 1000000000000 pollUsages pollAllocatables
    (by decide) (by decide)
  refine ⟨by decide, by decide, ?_, ?_, ?_⟩
  · rw [h.1.2.2.1 "n1"]; decide
  · rw [h.1.2.2.1 "n2"]; decide
  · rw [h.2.2.2.1 "predictNodeAllocatable-n1"]; decide

/-! ## The placement loop ends within its bound -/

theorem nodeLoop_length {σ τ : Type} (ssn : Session σ τ) (job : JobInfo) (n : Nat) :
    ∀ (refs : List NodeRef) (i : Nat) (task : TaskInfo) (st : Place σ τ),
      (nodeLoop ssn job n i refs task st).1.tasks.length ≤ st.tasks.length := by
  intro refs
  induction refs with
  | nil => intro i task st; simp [nodeLoop]
  | cons ref refs ih =>
    intro i task st
    have htk := tryNode_tasks ssn job task (ssn.Node st.ssn ref) st
    simp only [nodeLoop]
    split
    · rw [htk]
    · split
      · split
        · rename_i next rest hpop
          rw [htk] at hpop
          have hlen := Pop_length _ _ _ _ hpop
          have := ih (i + 1) next
            { (tryNode ssn job task (ssn.Node st.ssn ref) st).1 with tasks := rest }
          simp only at this ⊢
          omega
        · rw [htk]
      · have := ih (i + 1) task (tryNode ssn job task (ssn.Node st.ssn ref) st).1
        rw [htk] at this
        exact this

theorem taskLoop_fuel {σ τ : Type} (ssn : Session σ τ) (job : JobInfo) :
    ∀ (fuel : Nat) (st : Place σ τ), st.tasks.length ≤ fuel →
      taskLoop ssn job (fuel + 1) st = taskLoop ssn job fuel st := by
  intro fuel
  induction fuel with
  | zero =>
    intro st h
    have hnil : st.tasks = [] := List.length_eq_zero.1 (Nat.le_zero.1 h)
    simp [taskLoop, hnil, PriorityQueue.Pop]
  | succ fuel ih =>
    intro st h
    conv_lhs => rw [taskLoop]
    conv_rhs => rw [taskLoop]
    split
    · rfl
    · rename_i task rest hpop
      have hlen := Pop_length _ _ _ _ hpop
      dsimp only
      split
      · rfl
      · rw [ih _ (le_trans (nodeLoop_length ssn job _ _ _ _ _) (by simp only; omega))]

theorem taskLoop_ended {σ τ : Type} (ssn : Session σ τ) (job : JobInfo) (st : Place σ τ) :
    ∀ (extra : Nat), taskLoop ssn job (st.tasks.length + extra) st
      = taskLoop ssn job st.tasks.length st := by
  intro extra
  induction extra with
  | zero => rfl
  | succ k ih =>
    rw [← Nat.add_assoc, taskLoop_fuel ssn job (st.tasks.length + k) st (by omega), ih]

/-- C1. In every run of `Execute` the trace is a sequence of blocks, one per popped job `J`:
the pop of `J`, then only events of the placement loops of `J`, then the call
`ssn.JobReady(J)`, then exactly one of `Commit` and `Discard`: `Commit` if and only if that
call returned true. For each popped job the placement loops start on a fresh statement and
end in a state `done` (the same for every bound on the iterations that is at least the size
of the task heap); `JobReady` is called on that state, and the statement committed or
discarded is the one the placements went through. -/
theorem Execute_gang {σ τ : Type} (ssn : Session σ τ) (s : σ) (fuel : Nat) :
    GangTrace (Execute ssn s fuel).2 ∧
    ∀ (st : Loop σ) (job : JobInfo), ∃ (start done : Place σ τ) (pl : List Event),
      start.ssn = st.ssn ∧ start.stmt = ssn.Statement st.ssn ∧
      (∀ extra, taskLoop ssn job (start.tasks.length + extra) start = (done, pl)) ∧
      (∀ e ∈ pl, e.isPlacement = true) ∧
      (allocateJob ssn st job).2 = Event.popJob job :: (pl ++
        [Event.jobReady job (ssn.JobReady done.ssn job),
          if ssn.JobReady done.ssn job then Event.commit job else Event.discard job]) ∧
      (allocateJob ssn st job).1.ssn =
        (if ssn.JobReady done.ssn job then ssn.Commit done.ssn done.stmt
          else ssn.Discard done.ssn done.stmt) := by
  refine ⟨mainLoop_gang ssn fuel _, ?_⟩
  intro st job
  unfold allocateJob
  exact ⟨{ ssn := st.ssn, stmt := ssn.Statement st.ssn, tasks := _ }, _, _, rfl, rfl,
    fun extra => taskLoop_ended ssn job _ extra, taskLoop_placement ssn job _ _, rfl, rfl⟩

/-! ## Every scanned queue key is registered -/

theorem QueuesRegistered_set {σ τ : Type} (ssn : Session σ τ) (jm : JobsMap)
    (ns : NamespaceName) (qm : GoMap QueueID (PriorityQueue JobInfo))
    (h : QueuesRegistered ssn jm) (hq : ∀ e ∈ qm, (mapGet ssn.Queues e.1).isSome = true) :
    QueuesRegistered ssn (mapSet jm ns qm) := by
  intro p hp e he
  rcases mem_mapSet jm ns qm p hp with hp | hp
  · exact h p hp e he
  · subst hp
    exact hq e he

theorem QueuesRegistered_bucketJob {σ τ : Type} (ssn : Session σ τ) (s : σ)
    (acc : PriorityQueue NamespaceName × JobsMap) (job : JobInfo)
    (h : QueuesRegistered ssn acc.2) : QueuesRegistered ssn (bucketJob ssn s acc job).2 := by
  rw [bucketJob_eq]
  by_cases he : eligible ssn s job = true
  · rw [if_pos he]
    apply QueuesRegistered_set ssn _ _ _ h
    intro e hin
    rcases mem_mapSet _ _ _ e hin with hin | hin
    · cases hg : mapGet acc.2 job.Namespace with
      | none => rw [hg] at hin; simp at hin
      | some qm =>
        rw [hg] at hin
        exact h _ (mem_of_mapGet _ _ _ hg) e hin
    · subst hin
      unfold eligible at he
      simp only [Bool.and_eq_true] at he
      exact he.2
  · rw [if_neg he]
    exact h

theorem QueuesRegistered_bucketise {σ τ : Type} (ssn : Session σ τ) (s : σ) :
    QueuesRegistered ssn (bucketise ssn s).2 := by
  have key : ∀ (l : List JobInfo) (acc : PriorityQueue NamespaceName × JobsMap),
      QueuesRegistered ssn acc.2 → QueuesRegistered ssn (l.foldl (bucketJob ssn s) acc).2 := by
    intro l
    induction l with
    | nil => intro acc h; exact h
    | cons j l ih =>
      intro acc h
      exact ih _ (QueuesRegistered_bucketJob ssn s acc j h)
  exact key ssn.Jobs ([], []) (fun p hp => absurd hp (List.not_mem_nil _))

theorem allocateJob_jobsMap {σ τ : Type} (ssn : Session σ τ) (st : Loop σ) (job : JobInfo) :
    (allocateJob ssn st job).1.jobsMap = st.jobsMap := by
  unfold allocateJob
  rfl

theorem QueuesRegistered_mainLoop {σ τ : Type} (ssn : Session σ τ) :
    ∀ (fuel : Nat) (st : Loop σ), QueuesRegistered ssn st.jobsMap →
      QueuesRegistered ssn (mainLoop ssn fuel st).1.jobsMap := by
  intro fuel
  induction fuel with
  | zero => intro st h; exact h
  | succ fuel ih =>
    intro st h
    simp only [mainLoop]
    split
    · exact h
    · split
      · exact ih _ h
      · rename_i ns others hns _ queueInNamespace hget
        have hqm : ∀ e ∈ queueInNamespace, (mapGet ssn.Queues e.1).isSome = true :=
          h _ (mem_of_mapGet _ _ _ hget)
        have hscan : ∀ e ∈ (selectQueue ssn st.ssn queueInNamespace none).1,
            (mapGet ssn.Queues e.1).isSome = true := by
          intro e he
          rw [selectQueue_fst] at he
          exact hqm e (List.mem_filter.1 he).1
        have h1 := QueuesRegistered_set ssn st.jobsMap ns _ h hscan
        split
        · exact ih _ h1
        · split
          · exact ih _ h1
          · rename_i jobs hjobs
            split
            · exact ih _ h1
            · rename_i job jobs1 hpop
              apply ih
              simp only [allocateJob_jobsMap]
              apply QueuesRegistered_set ssn _ _ _ h
              intro e he
              rcases mem_mapSet _ _ _ e he with he | he
              · exact hscan e he
              · subst he
                exact hscan (_, jobs) (mem_of_mapGet _ _ _ hjobs)

/-- In every run of `Execute` every queue key of `jobsMap` has an entry in `ssn.Queues`, at
the start of the main loop and at its end: the queue scan never meets the missing-entry
case of `selectQueue`. -/
theorem Execute_queues_registered {σ τ : Type} (ssn : Session σ τ) (s : σ) (fuel : Nat) :
    QueuesRegistered ssn (bucketise ssn s).2 ∧
    QueuesRegistered ssn (Execute ssn s fuel).1.jobsMap :=
  ⟨QueuesRegistered_bucketise ssn s,
    QueuesRegistered_mainLoop ssn fuel _ (QueuesRegistered_bucketise ssn s)⟩

/-! ## Metrics expiry -/

/-- C11, as stated, fails. A tick at 1000 s stores a reading of `n2` with timestamp 990 s;
at the tick at 2000 s that reading is 1010 s old, more than the expiration of 300 s, but the
response names `n1` only, and `GetNodeMetrics` still returns the old reading of `n2`. -/
theorem stale_entry_survives_tick :
    timeSub 2000000000000 990000000000 > emptyClient.MetricsExpiration ∧
    GetNodeMetrics (GetALlNodeMetrics emptyClient (Response.decoded firstTick)
      1000000000000).1 "n2" = some ⟨300, 400⟩ ∧
    GetNodeMetrics (GetALlNodeMetrics
      (GetALlNodeMetrics emptyClient (Response.decoded firstTick) 1000000000000).1
      (Response.decoded secondTick) 2000000000000).1 "n2" = some ⟨300, 400⟩ := by
  decide

/-- C11, amended. On a polling tick whose response decodes to a non-empty list, a node whose
last record in the response has `now.Sub(timestamp) > MetricsExpiration` is absent from
reads after the tick; a node that the response does not name keeps the result of
`GetNodeMetrics` it had before the tick, whatever the age of its reading; and a tick whose
request fails, or whose response is malformed or empty, leaves the client unchanged. -/
theorem GetALlNodeMetrics_expiry (h : ArchimedesMetricsClient) (now : Int)
    (usages : List NodeUsage) (hne : usages ≠ []) :
    (∀ name m, usages.reverse.find? (fun r => decide (r.Name = name)) = some m →
      timeSub now m.Timestamp > h.MetricsExpiration →
      GetNodeMetrics (GetALlNodeMetrics h (Response.decoded usages) now).1 name = none) ∧
    (∀ name, (∀ m ∈ usages, m.Name ≠ name) →
      GetNodeMetrics (GetALlNodeMetrics h (Response.decoded usages) now).1 name
        = GetNodeMetrics h name) ∧
    (GetALlNodeMetrics h Response.unavailable now).1 = h ∧
    (GetALlNodeMetrics h Response.malformed now).1 = h ∧
    (GetALlNodeMetrics h (Response.decoded []) now).1 = h := by
  cases usages with
  | nil => exact absurd rfl hne
  | cons first items =>
    refine ⟨?_, ?_, rfl, rfl, rfl⟩
    · intro name m hfind hstale
      simp only [GetALlNodeMetrics, GetNodeMetrics]
      rw [storeUsage_foldl_get, hfind]
      simp [usageEntry, hstale]
    · intro name hno
      simp only [GetALlNodeMetrics, GetNodeMetrics]
      rw [storeUsage_foldl_get]
      have hnone : (first :: items).reverse.find? (fun r => decide (r.Name = name)) = none := by
        rw [List.find?_eq_none]
        intro m hm
        have := hno m (List.mem_reverse.1 hm)
        simpa using this
      rw [hnone]

/-- Witness of the amended C11: the response at 2000 s carries the old record of `n2`, so
`n2` is absent afterwards. -/
theorem GetALlNodeMetrics_expiry_witness :
    staleTick ≠ [] ∧
    GetNodeMetrics (GetALlNodeMetrics
      (GetALlNodeMetrics emptyClient (Response.decoded firstTick) 1000000000000).1
      (Response.decoded staleTick) 2000000000000).1 "n2" = none :=
  ⟨by decide,
    (GetALlNodeMetrics_expiry
      (GetALlNodeMetrics emptyClient (Response.decoded firstTick) 1000000000000).1
      2000000000000 staleTick (by decide)).1 "n2" ⟨"n2", 990000000000, ⟨300, 400⟩⟩
      (by decide) (by decide)⟩

/-! ## Startup validation -/

/-- C13. `CheckOptionOrDie` returns an error if and only if `EnableLeaderElection` is true and
`LockObjectNamespace` is the empty string, returns nil in every other case, and leaves the
options as they were. -/
theorem CheckOptionOrDie_spec (s : ServerOption) :
    (((s.CheckOptionOrDie).2 ≠ none) ↔
      (s.EnableLeaderElection = true ∧ s.LockObjectNamespace = "")) ∧
    (((s.CheckOptionOrDie).2 = none) ↔
      ¬ (s.EnableLeaderElection = true ∧ s.LockObjectNamespace = "")) ∧
    (s.CheckOptionOrDie).1 = s := by
  unfold ServerOption.CheckOptionOrDie
  by_cases h1 : s.EnableLeaderElection = true <;>
    by_cases h2 : s.LockObjectNamespace = "" <;> simp [h1, h2]

/-! ## The key prefix of predicted allocatable -/

theorem storeUsage_foldl_none (expiration now : Int) (key : String) (usages : List NodeUsage)
    (c : nodeMetricsCache) (hno : ∀ m ∈ usages, m.Name ≠ key) :
    (usages.foldl (storeUsage expiration now) c).Get key = c.Get key := by
  rw [storeUsage_foldl_get]
  have hnone : usages.reverse.find? (fun r => decide (r.Name = key)) = none := by
    rw [List.find?_eq_none]
    intro m hm
    have := hno m (List.mem_reverse.1 hm)
    simpa using this
  rw [hnone]

theorem storeAllocatable_foldl_none (expiration now : Int) (key : String)
    (allocatables : List NodeMetrics) (c : nodeMetricsCache)
    (hno : ∀ m ∈ allocatables, ArchimedesPredictNodeAllocatablePrefix ++ m.Name ≠ key) :
    (allocatables.foldl (storeAllocatable expiration now) c).Get key = c.Get key := by
  rw [storeAllocatable_foldl_get]
  have hnone : allocatables.reverse.find?
      (fun r => decide ( ArchimedesPredictNodeAllocatablePrefix ++ r.Name = key)) = none := by
    rw [List.find?_eq_none]
    intro m hm
    have := hno m (List.mem_reverse.1 hm)
    simpa using this
  rw [hnone]

theorem GetAllNodeAllocatable_frame (h : ArchimedesMetricsClient) (now : Int)
    (allocatables : List NodeMetrics) (key : String)
    (hno : ∀ m ∈ allocatables, ArchimedesPredictNodeAllocatablePrefix ++ m.Name ≠ key) :
    (GetAllNodeAllocatable h (Response.decoded allocatables) now).1.nodeMetricsCache.Get key
      = h.nodeMetricsCache.Get key := by
  cases allocatables with
  | nil => rfl
  | cons first items =>
    simp only [GetAllNodeAllocatable]
    exact storeAllocatable_foldl_none _ _ _ _ _ hno

theorem GetALlNodeMetrics_frame (h : ArchimedesMetricsClient) (now : Int)
    (usages : List NodeUsage) (key : String) (hno : ∀ m ∈ usages, m.Name ≠ key) :
    (GetALlNodeMetrics h (Response.decoded usages) now).1.nodeMetricsCache.Get key
      = h.nodeMetricsCache.Get key := by
  cases usages with
  | nil => rfl
  | cons first items =>
    simp only [GetALlNodeMetrics]
    exact storeUsage_foldl_none _ _ _ _ _ hno

theorem prefixed_key_data (name key : String)
    (h : ArchimedesPredictNodeAllocatablePrefix ++ name = key) :
    ArchimedesPredictNodeAllocatablePrefix.data <+: key.data := by
  rw [← h, String.data_append]
  exact List.prefix_append _ _

theorem prefixed_key_not_node_name (name key : String)
    (h : ArchimedesPredictNodeAllocatablePrefix ++ name = key) : IsNodeName key = false := by
  have hp := prefixed_key_data name key h
  obtain ⟨t, ht⟩ := hp
  cases hk : IsNodeName key with
  | false => rfl
  | true =>
    exfalso
    unfold IsNodeName at hk
    rw [← ht, List.all_append, Bool.and_eq_true] at hk
    exact absurd hk.1 (by decide)

/-- The alphabet of node names is what keeps the two kinds of key apart: with the string
`predictNodeAllocatable-n1`, which is no node name, in the place of a node name, storing the
predicted allocatable of `n1` changes the result of `GetNodeMetrics` for that string from an
error to the allocatable values of `n1`. -/
theorem prefixed_name_collides :
    IsNodeName "predictNodeAllocatable-n1" = false ∧
    GetNodeMetrics emptyClient "predictNodeAllocatable-n1" = none ∧
    GetNodeMetrics (GetAllNodeAllocatable emptyClient (Response.decoded pollAllocatables)
      1000000000000).1 "predictNodeAllocatable-n1" = some ⟨4000, 8589934592⟩ := by
  decide

/-- Claim C12: the key prefix keeps usage readings and predicted-allocatable readings apart
in the shared cache. For every node name `b` (a string in the alphabet of node names) and
every poll of predicted allocatable, whatever the names `a` of its records, stored or
evicted, `GetNodeMetrics(b)` is unchanged; and for every poll of usage whose records carry
node names `b`, stored or evicted, `GetNodeAllocatable(a)` is unchanged for every `a`.
More generally, for arbitrary strings: an allocatable poll leaves `GetNodeMetrics(b)`
unchanged when no record name `a` has `predictNodeAllocatable-` followed by `a` equal to
`b`, in particular when `b` does not start with the prefix; a usage poll leaves
`GetNodeAllocatable(a)` unchanged when no record is named `predictNodeAllocatable-`
followed by `a`, in particular when no record name starts with the prefix. -/
theorem prefix_disambiguates (h : ArchimedesMetricsClient) (now : Int)
    (allocatables : List NodeMetrics) (usages : List NodeUsage) :
    (∀ b, (∀ m ∈ allocatables, ArchimedesPredictNodeAllocatablePrefix ++ m.Name ≠ b) →
      GetNodeMetrics (GetAllNodeAllocatable h (Response.decoded allocatables) now).1 b
        = GetNodeMetrics h b) ∧
    (∀ a, (∀ m ∈ usages, m.Name ≠ ArchimedesPredictNodeAllocatablePrefix ++ a) →
      GetNodeAllocatable (GetALlNodeMetrics h (Response.decoded usages) now).1 a
        = GetNodeAllocatable h a) ∧
    (∀ b, ¬ (ArchimedesPredictNodeAllocatablePrefix.data <+: b.data) →
      GetNodeMetrics (GetAllNodeAllocatable h (Response.decoded allocatables) now).1 b
        = GetNodeMetrics h b) ∧
    ((∀ m ∈ usages, ¬ (ArchimedesPredictNodeAllocatablePrefix.data <+: m.Name.data)) →
      ∀ a, GetNodeAllocatable (GetALlNodeMetrics h (Response.decoded usages) now).1 a
        = GetNodeAllocatable h a) ∧
    (∀ b, IsNodeName b = true →
      GetNodeMetrics (GetAllNodeAllocatable h (Response.decoded allocatables) now).1 b
        = GetNodeMetrics h b) ∧
    ((∀ m ∈ usages, IsNodeName m.Name = true) →
      ∀ a, GetNodeAllocatable (GetALlNodeMetrics h (Response.decoded usages) now).1 a
        = GetNodeAllocatable h a) := by
  refine ⟨?_, ?_, ?_, ?_, ?_, ?_⟩
  · intro b hno
    exact GetAllNodeAllocatable_frame h now allocatables b hno
  · intro a hno
    exact GetALlNodeMetrics_frame h now usages _ hno
  · intro b hb
    apply GetAllNodeAllocatable_frame h now allocatables b
    intro m _ heq
    exact hb (prefixed_key_data m.Name b heq)
  · intro hu a
    apply GetALlNodeMetrics_frame h now usages
    intro m hm heq
    exact hu m hm (prefixed_key_data a m.Name heq.symm)
  · intro b hb
    apply GetAllNodeAllocatable_frame h now allocatables b
    intro m _ heq
    rw [prefixed_key_not_node_name m.Name b heq] at hb
    exact Bool.noConfusion hb
  · intro hu a
    apply GetALlNodeMetrics_frame h now usages
    intro m hm heq
    have hb := hu m hm
    rw [prefixed_key_not_node_name a m.Name heq.symm] at hb
    exact Bool.noConfusion hb

/-- Witness of C12 with `a = b = n1`: after a usage poll has stored the reading of `n1`, the
allocatable poll that stores the predicted allocatable of `n1` leaves that usage reading
as it was. -/
theorem prefix_disambiguates_witness :
    IsNodeName "n1" = true ∧
    GetNodeMetrics (GetALlNodeMetrics pollClient (Response.decoded pollUsages)
      1000000000000).1 "n1" = some ⟨2500, 5368709120⟩ ∧
    GetNodeAllocatable (GetAllNodeAllocatable
      (GetALlNodeMetrics pollClient (Response.decoded pollUsages) 1000000000000).1
      (Response.decoded pollAllocatables) 1000000000000).1 "n1" = some ⟨4000, 8589934592⟩ ∧
    GetNodeMetrics (GetAllNodeAllocatable
      (GetALlNodeMetrics pollClient (Response.decoded pollUsages) 1000000000000).1
      (Response.decoded pollAllocatables) 1000000000000).1 "n1"
      = GetNodeMetrics
        (GetALlNodeMetrics pollClient (Response.decoded pollUsages) 1000000000000).1 "n1" :=
  ⟨by decide, by decide, by decide,
    (prefix_disambiguates
      (GetALlNodeMetrics pollClient (Response.decoded pollUsages) 1000000000000).1
      1000000000000 pollAllocatables pollUsages).2.2.2.2.1 "n1" (by decide)⟩

/-! ## Pod annotations -/

theorem lookupString_stamp (a : Option (GoMap String String)) (key value k : String) :
    lookupString (some (mapSet (match a with
      | none => []
      | some m => m) key value)) k = if key = k then some value else lookupString a k := by
  cases a with
  | none => simp [lookupString, mapGet_mapSet, mapGet]
  | some m => simp [lookupString, mapGet_mapSet]

theorem updatePodAnnotations_keep (keys : SchedulingKeys) (pg : pgcontroller) (pod : Pod)
    (pgName : String)
    (h : (lookupString pod.Annotations keys.KubeGroupNameAnnotationKey).getD "" ≠ "") :
    updatePodAnnotations keys pg pod pgName = { pod := pod, calls := [], err := none } := by
  unfold updatePodAnnotations
  cases ha : pod.Annotations with
  | none => simp [ha, lookupString] at h
  | some a =>
    simp only [ha, lookupString] at h
    simp only [h, if_false]
    cases pod
    simp_all

theorem updatePodAnnotations_stamp (keys : SchedulingKeys) (pg : pgcontroller) (pod : Pod)
    (pgName : String)
    (h : (lookupString pod.Annotations keys.KubeGroupNameAnnotationKey).getD "" = "") :
    updatePodAnnotations keys pg pod pgName =
      { pod := { pod with Annotations := some (mapSet (match pod.Annotations with
            | none => []
            | some a => a) keys.KubeGroupNameAnnotationKey pgName) },
        calls := [ApiCall.updatePod { pod with Annotations := some (mapSet
          (match pod.Annotations with
            | none => []
            | some a => a) keys.KubeGroupNameAnnotationKey pgName) }],
        err := pg.Update { pod with Annotations := some (mapSet (match pod.Annotations with
            | none => []
            | some a => a) keys.KubeGroupNameAnnotationKey pgName) } } := by
  unfold updatePodAnnotations
  cases ha : pod.Annotations with
  | none => simp [mapGet]
  | some a =>
    simp only [ha, lookupString] at h
    simp [h]

/-- C14. `updatePodAnnotations` on a pod whose group-name annotation is absent or empty stamps
the annotation with `pgName`, issues one pod `Update` of the stamped pod and returns the
result of that `Update`; on a pod whose annotation has a non-empty value, equal to `pgName`
or not, it leaves the pod as it was, issues no request and returns nil. In both cases every
other annotation and every other field of the pod is unchanged. -/
theorem updatePodAnnotations_spec (keys : SchedulingKeys) (pg : pgcontroller) (pod : Pod)
    (pgName : String) :
    ((lookupString pod.Annotations keys.KubeGroupNameAnnotationKey).getD "" = "" →
      lookupString (updatePodAnnotations keys pg pod pgName).pod.Annotations
          keys.KubeGroupNameAnnotationKey = some pgName ∧
      (updatePodAnnotations keys pg pod pgName).calls =
        [ApiCall.updatePod (updatePodAnnotations keys pg pod pgName).pod] ∧
      (updatePodAnnotations keys pg pod pgName).err =
        pg.Update (updatePodAnnotations keys pg pod pgName).pod) ∧
    ((lookupString pod.Annotations keys.KubeGroupNameAnnotationKey).getD "" ≠ "" →
      updatePodAnnotations keys pg pod pgName = { pod := pod, calls := [], err := none }) ∧
    (∀ k, k ≠ keys.KubeGroupNameAnnotationKey →
      lookupString (updatePodAnnotations keys pg pod pgName).pod.Annotations k
        = lookupString pod.Annotations k) ∧
    { (updatePodAnnotations keys pg pod pgName).pod with Annotations := pod.Annotations }
      = pod := by
  by_cases h : (lookupString pod.Annotations keys.KubeGroupNameAnnotationKey).getD "" = ""
  · rw [updatePodAnnotations_stamp keys pg pod pgName h]
    refine ⟨fun _ => ⟨?_, rfl, rfl⟩, fun hne => absurd h hne, ?_, rfl⟩
    · simp only
      rw [lookupString_stamp]
      simp
    · intro k hk
      simp only
      rw [lookupString_stamp]
      have : ¬ keys.KubeGroupNameAnnotationKey = k := fun e => hk e.symm
      simp [this]
  · rw [updatePodAnnotations_keep keys pg pod pgName h]
    exact ⟨fun he => absurd he h, fun _ => rfl, fun _ _ => rfl, rfl⟩

/-- Witness of C14: a pod without annotations is stamped and updated once. -/
theorem updatePodAnnotations_spec_witness :
    (lookupString plainPod.Annotations specKeys.KubeGroupNameAnnotationKey).getD "" = "" ∧
    lookupString (updatePodAnnotations specKeys freshController plainPod "podgroup-u1").pod.Annotations
      specKeys.KubeGroupNameAnnotationKey = some "podgroup-u1" ∧
    (updatePodAnnotations specKeys freshController plainPod "podgroup-u1").calls =
      [ApiCall.updatePod (updatePodAnnotations specKeys freshController plainPod
        "podgroup-u1").pod] :=
  ⟨by decide,
    ((updatePodAnnotations_spec specKeys freshController plainPod "podgroup-u1").1
      (by decide)).1,
    ((updatePodAnnotations_spec specKeys freshController plainPod "podgroup-u1").1
      (by decide)).2.1⟩

/-! ## Pod-group synthesis -/

theorem createNormalPodPGIfNotExist_of_found (keys : SchedulingKeys) (naming : String → String)
    (pg : pgcontroller) (pod : Pod) (existing : PodGroup)
    (hl : pg.pgLister pod.Namespace (GeneratePodgroupName naming pod) = Lookup.found existing) :
    createNormalPodPGIfNotExist keys naming pg pod
      = updatePodAnnotations keys pg pod (GeneratePodgroupName naming pod) := by
  unfold createNormalPodPGIfNotExist
  simp only [hl]

theorem createNormalPodPGIfNotExist_of_error (keys : SchedulingKeys) (naming : String → String)
    (pg : pgcontroller) (pod : Pod) (err : ApiError)
    (hl : pg.pgLister pod.Namespace (GeneratePodgroupName naming pod) = Lookup.failed err)
    (hnf : err.NotFound = false) :
    createNormalPodPGIfNotExist keys naming pg pod
      = { pod := pod, calls := [], err := some err } := by
  unfold createNormalPodPGIfNotExist
  simp [hl, hnf]

theorem createNormalPodPGIfNotExist_of_refused (keys : SchedulingKeys)
    (naming : String → String) (pg : pgcontroller) (pod : Pod) (err createErr : ApiError)
    (hl : pg.pgLister pod.Namespace (GeneratePodgroupName naming pod) = Lookup.failed err)
    (hnf : err.NotFound = true)
    (hc : pg.Create (newPodGroup keys pod (GeneratePodgroupName naming pod)) = some createErr) :
    createNormalPodPGIfNotExist keys naming pg pod
      = { pod := pod,
          calls := [ApiCall.createPodGroup (newPodGroup keys pod (GeneratePodgroupName naming pod))],
          err := some createErr } := by
  unfold createNormalPodPGIfNotExist
  simp [hl, hnf, hc]

theorem createNormalPodPGIfNotExist_of_created (keys : SchedulingKeys)
    (naming : String → String) (pg : pgcontroller) (pod : Pod) (err : ApiError)
    (hl : pg.pgLister pod.Namespace (GeneratePodgroupName naming pod) = Lookup.failed err)
    (hnf : err.NotFound = true)
    (hc : pg.Create (newPodGroup keys pod (GeneratePodgroupName naming pod)) = none) :
    createNormalPodPGIfNotExist keys naming pg pod
      = { pod := (updatePodAnnotations keys pg pod (GeneratePodgroupName naming pod)).pod,
          calls := ApiCall.createPodGroup (newPodGroup keys pod (GeneratePodgroupName naming pod))
            :: (updatePodAnnotations keys pg pod (GeneratePodgroupName naming pod)).calls,
          err := (updatePodAnnotations keys pg pod (GeneratePodgroupName naming pod)).err } := by
  unfold createNormalPodPGIfNotExist
  simp [hl, hnf, hc]

theorem updatePodAnnotations_name (keys : SchedulingKeys) (naming : String → String)
    (pg : pgcontroller) (pod : Pod) (pgName : String) :
    GeneratePodgroupName naming (updatePodAnnotations keys pg pod pgName).pod
      = GeneratePodgroupName naming pod ∧
    (updatePodAnnotations keys pg pod pgName).pod.Namespace = pod.Namespace := by
  by_cases h : (lookupString pod.Annotations keys.KubeGroupNameAnnotationKey).getD "" = ""
  · rw [updatePodAnnotations_stamp keys pg pod pgName h]
    exact ⟨rfl, rfl⟩
  · rw [updatePodAnnotations_keep keys pg pod pgName h]
    exact ⟨rfl, rfl⟩

theorem updatePodAnnotations_stamped (keys : SchedulingKeys) (pg : pgcontroller) (pod : Pod)
    (pgName : String) (hne : pgName ≠ "") :
    (lookupString (updatePodAnnotations keys pg pod pgName).pod.Annotations
      keys.KubeGroupNameAnnotationKey).getD "" ≠ "" := by
  by_cases h : (lookupString pod.Annotations keys.KubeGroupNameAnnotationKey).getD "" = ""
  · rw [updatePodAnnotations_stamp keys pg pod pgName h]
    simp only
    rw [lookupString_stamp]
    simpa using hne
  · rw [updatePodAnnotations_keep keys pg pod pgName h]
    exact h

theorem createNormalPodPGIfNotExist_found (keys : SchedulingKeys) (naming : String → String)
    (pg : pgcontroller) (pod : Pod) (existing : PodGroup)
    (hfound : pg.pgLister pod.Namespace (GeneratePodgroupName naming pod)
      = Lookup.found existing)
    (hann : (lookupString pod.Annotations keys.KubeGroupNameAnnotationKey).getD "" ≠ "") :
    createNormalPodPGIfNotExist keys naming pg pod = { pod := pod, calls := [], err := none } := by
  rw [createNormalPodPGIfNotExist_of_found keys naming pg pod existing hfound]
  exact updatePodAnnotations_keep keys pg pod _ hann

/-- C15. When the generated pod-group name is not empty: if the pod group of that name exists
in the lister and the pod's group-name annotation equals the name, `createNormalPodPGIfNotExist`
issues no `Create` and no `Update`, leaves the pod unchanged and returns nil; and on the pod
left by a run that returned nil, a second run that finds the pod group in the lister issues
no request, leaves the pod unchanged and returns nil. -/
theorem createNormalPodPGIfNotExist_idempotent (keys : SchedulingKeys)
    (naming : String → String) (pod : Pod)
    (hne : GeneratePodgroupName naming pod ≠ "") :
    (∀ (pg : pgcontroller) (existing : PodGroup),
      pg.pgLister pod.Namespace (GeneratePodgroupName naming pod) = Lookup.found existing →
      lookupString pod.Annotations keys.KubeGroupNameAnnotationKey
        = some (GeneratePodgroupName naming pod) →
      createNormalPodPGIfNotExist keys naming pg pod
        = { pod := pod, calls := [], err := none }) ∧
    (∀ (pg pg2 : pgcontroller) (existing : PodGroup),
      (createNormalPodPGIfNotExist keys naming pg pod).err = none →
      pg2.pgLister pod.Namespace (GeneratePodgroupName naming pod) = Lookup.found existing →
      createNormalPodPGIfNotExist keys naming pg2
          (createNormalPodPGIfNotExist keys naming pg pod).pod
        = { pod := (createNormalPodPGIfNotExist keys naming pg pod).pod, calls := [],
            err := none }) := by
  refine ⟨?_, ?_⟩
  · intro pg existing hfound hann
    apply createNormalPodPGIfNotExist_found keys naming pg pod existing hfound
    rw [hann]
    simpa using hne
  · intro pg pg2 existing herr hfound
    have hstep : ∀ after : Pod, GeneratePodgroupName naming after = GeneratePodgroupName naming pod →
        after.Namespace = pod.Namespace →
        (lookupString after.Annotations keys.KubeGroupNameAnnotationKey).getD "" ≠ "" →
        createNormalPodPGIfNotExist keys naming pg2 after
          = { pod := after, calls := [], err := none } := by
      intro after hname hns hann
      apply createNormalPodPGIfNotExist_found keys naming pg2 after existing
      · rw [hname, hns]; exact hfound
      · exact hann
    have hupd := updatePodAnnotations_name keys naming pg pod (GeneratePodgroupName naming pod)
    have hst := updatePodAnnotations_stamped keys pg pod (GeneratePodgroupName naming pod) hne
    cases hl : pg.pgLister pod.Namespace (GeneratePodgroupName naming pod) with
    | found ex =>
      rw [createNormalPodPGIfNotExist_of_found keys naming pg pod ex hl]
      exact hstep _ hupd.1 hupd.2 hst
    | failed err =>
      by_cases hnf : err.NotFound = true
      · cases hc : pg.Create (newPodGroup keys pod (GeneratePodgroupName naming pod)) with
        | none =>
          rw [createNormalPodPGIfNotExist_of_created keys naming pg pod err hl hnf hc]
          exact hstep _ hupd.1 hupd.2 hst
        | some e =>
          rw [createNormalPodPGIfNotExist_of_refused keys naming pg pod err e hl hnf hc] at herr
          simp at herr
      · have hf : err.NotFound = false := by simpa using hnf
        rw [createNormalPodPGIfNotExist_of_error keys naming pg pod err hl hf] at herr
        simp at herr

/-- Witness of C15: after a first run on the scenario pod, a second run against a lister
that holds the pod group changes nothing. -/
theorem createNormalPodPGIfNotExist_idempotent_witness :
    GeneratePodgroupName demoNaming plainPod ≠ "" ∧
    (createNormalPodPGIfNotExist specKeys demoNaming freshController plainPod).err = none ∧
    createNormalPodPGIfNotExist specKeys demoNaming syncedController
        (createNormalPodPGIfNotExist specKeys demoNaming freshController plainPod).pod
      = { pod := (createNormalPodPGIfNotExist specKeys demoNaming freshController plainPod).pod,
          calls := [], err := none } :=
  ⟨by decide, by decide,
    (createNormalPodPGIfNotExist_idempotent specKeys demoNaming plainPod (by decide)).2
      freshController syncedController (newPodGroup specKeys plainPod "podgroup-u1")
      (by decide) (by decide)⟩

/-- C16. `createNormalPodPGIfNotExist` issues a pod-group `Create` only when the lookup
failed with a NotFound error, and then it issues it first; the created object is in the
pod's namespace, is named `pgName`, has `MinMember` 1, the pod's priority class and phase
`Pending`. When the lookup fails with another error, that error is returned, no request is
issued and the pod is unchanged. -/
theorem createNormalPodPGIfNotExist_create (keys : SchedulingKeys)
    (naming : String → String) (pg : pgcontroller) (pod : Pod) :
    (∀ obj, ApiCall.createPodGroup obj ∈ (createNormalPodPGIfNotExist keys naming pg pod).calls →
      (∃ err, pg.pgLister pod.Namespace (GeneratePodgroupName naming pod) = Lookup.failed err ∧
        err.NotFound = true) ∧
      obj.Namespace = pod.Namespace ∧ obj.Name = GeneratePodgroupName naming pod ∧
      obj.MinMember = 1 ∧ obj.PriorityClassName = pod.PriorityClassName ∧
      obj.Phase = PodGroupPhase.Pending) ∧
    (∀ err, pg.pgLister pod.Namespace (GeneratePodgroupName naming pod) = Lookup.failed err →
      err.NotFound = true →
      ∃ rest, (createNormalPodPGIfNotExist keys naming pg pod).calls =
        ApiCall.createPodGroup (newPodGroup keys pod (GeneratePodgroupName naming pod)) :: rest ∧
        ∀ obj, ApiCall.createPodGroup obj ∉ rest) ∧
    (∀ err, pg.pgLister pod.Namespace (GeneratePodgroupName naming pod) = Lookup.failed err →
      err.NotFound = false →
      createNormalPodPGIfNotExist keys naming pg pod
        = { pod := pod, calls := [], err := some err }) := by
  have hupd : ∀ obj, ApiCall.createPodGroup obj ∉
      (updatePodAnnotations keys pg pod (GeneratePodgroupName naming pod)).calls := by
    intro obj
    by_cases h : (lookupString pod.Annotations keys.KubeGroupNameAnnotationKey).getD "" = ""
    · rw [updatePodAnnotations_stamp keys pg pod _ h]; simp
    · rw [updatePodAnnotations_keep keys pg pod _ h]; simp
  have hobj : ∀ obj, obj = newPodGroup keys pod (GeneratePodgroupName naming pod) →
      obj.Namespace = pod.Namespace ∧ obj.Name = GeneratePodgroupName naming pod ∧
      obj.MinMember = 1 ∧ obj.PriorityClassName = pod.PriorityClassName ∧
      obj.Phase = PodGroupPhase.Pending := by
    intro obj ho
    subst ho
    unfold newPodGroup
    cases lookupString pod.Annotations keys.QueueNameAnnotationKey <;>
      exact ⟨rfl, rfl, rfl, rfl, rfl⟩
  refine ⟨?_, ?_, ?_⟩
  · intro obj hin
    cases hl : pg.pgLister pod.Namespace (GeneratePodgroupName naming pod) with
    | found existing =>
      rw [createNormalPodPGIfNotExist_of_found keys naming pg pod existing hl] at hin
      exact absurd hin (hupd obj)
    | failed err =>
      by_cases hnf : err.NotFound = true
      · have hcase : obj = newPodGroup keys pod (GeneratePodgroupName naming pod) := by
          cases hc : pg.Create (newPodGroup keys pod (GeneratePodgroupName naming pod)) with
          | none =>
            rw [createNormalPodPGIfNotExist_of_created keys naming pg pod err hl hnf hc] at hin
            simp only [List.mem_cons] at hin
            rcases hin with hin | hin
            · simpa using hin
            · exact absurd hin (hupd obj)
          | some e =>
            rw [createNormalPodPGIfNotExist_of_refused keys naming pg pod err e hl hnf hc] at hin
            simpa using hin
        exact ⟨⟨err, rfl, hnf⟩, hobj obj hcase⟩
      · have hf : err.NotFound = false := by simpa using hnf
        rw [createNormalPodPGIfNotExist_of_error keys naming pg pod err hl hf] at hin
        simp at hin
  · intro err hl hnf
    cases hc : pg.Create (newPodGroup keys pod (GeneratePodgroupName naming pod)) with
    | none =>
      rw [createNormalPodPGIfNotExist_of_created keys naming pg pod err hl hnf hc]
      exact ⟨_, rfl, hupd⟩
    | some e =>
      rw [createNormalPodPGIfNotExist_of_refused keys naming pg pod err e hl hnf hc]
      exact ⟨[], rfl, fun obj h => absurd h (List.not_mem_nil _)⟩
  · intro err hl hnf
    exact createNormalPodPGIfNotExist_of_error keys naming pg pod err hl hnf

/-- Witness of C16: on the scenario pod with an empty lister the first request creates a
pod group with `MinMember` 1. -/
theorem createNormalPodPGIfNotExist_create_witness :
    freshController.pgLister plainPod.Namespace (GeneratePodgroupName demoNaming plainPod)
      = Lookup.failed ⟨true, "not found"⟩ ∧
    ∃ rest, (createNormalPodPGIfNotExist specKeys demoNaming freshController plainPod).calls =
      ApiCall.createPodGroup (newPodGroup specKeys plainPod
        (GeneratePodgroupName demoNaming plainPod)) :: rest ∧
      ∀ obj, ApiCall.createPodGroup obj ∉ rest :=
  ⟨rfl, (createNormalPodPGIfNotExist_create specKeys demoNaming freshController plainPod).2.1
    ⟨true, "not found"⟩ rfl rfl⟩

/-! ## Queue and minimum resources of the created pod group -/

theorem newPodGroup_queue (keys : SchedulingKeys) (pod : Pod) (pgName : String) :
    (newPodGroup keys pod pgName).Queue =
      (lookupString pod.Annotations keys.QueueNameAnnotationKey).getD "" := by
  unfold newPodGroup
  cases lookupString pod.Annotations keys.QueueNameAnnotationKey <;> rfl

/-- C17, as stated, fails. For the scenario pod, which has no annotations, the pod group
handed to `Create` has the empty queue, not the queue `default`. -/
theorem created_queue_not_default :
    lookupString plainPod.Annotations specKeys.QueueNameAnnotationKey = none ∧
    (createNormalPodPGIfNotExist specKeys demoNaming freshController plainPod).calls.head? =
      some (ApiCall.createPodGroup (newPodGroup specKeys plainPod "podgroup-u1")) ∧
    (newPodGroup specKeys plainPod "podgroup-u1").Queue = "" ∧
    (newPodGroup specKeys plainPod "podgroup-u1").Queue ≠ "default" := by
  decide

/-- C17, amended. Every pod group that `createNormalPodPGIfNotExist` hands to `Create` has as
its queue the value of the pod's queue-name annotation when the pod has one, and the empty
string when it has none. -/
theorem createNormalPodPGIfNotExist_queue (keys : SchedulingKeys) (naming : String → String)
    (pg : pgcontroller) (pod : Pod) (obj : PodGroup)
    (hin : ApiCall.createPodGroup obj ∈ (createNormalPodPGIfNotExist keys naming pg pod).calls) :
    (∀ queueName, lookupString pod.Annotations keys.QueueNameAnnotationKey = some queueName →
      obj.Queue = queueName) ∧
    (lookupString pod.Annotations keys.QueueNameAnnotationKey = none → obj.Queue = "") := by
  have hupd : ApiCall.createPodGroup obj ∉
      (updatePodAnnotations keys pg pod (GeneratePodgroupName naming pod)).calls := by
    by_cases h : (lookupString pod.Annotations keys.KubeGroupNameAnnotationKey).getD "" = ""
    · rw [updatePodAnnotations_stamp keys pg pod _ h]; simp
    · rw [updatePodAnnotations_keep keys pg pod _ h]; simp
  have hobj : obj = newPodGroup keys pod (GeneratePodgroupName naming pod) := by
    cases hl : pg.pgLister pod.Namespace (GeneratePodgroupName naming pod) with
    | found existing =>
      rw [createNormalPodPGIfNotExist_of_found keys naming pg pod existing hl] at hin
      exact absurd hin hupd
    | failed err =>
      by_cases hnf : err.NotFound = true
      · cases hc : pg.Create (newPodGroup keys pod (GeneratePodgroupName naming pod)) with
        | none =>
          rw [createNormalPodPGIfNotExist_of_created keys naming pg pod err hl hnf hc] at hin
          simp only [List.mem_cons] at hin
          rcases hin with hin | hin
          · simpa using hin
          · exact absurd hin hupd
        | some e =>
          rw [createNormalPodPGIfNotExist_of_refused keys naming pg pod err e hl hnf hc] at hin
          simpa using hin
      · have hf : err.NotFound = false := by simpa using hnf
        rw [createNormalPodPGIfNotExist_of_error keys naming pg pod err hl hf] at hin
        simp at hin
  subst hobj
  rw [newPodGroup_queue]
  exact ⟨fun q hq => by rw [hq]; rfl, fun hq => by rw [hq]; rfl⟩

/-- Witness of the amended C17: a pod annotated with the queue `batch` gets a pod group in
the queue `batch`. -/
theorem createNormalPodPGIfNotExist_queue_witness :
    ApiCall.createPodGroup (newPodGroup specKeys queuedPod "podgroup-u1") ∈
      (createNormalPodPGIfNotExist specKeys demoNaming freshController queuedPod).calls ∧
    (newPodGroup specKeys queuedPod "podgroup-u1").Queue = "batch" :=
  ⟨by decide,
    (createNormalPodPGIfNotExist_queue specKeys demoNaming freshController queuedPod
      (newPodGroup specKeys queuedPod "podgroup-u1") (by decide)).1 "batch" (by decide)⟩

theorem mapGet_absent {κ ν : Type} [DecidableEq κ] (m : GoMap κ ν) (k : κ)
    (h : k ∉ m.map Prod.fst) : mapGet m k = none := by
  induction m with
  | nil => rfl
  | cons p m ih =>
    obtain ⟨a, b⟩ := p
    simp only [List.map_cons, List.mem_cons, not_or] at h
    have hne : ¬ a = k := fun e => h.1 e.symm
    simp [mapGet, hne, ih h.2]

theorem addOpt_none (x : Option Int) : addOpt x none = x := by
  cases x <;> rfl

theorem addQuantity_get (list : v1.ResourceList) (name : String) (q : Int) (x : String) :
    mapGet (addQuantity list (name, q)) x =
      if name = x then addOpt (mapGet list name) (some q) else mapGet list x := by
  unfold addQuantity
  cases h : mapGet list name with
  | none => simp [mapGet_mapSet, addOpt]
  | some v => simp [mapGet_mapSet, addOpt]

theorem addQuantity_foldl_get :
    ∀ (entries list : v1.ResourceList) (x : String), (entries.map Prod.fst).Nodup →
      mapGet (entries.foldl addQuantity list) x = addOpt (mapGet list x) (mapGet entries x) := by
  intro entries
  induction entries with
  | nil => intro list x _; simp [mapGet, addOpt_none]
  | cons e entries ih =>
    intro list x hnd
    obtain ⟨name, q⟩ := e
    simp only [List.map_cons, List.nodup_cons] at hnd
    simp only [List.foldl_cons]
    rw [ih _ x hnd.2, addQuantity_get]
    by_cases hx : name = x
    · subst hx
      simp [mapGet, mapGet_absent entries name hnd.1, addOpt_none]
    · simp [mapGet, hx]

theorem addResourceList_get (list : v1.ResourceList) (c : Container) (x : String)
    (hreq : DistinctKeys c.Requests) (hlim : DistinctKeys c.Limits) :
    mapGet (addResourceList list c.Requests c.Limits) x
      = addOpt (mapGet list x) (containerRequest c x) := by
  unfold addResourceList containerRequest
  cases hr : c.Requests with
  | some req => exact addQuantity_foldl_get req list x (hreq req hr)
  | none =>
    cases hl : c.Limits with
    | some limit => exact addQuantity_foldl_get limit list x (hlim limit hl)
    | none => simp [addOpt_none]

theorem calcPGMinResources_foldl_get (x : String) :
    ∀ (cs : List Container) (acc : v1.ResourceList),
      (∀ c ∈ cs, DistinctKeys c.Requests ∧ DistinctKeys c.Limits) →
      mapGet (cs.foldl (fun pgMinRes c => addResourceList pgMinRes c.Requests c.Limits) acc) x
        = (cs.map (fun c => containerRequest c x)).foldl addOpt (mapGet acc x) := by
  intro cs
  induction cs with
  | nil => intro acc _; rfl
  | cons c cs ih =>
    intro acc h
    simp only [List.foldl_cons, List.map_cons]
    rw [ih _ (fun d hd => h d (List.mem_cons_of_mem _ hd)),
      addResourceList_get acc c x (h c (List.mem_cons_self _ _)).1 (h c (List.mem_cons_self _ _)).2]

/-- C18, as stated, fails. The container of `limitedPod` requests CPU only and limits CPU and
memory: memory is absent from its `Requests`, so the claim gives the pod the memory of its
`Limits`, but `calcPGMinResources` returns no memory entry. -/
theorem limits_ignored_beside_requests :
    (limitedPod.Containers.map (fun c => specContainerRequest c "memory")).foldl addOpt none
      = some 1073741824 ∧
    mapGet (calcPGMinResources limitedPod) "memory" = none := by
  decide

/-- C18, amended. For every pod whose resource lists have distinct keys, `calcPGMinResources`
returns, for each resource name, the sum over the pod's containers of the container's
`Requests` value for that resource, where a container without a `Requests` list (nil)
counts with its `Limits` value instead; the name has no entry when no container contributes. -/
theorem calcPGMinResources_spec (pod : Pod) (name : String)
    (hmaps : ∀ c ∈ pod.Containers, DistinctKeys c.Requests ∧ DistinctKeys c.Limits) :
    mapGet (calcPGMinResources pod) name
      = (pod.Containers.map (fun c => containerRequest c name)).foldl addOpt none := by
  unfold calcPGMinResources
  exact calcPGMinResources_foldl_get name pod.Containers [] hmaps

/-- Witness of the amended C18, the scenario of the claim: two containers requesting
(500m, 1Gi) and (500m, 512Mi) give (1000m, 1.5Gi). -/
theorem calcPGMinResources_spec_witness :
    (∀ c ∈ plainPod.Containers, DistinctKeys c.Requests ∧ DistinctKeys c.Limits) ∧
    mapGet (calcPGMinResources plainPod) "cpu" = some 1000 ∧
    mapGet (calcPGMinResources plainPod) "memory" = some 1610612736 := by
  have hmaps : ∀ c ∈ plainPod.Containers, DistinctKeys c.Requests ∧ DistinctKeys c.Limits := by
    intro c hc
    simp only [plainPod, List.mem_cons, List.mem_singleton, List.not_mem_nil, or_false] at hc
    rcases hc with hc | hc <;> subst hc <;>
      exact ⟨fun l hl => by cases hl; decide, fun l hl => by cases hl⟩
  refine ⟨hmaps, ?_, ?_⟩
  · rw [calcPGMinResources_spec plainPod "cpu" hmaps]; decide
  · rw [calcPGMinResources_spec plainPod "memory" hmaps]; decide

/-! ## The pop guard of the node loop -/

theorem countPops_append (a b : List Event) : countPops (a ++ b) = countPops a + countPops b := by
  simp [countPops, List.countP_append]

theorem countPops_tryNode {σ τ : Type} (ssn : Session σ τ) (job : JobInfo) (task : TaskInfo)
    (node : NodeInfo) (st : Place σ τ) : countPops (tryNode ssn job task node st).2 = 0 := by
  rcases tryNode_events ssn job task node st with h | h | h <;>
    rw [h] <;> simp [countPops, Event.isPop]

theorem countPops_cons_pop (t : TaskInfo) (l : List Event) :
    countPops (Event.popTask t :: l) = countPops l + 1 := by
  simp [countPops, Event.isPop]

theorem nodeLoop_count {σ τ : Type} (ssn : Session σ τ) (job : JobInfo) (n : Nat) :
    ∀ (refs : List NodeRef) (i : Nat) (task : TaskInfo) (st : Place σ τ),
      (nodeLoop ssn job n i refs task st).1.tasks.length
          + countPops (nodeLoop ssn job n i refs task st).2 = st.tasks.length ∧
      (i + refs.length = n → countPops (nodeLoop ssn job n i refs task st).2 ≤ refs.length - 1) ∧
      (n ≤ i + 1 → countPops (nodeLoop ssn job n i refs task st).2 = 0) ∧
      (st.tasks = [] → countPops (nodeLoop ssn job n i refs task st).2 = 0) := by
  intro refs
  induction refs with
  | nil =>
    intro i task st
    simp [nodeLoop, countPops]
  | cons ref refs ih =>
    intro i task st
    have htk := tryNode_tasks ssn job task (ssn.Node st.ssn ref) st
    have hcp := countPops_tryNode ssn job task (ssn.Node st.ssn ref) st
    simp only [nodeLoop]
    split
    · rw [hcp, htk]
      exact ⟨rfl, fun _ => Nat.zero_le _, fun _ => rfl, fun _ => rfl⟩
    · rename_i hne
      have hne2 : st.tasks ≠ [] := by
        intro he
        rw [htk, he] at hne
        exact hne rfl
      split
      · rename_i hlt
        split
        · rename_i next rest hpop
          rw [htk] at hpop
          have hlen := Pop_length _ _ _ _ hpop
          obtain ⟨h1, h2, _, _⟩ := ih (i + 1) next
            { (tryNode ssn job task (ssn.Node st.ssn ref) st).1 with tasks := rest }
          simp only at h1 h2
          rw [countPops_append, hcp, countPops_cons_pop]
          simp only [List.length_cons]
          refine ⟨by omega, ?_, ?_, fun he => absurd he hne2⟩
          · intro hn
            have := h2 (by omega)
            omega
          · intro hn
            omega
        · rename_i hpop
          have := (Pop_eq_none _ _).1 hpop
          rw [htk] at this
          exact absurd this hne2
      · rename_i hge
        obtain ⟨h1, _, h3, _⟩ := ih (i + 1) task (tryNode ssn job task (ssn.Node st.ssn ref) st).1
        rw [htk] at h1
        have h0 := h3 (by omega)
        rw [countPops_append, hcp, h0]
        rw [h0] at h1
        exact ⟨h1, fun _ => Nat.zero_le _, fun _ => rfl, fun _ => rfl⟩

theorem GangTrace_no_panic : ∀ (l : List Event), GangTrace l → Event.panic ∉ l := by
  intro l h
  induction h with
  | nil => exact List.not_mem_nil _
  | job j pl ready rest hpl _ ih =>
    intro hin
    simp only [List.mem_cons, List.mem_append] at hin
    rcases hin with hin | hin | hin | hin | hin
    · cases hin
    · have := hpl _ hin
      simp [Event.isPlacement] at this
    · cases hin
    · cases ready <;> simp at hin
    · exact ih hin

theorem poppedTasks_append (a b : List Event) :
    poppedTasks (a ++ b) = poppedTasks a ++ poppedTasks b := by
  simp [poppedTasks, List.filterMap_append]

theorem poppedTasks_tryNode {σ τ : Type} (ssn : Session σ τ) (job : JobInfo) (task : TaskInfo)
    (node : NodeInfo) (st : Place σ τ) : poppedTasks (tryNode ssn job task node st).2 = [] := by
  rcases tryNode_events ssn job task node st with h | h | h <;>
    rw [h] <;> simp [poppedTasks]

theorem poppedTasks_length (events : List Event) :
    (poppedTasks events).length = countPops events := by
  induction events with
  | nil => rfl
  | cons e es ih =>
    cases e <;> simp [poppedTasks, countPops, Event.isPop] at ih ⊢ <;> omega

theorem tryNode_no_panic {σ τ : Type} (ssn : Session σ τ) (job : JobInfo) (task : TaskInfo)
    (node : NodeInfo) (st : Place σ τ) : Event.panic ∉ (tryNode ssn job task node st).2 := by
  rcases tryNode_events ssn job task node st with h | h | h <;> rw [h] <;> simp

theorem nodeLoop_eq_spec {σ τ : Type} (ssn : Session σ τ) (job : JobInfo) :
    ∀ (refs : List NodeRef) (n i : Nat) (task : TaskInfo) (st : Place σ τ),
      i + refs.length = n →
      nodeLoop ssn job n i refs task st =
        ((specNodeLoop ssn job refs task st).1, (specNodeLoop ssn job refs task st).2.1) := by
  intro refs
  induction refs with
  | nil =>
    intro n i task st _
    simp [nodeLoop, specNodeLoop]
  | cons ref refs ih =>
    intro n i task st hn
    have htk := tryNode_tasks ssn job task (ssn.Node st.ssn ref) st
    simp only [List.length_cons] at hn
    rw [nodeLoop, specNodeLoop]
    dsimp only
    by_cases hempty : PriorityQueue.Empty (tryNode ssn job task (ssn.Node st.ssn ref) st).1.tasks = true
    · rw [if_pos hempty, if_pos hempty]
    · rw [if_neg hempty, if_neg hempty]
      cases refs with
      | nil =>
        have hge : ¬ i < n - 1 := by
          simp only [List.length_nil] at hn
          omega
        rw [if_neg hge]
        simp [nodeLoop]
      | cons ref2 refs2 =>
        have hlt : i < n - 1 := by
          simp only [List.length_cons] at hn
          omega
        rw [if_pos hlt]
        have hne : ¬ ((ref2 :: refs2).isEmpty = true) := by simp
        rw [if_neg hne]
        cases hpop : PriorityQueue.Pop (ssn.TaskOrderFn
            (tryNode ssn job task (ssn.Node st.ssn ref) st).1.ssn)
            (tryNode ssn job task (ssn.Node st.ssn ref) st).1.tasks with
        | none =>
          exfalso
          have := (Pop_eq_none _ _).1 hpop
          rw [this] at hempty
          exact hempty rfl
        | some p =>
          obtain ⟨next, rest⟩ := p
          dsimp only
          rw [ih n (i + 1) next _ (by simp only [List.length_cons] at hn ⊢; omega)]

theorem specNodeLoop_spec {σ τ : Type} (ssn : Session σ τ) (job : JobInfo) :
    ∀ (nodes : List NodeRef) (task : TaskInfo) (st : Place σ τ),
      (specNodeLoop ssn job nodes task st).2.2 =
        List.zip (task :: poppedTasks (specNodeLoop ssn job nodes task st).2.1) nodes ∧
      countPops (specNodeLoop ssn job nodes task st).2.1 ≤ nodes.length - 1 ∧
      (specNodeLoop ssn job nodes task st).1.tasks.length
        + countPops (specNodeLoop ssn job nodes task st).2.1 = st.tasks.length ∧
      Event.panic ∉ (specNodeLoop ssn job nodes task st).2.1 := by
  intro nodes
  induction nodes with
  | nil =>
    intro task st
    simp [specNodeLoop, countPops]
  | cons ref refs ih =>
    intro task st
    have htk := tryNode_tasks ssn job task (ssn.Node st.ssn ref) st
    have hcp := countPops_tryNode ssn job task (ssn.Node st.ssn ref) st
    have hpt := poppedTasks_tryNode ssn job task (ssn.Node st.ssn ref) st
    have hnp := tryNode_no_panic ssn job task (ssn.Node st.ssn ref) st
    have stop : ∀ r : Place σ τ × List Event × List (TaskInfo × NodeRef),
        r = ((tryNode ssn job task (ssn.Node st.ssn ref) st).1,
          (tryNode ssn job task (ssn.Node st.ssn ref) st).2, [(task, ref)]) →
        r.2.2 = List.zip (task :: poppedTasks r.2.1) (ref :: refs) ∧
        countPops r.2.1 ≤ (ref :: refs).length - 1 ∧
        r.1.tasks.length + countPops r.2.1 = st.tasks.length ∧
        Event.panic ∉ r.2.1 := by
      intro r hr
      subst hr
      dsimp only
      rw [hpt, hcp, htk]
      exact ⟨by simp, Nat.zero_le _, rfl, hnp⟩
    rw [specNodeLoop]
    dsimp only
    split
    · exact stop _ rfl
    · split
      · exact stop _ rfl
      · rename_i hne
        split
        · rename_i next rest hpop
          rw [htk] at hpop
          have hlen := Pop_length _ _ _ _ hpop
          obtain ⟨h1, h2, h3, h4⟩ := ih next
            { (tryNode ssn job task (ssn.Node st.ssn ref) st).1 with tasks := rest }
          simp only at h1 h2 h3 h4
          have hpos : 0 < refs.length := by
            cases refs with
            | nil => simp at hne
            | cons _ _ => simp
          dsimp only
          refine ⟨?_, ?_, ?_, ?_⟩
          · rw [poppedTasks_append, hpt]
            simp only [poppedTasks, List.filterMap_cons, List.nil_append, List.zip_cons_cons]
            rw [h1]
            rfl
          · rw [countPops_append, hcp, countPops_cons_pop]
            simp only [List.length_cons]
            omega
          · rw [countPops_append, hcp, countPops_cons_pop]
            omega
          · intro hin
            simp only [List.mem_append, List.mem_cons] at hin
            rcases hin with hin | hin | hin
            · exact hnp hin
            · cases hin
            · exact h4 hin
        · exact stop _ rfl

theorem taskLoop_pass {σ τ : Type} (ssn : Session σ τ) (job : JobInfo) (fuel : Nat)
    (st : Place σ τ) (task : TaskInfo) (rest : PriorityQueue TaskInfo)
    (hpop : PriorityQueue.Pop (ssn.TaskOrderFn st.ssn) st.tasks = some (task, rest))
    (hfound : (feasibleNodes ssn job st task).length ≠ 0) :
    taskLoop ssn job (fuel + 1) st =
      ((taskLoop ssn job fuel (specPass ssn job st task rest).1).1,
        Event.popTask task :: (specPass ssn job st task rest).2.1 ++
          (taskLoop ssn job fuel (specPass ssn job st task rest).1).2) := by
  rw [taskLoop]
  simp only [hpop]
  unfold feasibleNodes at hfound
  rw [if_neg hfound]
  rw [nodeLoop_eq_spec ssn job _ _ 0 task _ (by omega)]
  rfl

/-- Claim C19: in the node loop of `Execute` a next task is popped only when the heap is not
empty and `i < len(nodes) - 1`. In every run of `Execute` no pop is made on an empty heap.
In the node loop, with an empty heap or from an index `i` with `len(nodes) <= i + 1` on,
nothing is popped, and every pop removes one task from the heap. Every iteration of the task
loop that finds a feasible node runs, on the nodes selected for the popped task, the pass of
the specification, in which a task is popped only with a non-empty heap and a node that
follows; in such a pass the pairs of task and node handed to the placement are the task at
hand and the popped tasks, in order, each with its own node of the selected nodes, in order:
every popped task has the next node as its target, and the tasks tried are at most the
selected nodes. -/
theorem nodeLoop_pop_guard {σ τ : Type} (ssn : Session σ τ) (job : JobInfo) :
    (∀ (s : σ) (fuel : Nat), Event.panic ∉ (Execute ssn s fuel).2) ∧
    (∀ (n i : Nat) (refs : List NodeRef) (task : TaskInfo) (st : Place σ τ),
      Event.panic ∉ (nodeLoop ssn job n i refs task st).2 ∧
      (st.tasks = [] → countPops (nodeLoop ssn job n i refs task st).2 = 0) ∧
      (n ≤ i + 1 → countPops (nodeLoop ssn job n i refs task st).2 = 0) ∧
      (nodeLoop ssn job n i refs task st).1.tasks.length
        + countPops (nodeLoop ssn job n i refs task st).2 = st.tasks.length) ∧
    (∀ (i : Nat) (ref : NodeRef) (refs : List NodeRef) (task : TaskInfo) (st : Place σ τ),
      countPops (nodeLoop ssn job (i + 1 + refs.length) i (ref :: refs) task st).2
        ≤ refs.length) ∧
    (∀ (nodes : List NodeRef) (task : TaskInfo) (st : Place σ τ), nodes ≠ [] →
      1 + countPops (nodeLoop ssn job nodes.length 0 nodes task st).2 ≤ nodes.length) ∧
    (∀ (fuel : Nat) (st : Place σ τ) (task : TaskInfo) (rest : PriorityQueue TaskInfo),
      PriorityQueue.Pop (ssn.TaskOrderFn st.ssn) st.tasks = some (task, rest) →
      (feasibleNodes ssn job st task).length ≠ 0 →
      taskLoop ssn job (fuel + 1) st =
        ((taskLoop ssn job fuel (specPass ssn job st task rest).1).1,
          Event.popTask task :: (specPass ssn job st task rest).2.1 ++
            (taskLoop ssn job fuel (specPass ssn job st task rest).1).2) ∧
      (specPass ssn job st task rest).2.2 =
        List.zip (task :: poppedTasks (specPass ssn job st task rest).2.1)
          (selectedNodes ssn job st task rest) ∧
      (selectedNodes ssn job st task rest ≠ [] →
        (task :: poppedTasks (specPass ssn job st task rest).2.1).length
          ≤ (selectedNodes ssn job st task rest).length) ∧
      (specPass ssn job st task rest).2.2.length ≤ (selectedNodes ssn job st task rest).length ∧
      (specPass ssn job st task rest).1.tasks.length
        + (poppedTasks (specPass ssn job st task rest).2.1).length = rest.length ∧
      Event.panic ∉ (specPass ssn job st task rest).2.1) := by
  refine ⟨?_, ?_, ?_, ?_, ?_⟩
  · intro s fuel
    exact GangTrace_no_panic _ (mainLoop_gang ssn fuel _)
  · intro n i refs task st
    obtain ⟨h1, _, h3, h4⟩ := nodeLoop_count ssn job n refs i task st
    refine ⟨?_, h4, h3, h1⟩
    intro hin
    have := nodeLoop_placement ssn job n refs i task st _ hin
    simp [Event.isPlacement] at this
  · intro i ref refs task st
    have := (nodeLoop_count ssn job (i + 1 + refs.length) (ref :: refs) i task st).2.1
      (by simp only [List.length_cons]; omega)
    simpa using this
  · intro nodes task st hne
    have := (nodeLoop_count ssn job nodes.length nodes 0 task st).2.1 (by omega)
    have hpos : 0 < nodes.length := List.length_pos.2 hne
    omega
  · intro fuel st task rest hpop hfound
    obtain ⟨h1, h2, h3, h4⟩ := specNodeLoop_spec ssn job (selectedNodes ssn job st task rest) task
      { ssn := resetNodesFitDelta ssn st.ssn job, stmt := st.stmt, tasks := rest }
    have hlen := poppedTasks_length (specPass ssn job st task rest).2.1
    refine ⟨taskLoop_pass ssn job fuel st task rest hpop hfound, h1, ?_, ?_, ?_, h4⟩
    · intro hne
      have hpos : 0 < (selectedNodes ssn job st task rest).length := List.length_pos.2 hne
      simp only [List.length_cons]
      rw [hlen]
      unfold specPass
      omega
    · unfold specPass
      rw [h1]
      simp only [List.length_zip]
      exact Nat.min_le_right _ _
    · rw [hlen]
      exact h3

/-- Witness of C19 on `packSession`, a pass with a pop: the task loop pops `smallTask`,
both nodes are feasible and selected, the pass hands `smallTask` to `big`, pops `largeTask`
and hands it to `little`; the first iteration of the task loop is that pass. On
`demoSession`, with one node and two tasks, the pass of the first task pops nothing, and the
second task is popped by the task loop and placed in a pass of its own. -/
theorem nodeLoop_pop_guard_witness :
    (taskLoop demoSession demoJob2 2 { ssn := (), stmt := (), tasks := [demoTask, demoTaskB] }).2
      = [Event.popTask demoTask, Event.allocate demoTask "node1",
          Event.popTask demoTaskB, Event.allocate demoTaskB "node1"] ∧
    (specPass demoSession demoJob2 { ssn := (), stmt := (), tasks := [demoTask, demoTaskB] }
      demoTask [demoTaskB]).2.2 = [(demoTask, "node1")] ∧
    PriorityQueue.Pop (packSession.TaskOrderFn packStart) [smallTask, largeTask]
      = some (smallTask, [largeTask]) ∧
    (feasibleNodes packSession packJob
      { ssn := packStart, stmt := [], tasks := [smallTask, largeTask] } smallTask).length ≠ 0 ∧
    selectedNodes packSession packJob
      { ssn := packStart, stmt := [], tasks := [smallTask, largeTask] } smallTask [largeTask]
      = ["big", "little"] ∧
    (specPass packSession packJob
      { ssn := packStart, stmt := [], tasks := [smallTask, largeTask] } smallTask
      [largeTask]).2.2 = [(smallTask, "big"), (largeTask, "little")] ∧
    (taskLoop packSession packJob 2
      { ssn := packStart, stmt := [], tasks := [smallTask, largeTask] }).2
      = [Event.popTask smallTask, Event.allocate smallTask "big", Event.popTask largeTask] ∧
    taskLoop packSession packJob (1 + 1)
      { ssn := packStart, stmt := [], tasks := [smallTask, largeTask] } =
      ((taskLoop packSession packJob 1 (specPass packSession packJob
          { ssn := packStart, stmt := [], tasks := [smallTask, largeTask] } smallTask
          [largeTask]).1).1,
        Event.popTask smallTask :: (specPass packSession packJob
          { ssn := packStart, stmt := [], tasks := [smallTask, largeTask] } smallTask
          [largeTask]).2.1 ++
          (taskLoop packSession packJob 1 (specPass packSession packJob
            { ssn := packStart, stmt := [], tasks := [smallTask, largeTask] } smallTask
            [largeTask]).1).2) :=
  ⟨by decide, by decide, by decide, by decide, by decide, by decide, by decide,
    ((nodeLoop_pop_guard packSession packJob).2.2.2.2 1
      { ssn := packStart, stmt := [], tasks := [smallTask, largeTask] } smallTask [largeTask]
      (by decide) (by decide)).1⟩

/-! ## Termination of the main loop -/

theorem sum_mapSet {κ ν : Type} [DecidableEq κ] (f : ν → Nat) (m : GoMap κ ν) (k : κ) (v : ν) :
    ((mapSet m k v).map (fun p => f p.2)).sum + (mapGet m k).elim 0 f
      = (m.map (fun p => f p.2)).sum + f v := by
  induction m with
  | nil => simp [mapSet, mapGet]
  | cons p m ih =>
    obtain ⟨a, b⟩ := p
    by_cases h : a = k
    · subst h
      simp only [mapSet, mapGet, if_true, List.map_cons, List.sum_cons, Option.elim_some]
      omega
    · simp only [mapSet, mapGet, h, if_false, List.map_cons, List.sum_cons]
      omega

theorem queueMapJobs_filter (qm : GoMap QueueID (PriorityQueue JobInfo))
    (keep : QueueID × PriorityQueue JobInfo → Bool) :
    queueMapJobs (qm.filter keep) ≤ queueMapJobs qm := by
  induction qm with
  | nil => simp [queueMapJobs]
  | cons e qm ih =>
    unfold queueMapJobs at ih ⊢
    by_cases h : keep e = true
    · simp only [List.filter_cons, h, if_true, List.map_cons, List.sum_cons]
      omega
    · simp only [List.filter_cons, h, List.map_cons, List.sum_cons]
      simp only [Bool.false_eq_true, if_false]
      omega

theorem totalJobs_mapSet (jm : JobsMap) (ns : NamespaceName)
    (old new : GoMap QueueID (PriorityQueue JobInfo)) (h : mapGet jm ns = some old) :
    totalJobs (mapSet jm ns new) + queueMapJobs old = totalJobs jm + queueMapJobs new := by
  have := sum_mapSet queueMapJobs jm ns new
  rw [h] at this
  exact this

theorem totalJobs_scan {σ τ : Type} (ssn : Session σ τ) (s : σ) (jm : JobsMap)
    (ns : NamespaceName) (qin : GoMap QueueID (PriorityQueue JobInfo))
    (h : mapGet jm ns = some qin) :
    totalJobs (mapSet jm ns (selectQueue ssn s qin none).1) ≤ totalJobs jm := by
  have h1 := totalJobs_mapSet jm ns qin (selectQueue ssn s qin none).1 h
  have h2 : queueMapJobs (selectQueue ssn s qin none).1 ≤ queueMapJobs qin := by
    rw [selectQueue_fst]
    exact queueMapJobs_filter _ _
  omega

theorem totalJobs_pop {σ τ : Type} (ssn : Session σ τ) (s : σ) (jm : JobsMap)
    (ns : NamespaceName) (qin : GoMap QueueID (PriorityQueue JobInfo)) (q : QueueID)
    (jobs jobs1 : PriorityQueue JobInfo) (h : mapGet jm ns = some qin)
    (hq : mapGet (selectQueue ssn s qin none).1 q = some jobs)
    (hlen : jobs.length = jobs1.length + 1) :
    totalJobs (mapSet jm ns (mapSet (selectQueue ssn s qin none).1 q jobs1)) + 1
      ≤ totalJobs jm := by
  have h1 := totalJobs_mapSet jm ns qin (mapSet (selectQueue ssn s qin none).1 q jobs1) h
  have h2 : queueMapJobs (selectQueue ssn s qin none).1 ≤ queueMapJobs qin := by
    rw [selectQueue_fst]
    exact queueMapJobs_filter _ _
  have h3 := sum_mapSet (fun js : PriorityQueue JobInfo => js.length)
    (selectQueue ssn s qin none).1 q jobs1
  rw [hq] at h3
  simp only [Option.elim_some] at h3
  unfold queueMapJobs at h1 h2
  omega

/-- The bound on the remaining iterations of the main loop: namespaces on the heap plus jobs
in the heaps of `jobsMap`. -/
theorem mainLoop_finished {σ τ : Type} (ssn : Session σ τ) :
    ∀ (fuel : Nat) (st : Loop σ), st.namespaces.length + totalJobs st.jobsMap ≤ fuel →
      (mainLoop ssn fuel st).1.namespaces = [] ∧
      mainLoop ssn (fuel + 1) st = mainLoop ssn fuel st := by
  intro fuel
  induction fuel with
  | zero =>
    intro st h
    have hnil : st.namespaces = [] := List.length_eq_zero.1 (by omega)
    simp [mainLoop, hnil, PriorityQueue.Pop]
  | succ fuel ih =>
    intro st h
    conv => rhs; lhs; rw [mainLoop]
    conv => rhs; rhs; rw [mainLoop]
    conv => lhs; rw [mainLoop]
    split
    · rename_i hpop
      exact ⟨(Pop_eq_none _ _).1 hpop, rfl⟩
    · rename_i ns others hpop
      have hlen := Pop_length _ _ _ _ hpop
      split
      · exact ih _ (by simp only; omega)
      · rename_i qin hget
        have hscan := totalJobs_scan ssn st.ssn st.jobsMap ns qin hget
        dsimp only
        split
        · exact ih _ (by simp only; omega)
        · split
          · exact ih _ (by simp only; omega)
          · rename_i jobs hjobs
            split
            · exact ih _ (by simp only; omega)
            · rename_i job jobs1 hjpop
              have hjlen := Pop_length _ _ _ _ hjpop
              have hdec := totalJobs_pop ssn st.ssn st.jobsMap ns qin _ jobs jobs1 hget hjobs hjlen
              have step : ∀ (st2 : Loop σ) (nsq : PriorityQueue NamespaceName),
                  nsq.length + totalJobs st2.jobsMap ≤ fuel →
                  ((mainLoop ssn fuel
                      { (allocateJob ssn st2 job).1 with namespaces := nsq }).1,
                    (allocateJob ssn st2 job).2 ++ (mainLoop ssn fuel
                      { (allocateJob ssn st2 job).1 with namespaces := nsq }).2).1.namespaces
                      = [] ∧
                  ((mainLoop ssn (fuel + 1)
                      { (allocateJob ssn st2 job).1 with namespaces := nsq }).1,
                    (allocateJob ssn st2 job).2 ++ (mainLoop ssn (fuel + 1)
                      { (allocateJob ssn st2 job).1 with namespaces := nsq }).2)
                    = ((mainLoop ssn fuel
                      { (allocateJob ssn st2 job).1 with namespaces := nsq }).1,
                    (allocateJob ssn st2 job).2 ++ (mainLoop ssn fuel
                      { (allocateJob ssn st2 job).1 with namespaces := nsq }).2) := by
                intro st2 nsq hb
                have hs := ih { (allocateJob ssn st2 job).1 with namespaces := nsq }
                  (by simp only [allocateJob_jobsMap]; exact hb)
                exact ⟨hs.1, by rw [hs.2]⟩
              exact step _ _ (by
                simp only [PriorityQueue.Push, List.length_append, List.length_singleton]
                omega)

theorem totalJobs_bucketJob {σ τ : Type} (ssn : Session σ τ) (s : σ)
    (acc : PriorityQueue NamespaceName × JobsMap) (job : JobInfo) :
    totalJobs (bucketJob ssn s acc job).2
      = totalJobs acc.2 + (if eligible ssn s job = true then 1 else 0) := by
  rw [bucketJob_eq]
  by_cases he : eligible ssn s job = true
  · rw [if_pos he, if_pos he]
    have h1 : ∀ X, totalJobs (mapSet acc.2 job.Namespace X)
        + (mapGet acc.2 job.Namespace).elim 0 queueMapJobs
        = totalJobs acc.2 + queueMapJobs X :=
      fun X => sum_mapSet queueMapJobs acc.2 job.Namespace X
    have h2 : ∀ (qm : GoMap QueueID (PriorityQueue JobInfo)) (Y : PriorityQueue JobInfo),
        queueMapJobs (mapSet qm job.Queue Y)
        + (mapGet qm job.Queue).elim 0 (fun js => js.length)
        = queueMapJobs qm + Y.length :=
      fun qm Y => sum_mapSet (fun js : PriorityQueue JobInfo => js.length) qm job.Queue Y
    cases hns : mapGet acc.2 job.Namespace with
    | none =>
      have hjs : jobsAt acc.2 job.Namespace job.Queue = [] := by simp [jobsAt, hns]
      have h1a := h1 (mapSet [] job.Queue [job])
      have h2a := h2 [] [job]
      rw [hns] at h1a
      simp only [mapGet, Option.elim_none, List.length_singleton] at h2a h1a
      have h0 : queueMapJobs ([] : GoMap QueueID (PriorityQueue JobInfo)) = 0 := rfl
      rw [hjs]
      simp only [Option.getD_none, List.nil_append]
      omega
    | some old =>
      have h1a := h1 (mapSet old job.Queue (jobsAt acc.2 job.Namespace job.Queue ++ [job]))
      have h2a := h2 old (jobsAt acc.2 job.Namespace job.Queue ++ [job])
      rw [hns] at h1a
      simp only [Option.getD_some]
      have hjs : jobsAt acc.2 job.Namespace job.Queue = (mapGet old job.Queue).getD [] := by
        simp [jobsAt, hns]
      have hlen : (jobsAt acc.2 job.Namespace job.Queue ++ [job]).length
          = (mapGet old job.Queue).elim 0 (fun js => js.length) + 1 := by
        rw [hjs]
        cases mapGet old job.Queue <;> simp
      simp only [Option.elim_some] at h1a
      omega
  · rw [if_neg he, if_neg he]
    rfl

theorem totalJobs_bucketise {σ τ : Type} (ssn : Session σ τ) (s : σ) :
    totalJobs (bucketise ssn s).2 = (ssn.Jobs.filter (eligible ssn s)).length := by
  have key : ∀ (l : List JobInfo) (acc : PriorityQueue NamespaceName × JobsMap),
      totalJobs (l.foldl (bucketJob ssn s) acc).2
        = totalJobs acc.2 + (l.filter (eligible ssn s)).length := by
    intro l
    induction l with
    | nil => intro acc; simp
    | cons j l ih =>
      intro acc
      simp only [List.foldl_cons]
      rw [ih, totalJobs_bucketJob]
      by_cases he : eligible ssn s j = true
      · simp only [he, if_true, List.filter_cons, List.length_cons]
        omega
      · simp only [he, List.filter_cons]
        simp
  have := key ssn.Jobs ([], [])
  simpa [bucketise, totalJobs] using this

theorem mainLoop_more_fuel {σ τ : Type} (ssn : Session σ τ) (fuel : Nat) (st : Loop σ)
    (h : st.namespaces.length + totalJobs st.jobsMap ≤ fuel) :
    ∀ extra, mainLoop ssn (fuel + extra) st = mainLoop ssn fuel st := by
  intro extra
  induction extra with
  | zero => rfl
  | succ k ih =>
    rw [← Nat.add_assoc, (mainLoop_finished ssn (fuel + k) st (by omega)).2, ih]

/-- C20. `Execute` runs to completion: with a bound on the iterations of its main loop of at
least the number of namespaces on the namespace heap plus the number of eligible jobs, the
main loop ends with an empty namespace heap, and a larger bound gives the same run, so the
main loop makes at most that many iterations. The task loop of a job ends within as many
iterations as the task heap holds tasks, and the node loop never adds a task to the heap. -/
theorem Execute_terminates {σ τ : Type} (ssn : Session σ τ) (s : σ) (fuel : Nat)
    (h : (bucketise ssn s).1.length + (ssn.Jobs.filter (eligible ssn s)).length ≤ fuel) :
    (Execute ssn s fuel).1.namespaces = [] ∧
    (∀ extra, Execute ssn s (fuel + extra) = Execute ssn s fuel) ∧
    (∀ (job : JobInfo) (st : Place σ τ) (extra : Nat),
      taskLoop ssn job (st.tasks.length + extra) st = taskLoop ssn job st.tasks.length st) ∧
    (∀ (job : JobInfo) (n i : Nat) (refs : List NodeRef) (task : TaskInfo) (st : Place σ τ),
      (nodeLoop ssn job n i refs task st).1.tasks.length ≤ st.tasks.length) := by
  have hb : (bucketise ssn s).1.length + totalJobs (bucketise ssn s).2 ≤ fuel := by
    rw [totalJobs_bucketise]; exact h
  refine ⟨?_, ?_, ?_, ?_⟩
  · exact (mainLoop_finished ssn fuel _ hb).1
  · intro extra
    exact mainLoop_more_fuel ssn fuel _ hb extra
  · intro job st extra
    exact taskLoop_ended ssn job st extra
  · intro job n i refs task st
    exact nodeLoop_length ssn job n refs i task st

/-- Witness of C20 on the concrete session: one namespace and two eligible jobs, so three
iterations are enough and the run ends with an empty namespace heap. -/
theorem Execute_terminates_witness :
    (bucketise demoSession ()).1.length
      + (demoSession.Jobs.filter (eligible demoSession ())).length ≤ 3 ∧
    (Execute demoSession () 3).1.namespaces = [] :=
  ⟨by decide, (Execute_terminates demoSession () 3 (by decide)).1⟩

/-! ## The timeout of the telemetry client -/

/-- The value `wrapInt64 x` lies in the range of `int64`. -/
theorem wrapInt64_range (x : Int) : -(2 ^ 63) ≤ wrapInt64 x ∧ wrapInt64 x < 2 ^ 63 := by
  unfold wrapInt64
  have h1 := Int.emod_nonneg (x + 2 ^ 63) (by norm_num : (2 ^ 64 : Int) ≠ 0)
  have h2 := Int.emod_lt_of_pos (x + 2 ^ 63) (by norm_num : (0 : Int) < 2 ^ 64)
  constructor <;> omega

/-- The value `wrapInt64 x` is congruent to `x` modulo `2 ^ 64`. -/
theorem wrapInt64_emod (x : Int) : wrapInt64 x % 2 ^ 64 = x % 2 ^ 64 := by
  unfold wrapInt64
  omega

/-- Claim C21: `NewArchimedesMetricsClient` stores as the HTTP timeout the `int64` product of
`MetricsTimeout` (in nanoseconds) and `time.Second` = 1,000,000,000: the value in the signed
64-bit range that is congruent to the exact product modulo `2 ^ 64`. For the default
`MetricsTimeout` of 60 s the exact product `6 * 10 ^ 19` exceeds `2 ^ 63 - 1`, and the stored
timeout is 4659767778871345152 ns, which is not the configured 60000000000 ns. -/
theorem NewArchimedesMetricsClient_timeout :
    (∀ options : ArchimedesMetricsOption,
      -(2 ^ 63) ≤ (NewArchimedesMetricsClient options).client.Timeout ∧
      (NewArchimedesMetricsClient options).client.Timeout < 2 ^ 63 ∧
      (NewArchimedesMetricsClient options).client.Timeout % 2 ^ 64 =
        (options.MetricsTimeout * 1000000000) % 2 ^ 64) ∧
    defaultArchimedesMetricsOption.MetricsTimeout = 60 * time.Second ∧
    defaultArchimedesMetricsOption.MetricsTimeout * time.Second = 6 * 10 ^ 19 ∧
    defaultArchimedesMetricsOption.MetricsTimeout * time.Second > 2 ^ 63 - 1 ∧
    (NewArchimedesMetricsClient defaultArchimedesMetricsOption).client.Timeout =
      4659767778871345152 ∧
    (NewArchimedesMetricsClient defaultArchimedesMetricsOption).client.Timeout ≠
      defaultArchimedesMetricsOption.MetricsTimeout := by
  refine ⟨fun options => ⟨(wrapInt64_range _).1, (wrapInt64_range _).2, ?_⟩, ?_, ?_, ?_, ?_, ?_⟩
  · exact wrapInt64_emod _
  · decide
  · decide
  · decide
  · decide
  · decide

/-! ## A task lost in the node loop -/

/-- Claim C22: there is a session in which `Execute` drops a task silently. In `packSession`
(nodes `big` with 4000m and `little` with 1000m CPU idle, one job with the pending tasks
`smallTask` of 1000m and `largeTask` of 3000m) the nodes selected for `smallTask` are `big`
and `little`; the node loop allocates `smallTask` on `big`, pops `largeTask` for `little` and
leaves the task heap empty; `largeTask` is `LessEqual` neither to the idle nor to the
releasing resources of `little`. The trace of `Execute` holds no allocation, no pipelining and
no fit-error record of `largeTask`; when the main loop has ended the heap `pendingTasks[J]`
is empty, `NodesFitErrors` has no entry, the only task placed is `smallTask`, the only node
with a shortfall recorded is `little`, and `big` still has idle resources that cover
`largeTask`, so that the node-loop body applied to `largeTask` and `big` would allocate it. -/
theorem Execute_drops_task :
    packSession.SelectTopNodes
        (packSession.PrioritizeNodes packStart smallTask
          (packSession.PredicateNodes packStart smallTask packSession.Nodes
            (fun t n => (predicateFn packSession packStart t n).1)).1)
        (PriorityQueue.Len [largeTask] + 1) = ["big", "little"] ∧
    (nodeLoop packSession packJob 2 0 ["big", "little"] smallTask
        { ssn := packStart, stmt := [], tasks := [largeTask] }).2 =
      [Event.allocate smallTask "big", Event.popTask largeTask] ∧
    (nodeLoop packSession packJob 2 0 ["big", "little"] smallTask
        { ssn := packStart, stmt := [], tasks := [largeTask] }).1.tasks = [] ∧
    packSession.LessEqual largeTask.InitResreq
        (packSession.Node (Execute packSession packStart 5).1.ssn "little").Idle = false ∧
    packSession.LessEqual largeTask.InitResreq
        (packSession.Node (Execute packSession packStart 5).1.ssn "little").Releasing = false ∧
    (Execute packSession packStart 5).2 =
      [Event.popJob packJob, Event.popTask smallTask, Event.allocate smallTask "big",
        Event.popTask largeTask, Event.jobReady packJob true, Event.commit packJob] ∧
    (Execute packSession packStart 5).1.namespaces = [] ∧
    mapGet (Execute packSession packStart 5).1.pendingTasks packJob.UID = some [] ∧
    (Execute packSession packStart 5).1.ssn.NodesFitErrors = [] ∧
    (Execute packSession packStart 5).1.ssn.Allocated = [(smallTask, "big")] ∧
    (Execute packSession packStart 5).1.ssn.Pipelined = [] ∧
    ((mapGet (Execute packSession packStart 5).1.ssn.NodesFitDelta packJob.UID).getD []).map
        Prod.fst = ["little"] ∧
    packSession.LessEqual largeTask.InitResreq
        (packSession.Node (Execute packSession packStart 5).1.ssn "big").Idle = true ∧
    (tryNode packSession packJob largeTask
        (packSession.Node (Execute packSession packStart 5).1.ssn "big")
        { ssn := (Execute packSession packStart 5).1.ssn, stmt := [], tasks := [] }).2 =
      [Event.allocate largeTask "big"] := by
  refine ⟨by decide, by decide, by decide, by decide, by decide, by decide, by decide,
    by decide, by decide, by decide, by decide, by decide, ?_, ?_⟩
  · with_unfolding_all decide
  · have h : packSession.LessEqual largeTask.InitResreq
        (packSession.Node (Execute packSession packStart 5).1.ssn "big").Idle = true := by
      with_unfolding_all decide
    unfold tryNode
    rw [if_pos h]
    decide

end Volcano
